import Mathlib

/-!
# Big Trip: presenter / view synchronisation

A shallow embedding of `src/view/edit-form-view.js`,
`src/presenter/trip-event-presenter.js` and `src/presenter/app-presenter.js`.

* Objects with private mutable fields become structures; a method becomes a
  function from the old state to the new one.
* A view component is represented by the identity of the component object (a
  natural number handed out by a counter); the HTML it renders is not modelled.
* A handler that can throw returns an `Outcome`: the state reached when the
  handler finished, or the state reached at the moment the exception left it
  (JavaScript keeps every assignment made before the throw).
-/

namespace BigTrip

/-! ## Data model -/

/-- A trip event as the presenters and the form exchange it. `none` stands for
`null` (the create draft has `id: null`, `basePrice: null`, `destination: null`). -/
structure TripEvent where
  id : Option Nat
  basePrice : Option Nat
  dateFrom : Int
  dateTo : Int
  destination : Option Nat
  isFavorite : Bool
  offers : List Nat
  type : String
deriving DecidableEq, Repr

/-- A destination of the reference data. Only `id` and `name` are read by the
handlers modelled here. -/
structure Destination where
  id : Nat
  name : String
deriving DecidableEq, Repr

/-! ## JavaScript `Set` of numbers

A `Set` iterates in insertion order and holds each value once, so it is kept as
the list of its elements in insertion order. -/

/-- `Set.prototype.add`: a value already present is not inserted again. -/
def setAdd (s : List Nat) (x : Nat) : List Nat :=
  if x ∈ s then s else s ++ [x]

/-- `new Set(array)`: the elements are added one by one, left to right. -/
def newSet (xs : List Nat) : List Nat :=
  xs.foldl setAdd []

/-- `Array.from(set)`: the elements in insertion order. -/
def arrayFrom (s : List Nat) : List Nat := s

/-! ## `EditFormView` -/

/-- The `_state` of an `EditFormView`: the fields of a trip event, with `offers`
held as a `Set` (its elements in insertion order). -/
structure FormState where
  id : Option Nat
  basePrice : Option Nat
  dateFrom : Int
  dateTo : Int
  destination : Option Nat
  isFavorite : Bool
  offers : List Nat
  type : String
deriving DecidableEq, Repr

/-- What an input handler leaves behind: the draft and `evt.target.value`. -/
structure InputResult where
  state : FormState
  value : String
deriving DecidableEq, Repr

namespace EditFormView

/-- `static parseTripEventToState(tripEvent)`:
`{...tripEvent, offers: new Set(tripEvent.offers)}`. -/
def parseTripEventToState (tripEvent : TripEvent) : FormState :=
  { id := tripEvent.id
    basePrice := tripEvent.basePrice
    dateFrom := tripEvent.dateFrom
    dateTo := tripEvent.dateTo
    destination := tripEvent.destination
    isFavorite := tripEvent.isFavorite
    offers := newSet tripEvent.offers
    type := tripEvent.type }

/-- `static parseStateToTripEvent(state)`:
`{...state, offers: Array.from(state.offers)}`. -/
def parseStateToTripEvent (state : FormState) : TripEvent :=
  { id := state.id
    basePrice := state.basePrice
    dateFrom := state.dateFrom
    dateTo := state.dateTo
    destination := state.destination
    isFavorite := state.isFavorite
    offers := arrayFrom state.offers
    type := state.type }

/-- `#onChangeTipEventTypeHandler`:
`this.updateElement({type: evt.target.value, offers: new Set()})`. -/
def onChangeTipEventTypeHandler (state : FormState) (value : String) : FormState :=
  { state with type := value, offers := newSet [] }

/-- `#onChangeDestinationHandler`: `find` returns the first destination whose
name is `===` the text; without one the input is set to `''` and the handler
returns, otherwise `updateElement({destination: selectedDestination.id})`. -/
def onChangeDestinationHandler (destinations : List Destination) (state : FormState)
    (value : String) : InputResult :=
  match destinations.find? (fun destination => destination.name == value) with
  | none => { state := state, value := "" }
  | some selectedDestination =>
    { state := { state with destination := some selectedDestination.id }, value := value }

/-- `value.replace(/\D/g, '')`: every character that is not one of `0`..`9` is dropped. -/
def stripNonDigits (value : String) : String :=
  String.mk (value.data.filter Char.isDigit)

/-- `Number(price)` on a text made of decimal digits only: its decimal value, and
`0` for the empty text. (Exact for values a double represents exactly.) -/
def Number (price : String) : Nat :=
  price.data.foldl (fun n c => 10 * n + (c.toNat - 48)) 0

/-- `#onChangePrice`: `price = value.replace(/\D/g, '')`, `evt.target.value = price`,
`this._setState({basePrice: Number(price)})`. -/
def onChangePrice (state : FormState) (value : String) : InputResult :=
  let price := stripNonDigits value
  { state := { state with basePrice := some (Number price) }, value := price }

/-- `#onChangeDateFrom`: `this._setState({dateFrom: newDate})`. -/
def onChangeDateFrom (state : FormState) (newDate : Int) : FormState :=
  { state with dateFrom := newDate }

/-- `#onChangeDateTo`: `this._setState({dateTo: newDate})`. -/
def onChangeDateTo (state : FormState) (newDate : Int) : FormState :=
  { state with dateTo := newDate }

/-- `#formSubmitHandler`: the value handed to `onSubmit`, namely
`parseStateToTripEvent(this._state)`; nothing is checked before the call. -/
def formSubmitHandler (state : FormState) : TripEvent :=
  parseStateToTripEvent state

end EditFormView

/-! ## Constants and helpers that live outside `src/` -/

/-- Modelled from the spec: `FilterType` of `const` (not in src), "enum:
EVERYTHING | FUTURE | PRESENT | PAST". -/
inductive FilterType where
  | EVERYTHING | FUTURE | PRESENT | PAST
deriving DecidableEq, Repr

/-- Modelled from the spec: `SortType` of `const` (not in src), "enum: DAY | TIME | PRICE". -/
inductive SortType where
  | DAY | TIME | PRICE
deriving DecidableEq, Repr

/-- Modelled from the spec: `UpdateType` of `const` (not in src), "one of: PATCH,
MINOR, MAJOR, INIT". -/
inductive UpdateType where
  | PATCH | MINOR | MAJOR | INIT
deriving DecidableEq, Repr

/-- The functions imported from `utils/trip-event` (not in src), taken as
parameters: the filter and the two comparators handed to `Array.prototype.sort`. -/
structure Utils where
  filterTripEvents : FilterType → List TripEvent → List TripEvent
  sortByTime : TripEvent → TripEvent → Int
  sortByPrice : TripEvent → TripEvent → Int

/-- `Array.prototype.sort(compare)`: a stable sort in which `a` stays before `b`
unless `compare(a, b) > 0`. -/
def arraySort (compare : TripEvent → TripEvent → Int) (xs : List TripEvent) : List TripEvent :=
  xs.insertionSort (fun a b => compare a b ≤ 0)

/-- Modelled from the spec: `TripEventModel.name`, the class name the trip event
model sends with its INIT notification (the model classes are not in src). -/
def TripEventModel.name : String := "TripEventModel"

/-- Modelled from the spec: `OfferModel.name` (the model classes are not in src). -/
def OfferModel.name : String := "OfferModel"

/-- Modelled from the spec: `DestinationModel.name` (the model classes are not in src). -/
def DestinationModel.name : String := "DestinationModel"

/-! ## The render utility

Modelled from the spec (§6; `framework/render` is not in src): `mount`, `replace`
("fails if either component lacks a materialized anchor") and `unmount`
("idempotent no-op if already detached"). A parent element is the list of the
views mounted in it, in document order. -/

/-- Modelled from the spec: `remove(component)` of `framework/render`, unmounting
a view; a no-op when the view is not mounted. -/
def remove (view : Nat) (children : List Nat) : List Nat :=
  children.filter (fun c => c != view)

/-- Modelled from the spec: `remove(component)` of `framework/render` on a field
that may still be `null`. -/
def removeComponent (view : Option Nat) (children : List Nat) : List Nat :=
  match view with
  | none => children
  | some v => remove v children

/-- Modelled from the spec: `render(component, container)` of `framework/render`,
appending the view as the last child (an element already in the document moves). -/
def render (view : Nat) (children : List Nat) : List Nat :=
  remove view children ++ [view]

/-- Modelled from the spec: `replace(newComponent, oldComponent)` of
`framework/render`; `none` when the old view has no parent (the call throws). -/
def replace (newView oldView : Nat) (children : List Nat) : Option (List Nat) :=
  if oldView ∈ children then
    if newView = oldView then some children
    else some ((remove newView children).map (fun c => if c = oldView then newView else c))
  else none

/-! ## `Map` keyed by trip event id -/

/-- `Map.prototype.get`; `none` is `undefined`. -/
def mapGet {V : Type} : List (Option Nat × V) → Option Nat → Option V
  | [], _ => none
  | (k', v) :: rest, k => if k' = k then some v else mapGet rest k

/-- `Map.prototype.set`: an existing key keeps its place, a new key goes last. -/
def mapSet {V : Type} : List (Option Nat × V) → Option Nat → V → List (Option Nat × V)
  | [], k, v => [(k, v)]
  | (k', v') :: rest, k, v =>
    if k' = k then (k, v) :: rest else (k', v') :: mapSet rest k v

/-! ## `TripEventPresenter` -/

/-- An `EditFormView` instance: the identity of the component and its `_state`. -/
structure EditForm where
  view : Nat
  state : FormState
deriving DecidableEq, Repr

/-- The private fields of a `TripEventPresenter`. `pid` is the identity of the
presenter object; `escKeyDownBound` records whether `#escKeyDown` is registered
on `document`. The reference data (`#offers`, `#destinations`) and the callbacks
are fixed at construction and are not part of the state. -/
structure TripEventPresenter where
  pid : Nat
  tripEvent : Option TripEvent
  tripEventComponent : Option Nat
  editTripEventComponent : Option EditForm
  isOpenEdit : Bool
  escKeyDownBound : Bool
deriving DecidableEq, Repr

/-- What a presenter method leaves behind: the presenter, the children of the
list element, and whether the method threw. -/
structure PresenterResult where
  presenter : TripEventPresenter
  listChildren : List Nat
  threw : Bool
deriving DecidableEq, Repr

namespace TripEventPresenter

/-- The presenter right after `new TripEventPresenter(...)`. -/
def create (pid : Nat) : TripEventPresenter :=
  { pid := pid
    tripEvent := none
    tripEventComponent := none
    editTripEventComponent := none
    isOpenEdit := false
    escKeyDownBound := false }

/-- `init(tripEvent)`. The two new views take the identities `nextView` and
`nextView + 1`. On the first call the display view is rendered into the list;
afterwards the new edit form replaces the old one when `#isOpenEdit`, else the new
display view replaces the old one, and both old views are removed. -/
def init (p : TripEventPresenter) (tripEvent : TripEvent) (children : List Nat)
    (nextView : Nat) : PresenterResult :=
  let edit : EditForm :=
    { view := nextView + 1, state := EditFormView.parseTripEventToState tripEvent }
  let p' : TripEventPresenter :=
    { p with tripEvent := some tripEvent
             tripEventComponent := some nextView
             editTripEventComponent := some edit }
  match p.tripEventComponent, p.editTripEventComponent with
  | some prevTripEventComponent, some prevEditTripEventComponent =>
    let swapped :=
      if p.isOpenEdit then replace edit.view prevEditTripEventComponent.view children
      else replace nextView prevTripEventComponent children
    match swapped with
    | none => { presenter := p', listChildren := children, threw := true }
    | some children' =>
      { presenter := p'
        listChildren := remove prevEditTripEventComponent.view
          (remove prevTripEventComponent children')
        threw := false }
  | _, _ => { presenter := p', listChildren := render nextView children, threw := false }

/-- `#closeEdit`: `replace(display, edit)`, unregister `#escKeyDown`,
`#isOpenEdit = false`. -/
def closeEdit (p : TripEventPresenter) (children : List Nat) : PresenterResult :=
  match p.tripEventComponent, p.editTripEventComponent with
  | some display, some edit =>
    match replace display edit.view children with
    | none => { presenter := p, listChildren := children, threw := true }
    | some children' =>
      { presenter := { p with isOpenEdit := false, escKeyDownBound := false }
        listChildren := children'
        threw := false }
  | _, _ => { presenter := p, listChildren := children, threw := true }

/-- `reset`: when `#isOpenEdit`, the form goes back to the committed snapshot
(`editTripEventComponent.reset(tripEvent)`) and the editor closes. -/
def reset (p : TripEventPresenter) (children : List Nat) : PresenterResult :=
  if p.isOpenEdit then
    match p.editTripEventComponent, p.tripEvent with
    | some edit, some tripEvent =>
      let edit' : EditForm := { edit with state := EditFormView.parseTripEventToState tripEvent }
      closeEdit { p with editTripEventComponent := some edit' } children
    | _, _ => { presenter := p, listChildren := children, threw := true }
  else { presenter := p, listChildren := children, threw := false }

/-- `destroy()`: both views are removed. -/
def destroy (p : TripEventPresenter) (children : List Nat) : List Nat :=
  removeComponent (p.editTripEventComponent.map (fun e => e.view))
    (removeComponent p.tripEventComponent children)

end TripEventPresenter

/-! ## `AppPresenter` -/

/-- A child of the `.trip-events` container: the list element, or an
`EmptyTripEventsListView` placeholder. -/
inductive ContainerChild where
  | list
  | empty (view : Nat)
deriving DecidableEq, Repr

/-- A call made on one of the models, recorded in the order it is made. -/
inductive Request where
  | updateTripEvent (updateType : UpdateType) (update : TripEvent)
  | setFilter (updateType : UpdateType) (filter : FilterType)
  | setSort (updateType : UpdateType) (sort : SortType)
deriving DecidableEq, Repr

/-- The second argument of a model notification: a trip event (PATCH), a model
class name (INIT), or anything else. -/
inductive Payload where
  | tripEvent (data : TripEvent)
  | className (data : String)
  | other
deriving DecidableEq, Repr

/-- The state the application presenter works on.

* `tripEventModel`, `filter`, `sort`: what the three models hold.
* `tripEventPresenters`, `addTripEventPresenter` (the view of the create form,
  when there is one), `isLoading*`: the private fields of `AppPresenter`.
* `newEventButtonDisabled`: the `disabled` property of the create button.
* `listChildren`: the views mounted in the list element, `containerChildren`:
  the children of `.trip-events`.
* `nextView`, `nextPresenter`: the identities the next constructed view and
  presenter receive.
* `requests`, `destroyed`, `sortsPresenterInits`: the calls made on the models,
  the presenters `destroy()` was called on, and the number of
  `sortsPresenter.init()` calls. -/
structure AppPresenter where
  tripEventModel : List TripEvent
  filter : FilterType
  sort : SortType
  tripEventPresenters : List (Option Nat × TripEventPresenter)
  addTripEventPresenter : Option Nat
  newEventButtonDisabled : Bool
  isLoading : Bool
  isLoadingTripEvents : Bool
  isLoadingDestinations : Bool
  isLoadingOffers : Bool
  listChildren : List Nat
  containerChildren : List ContainerChild
  nextView : Nat
  nextPresenter : Nat
  requests : List Request
  destroyed : List Nat
  sortsPresenterInits : Nat
deriving DecidableEq, Repr

/-- How a handler ends: normally, or by an exception; either way with the state
reached at that point. -/
inductive Outcome where
  | done (s : AppPresenter)
  | threw (s : AppPresenter)
deriving DecidableEq, Repr

/-- The state a handler leaves behind. -/
def Outcome.state : Outcome → AppPresenter
  | .done s => s
  | .threw s => s

/-- Whether the handler ended without an exception. -/
def Outcome.isDone : Outcome → Bool
  | .done _ => true
  | .threw _ => false

/-- Sequencing: the next statement runs only when the previous one did not throw. -/
def Outcome.andThen (o : Outcome) (f : AppPresenter → Outcome) : Outcome :=
  match o with
  | .done s => f s
  | .threw s => .threw s

/-- `forEach((tripEventPresenter) => tripEventPresenter.reset())` over the entries
of the map, in order; the iteration stops at the first call that throws. -/
def resetEach : List (Option Nat × TripEventPresenter) → List Nat →
    List (Option Nat × TripEventPresenter) × List Nat × Bool
  | [], children => ([], children, false)
  | (k, p) :: rest, children =>
    let r := p.reset children
    if r.threw then ((k, r.presenter) :: rest, r.listChildren, true)
    else
      let rest' := resetEach rest r.listChildren
      ((k, r.presenter) :: rest'.1, rest'.2.1, rest'.2.2)

namespace AppPresenter

/-- The state when the constructor returns: nothing rendered, every loading flag set. -/
def initial (tripEvents : List TripEvent) (filter : FilterType) (sort : SortType) :
    AppPresenter :=
  { tripEventModel := tripEvents
    filter := filter
    sort := sort
    tripEventPresenters := []
    addTripEventPresenter := none
    newEventButtonDisabled := false
    isLoading := true
    isLoadingTripEvents := true
    isLoadingDestinations := true
    isLoadingOffers := true
    listChildren := []
    containerChildren := []
    nextView := 0
    nextPresenter := 0
    requests := []
    destroyed := []
    sortsPresenterInits := 0 }

/-- `get tripEvents()`: the filtered collection, sorted in the TIME and PRICE cases. -/
def tripEvents (U : Utils) (s : AppPresenter) : List TripEvent :=
  let filteredTripEvents := U.filterTripEvents s.filter s.tripEventModel
  match s.sort with
  | .TIME => arraySort U.sortByTime filteredTripEvents
  | .PRICE => arraySort U.sortByPrice filteredTripEvents
  | .DAY => filteredTripEvents

/-- One turn of the loop of `#renderTripEventsList`: `new TripEventPresenter(...)`,
`this.#tripEventPresenters.set(tripEvent.id, tripEventPresenter)`,
`tripEventPresenter.init(tripEvent)`. -/
def createTripEventPresenter (s : AppPresenter) (tripEvent : TripEvent) : AppPresenter :=
  let r := (TripEventPresenter.create s.nextPresenter).init tripEvent s.listChildren s.nextView
  { s with nextPresenter := s.nextPresenter + 1
           tripEventPresenters := mapSet s.tripEventPresenters tripEvent.id r.presenter
           listChildren := r.listChildren
           nextView := s.nextView + 2 }

/-- `#renderTripEventsList()`. -/
def renderTripEventsList (U : Utils) (s : AppPresenter) : AppPresenter :=
  let moved := s.containerChildren.filter (fun c => c != ContainerChild.list)
  let s1 : AppPresenter := { s with containerChildren := moved ++ [ContainerChild.list] }
  if s1.isLoading then s1
  else
    let s2 : AppPresenter :=
      if (tripEvents U s1).length > 0 then
        { s1 with sortsPresenterInits := s1.sortsPresenterInits + 1 }
      else
        { s1 with containerChildren := s1.containerChildren ++ [ContainerChild.empty s1.nextView]
                  nextView := s1.nextView + 1 }
    (tripEvents U s2).foldl createTripEventPresenter s2

/-- `#clearTripEventsList()`: every presenter of the map is destroyed, then the
map is cleared. -/
def clearTripEventsList (s : AppPresenter) : AppPresenter :=
  { s with listChildren := s.tripEventPresenters.foldl (fun ch kp => kp.2.destroy ch) s.listChildren
           destroyed := s.destroyed ++ s.tripEventPresenters.map (fun kp => kp.2.pid)
           tripEventPresenters := [] }

/-- `#updateLoadingStatus(modelClassName)`. -/
def updateLoadingStatus (s : AppPresenter) (modelClassName : Payload) : AppPresenter :=
  match modelClassName with
  | .className n =>
    if n = TripEventModel.name then { s with isLoadingTripEvents := false }
    else if n = OfferModel.name then { s with isLoadingOffers := false }
    else if n = DestinationModel.name then { s with isLoadingDestinations := false }
    else s
  | _ => s

/-- `this.#tripEventPresenters.get(id).init(tripEvent)`; a `TypeError` when the
map has no presenter under `id`. -/
def initPresenter (s : AppPresenter) (id : Option Nat) (tripEvent : TripEvent) : Outcome :=
  match mapGet s.tripEventPresenters id with
  | none => .threw s
  | some p =>
    let r := p.init tripEvent s.listChildren s.nextView
    let s' : AppPresenter :=
      { s with tripEventPresenters := mapSet s.tripEventPresenters id r.presenter
               listChildren := r.listChildren
               nextView := s.nextView + 2 }
    if r.threw then .threw s' else .done s'

/-- `#handleModelEvent(updateType, data)`. -/
def handleModelEvent (U : Utils) (s : AppPresenter) (updateType : UpdateType)
    (data : Payload) : Outcome :=
  match updateType with
  | .PATCH =>
    match data with
    | .tripEvent e => initPresenter s e.id e
    | _ => .threw s
  | .MINOR => .done (renderTripEventsList U (clearTripEventsList s))
  | .MAJOR => .done (renderTripEventsList U (clearTripEventsList s))
  | .INIT =>
    let s1 := updateLoadingStatus s data
    let isLoading := s1.isLoadingTripEvents || s1.isLoadingDestinations || s1.isLoadingOffers
    let s2 : AppPresenter := { s1 with isLoading := isLoading }
    .done (renderTripEventsList U s2)

/-- Modelled from the spec: `tripEventModel.updateTripEvent(updateType, update)`
(the model is not in src; §4.1: the change is applied to the canonical
collection, then the observers are notified). -/
def updateTripEvent (U : Utils) (s : AppPresenter) (updateType : UpdateType)
    (update : TripEvent) : Outcome :=
  let s1 : AppPresenter :=
    { s with tripEventModel := s.tripEventModel.map (fun e => if e.id = update.id then update else e)
             requests := s.requests ++ [Request.updateTripEvent updateType update] }
  handleModelEvent U s1 updateType (.tripEvent update)

/-- Modelled from the spec: `filterModel.setFilter(updateType, filter)` (the model
is not in src; §4.1: the value is set, then the observers are notified). -/
def setFilter (U : Utils) (s : AppPresenter) (updateType : UpdateType)
    (filter : FilterType) : Outcome :=
  let s1 : AppPresenter :=
    { s with filter := filter, requests := s.requests ++ [Request.setFilter updateType filter] }
  handleModelEvent U s1 updateType .other

/-- Modelled from the spec: `sortModel.setSort(updateType, sort)` (the model is
not in src; §4.1: the value is set, then the observers are notified). -/
def setSort (U : Utils) (s : AppPresenter) (updateType : UpdateType)
    (sort : SortType) : Outcome :=
  let s1 : AppPresenter :=
    { s with sort := sort, requests := s.requests ++ [Request.setSort updateType sort] }
  handleModelEvent U s1 updateType .other

/-- `#handleTripEventChange(updatedTripEvent)`. -/
def handleTripEventChange (U : Utils) (s : AppPresenter) (updatedTripEvent : TripEvent) :
    Outcome :=
  (updateTripEvent U s .PATCH updatedTripEvent).andThen
    (fun s1 => initPresenter s1 updatedTripEvent.id updatedTripEvent)

/-- `#closeCreateForm()`. Modelled from the spec: `AddTripEventPresenter.destroy()`
(not in src) unmounts the create form. -/
def closeCreateForm (s : AppPresenter) : AppPresenter :=
  match s.addTripEventPresenter with
  | some view =>
    { s with listChildren := remove view s.listChildren
             addTripEventPresenter := none
             newEventButtonDisabled := false }
  | none => s

/-- `this.#tripEventPresenters.forEach((tripEventPresenter) => tripEventPresenter.reset())`. -/
def resetAll (s : AppPresenter) : Outcome :=
  let r := resetEach s.tripEventPresenters s.listChildren
  let s' : AppPresenter := { s with tripEventPresenters := r.1, listChildren := r.2.1 }
  if r.2.2 then .threw s' else .done s'

/-- `#handleOpenEditEvent()`. -/
def handleOpenEditEvent (s : AppPresenter) : Outcome :=
  resetAll (closeCreateForm s)

/-- Writes back what a method of the presenter registered under `id` left behind. -/
def store (s : AppPresenter) (id : Option Nat) (r : PresenterResult) : Outcome :=
  let s' : AppPresenter :=
    { s with tripEventPresenters := mapSet s.tripEventPresenters id r.presenter
             listChildren := r.listChildren }
  if r.threw then .threw s' else .done s'

/-- `#closeEdit` of the presenter registered under `id` (the roll-up button of its form). -/
def closeEdit (s : AppPresenter) (id : Option Nat) : Outcome :=
  match mapGet s.tripEventPresenters id with
  | none => .done s
  | some p => store s id (p.closeEdit s.listChildren)

/-- `reset` of the presenter registered under `id`. -/
def reset (s : AppPresenter) (id : Option Nat) : Outcome :=
  match mapGet s.tripEventPresenters id with
  | none => .done s
  | some p => store s id (p.reset s.listChildren)

/-- `#openEdit` of the presenter registered under `id` (a click on its display
view): `this.#onOpenEditForm()`, `replace(edit, display)`, register `#escKeyDown`,
`#isOpenEdit = true`. -/
def openEdit (s : AppPresenter) (id : Option Nat) : Outcome :=
  match mapGet s.tripEventPresenters id with
  | none => .done s
  | some _ =>
    (handleOpenEditEvent s).andThen (fun s1 =>
      match mapGet s1.tripEventPresenters id with
      | none => .done s1
      | some p =>
        match p.editTripEventComponent, p.tripEventComponent with
        | some edit, some display =>
          match replace edit.view display s1.listChildren with
          | none => .threw s1
          | some children' =>
            let p' : TripEventPresenter := { p with isOpenEdit := true, escKeyDownBound := true }
            .done { s1 with listChildren := children'
                            tripEventPresenters := mapSet s1.tripEventPresenters id p' }
        | _, _ => .threw s1)

/-- `#onSubmit(tripEvent)` of the presenter registered under `id`:
`this.#onUpdateTripEvent(tripEvent)`, then `this.#closeEdit()`. -/
def onSubmit (U : Utils) (s : AppPresenter) (id : Option Nat) (tripEvent : TripEvent) :
    Outcome :=
  match mapGet s.tripEventPresenters id with
  | none => .done s
  | some _ => (handleTripEventChange U s tripEvent).andThen (fun s1 => closeEdit s1 id)

/-- A submit of the form of the presenter registered under `id`:
`#formSubmitHandler` hands `parseStateToTripEvent(this._state)` to `#onSubmit`. -/
def submit (U : Utils) (s : AppPresenter) (id : Option Nat) : Outcome :=
  match mapGet s.tripEventPresenters id with
  | none => .done s
  | some p =>
    match p.editTripEventComponent with
    | none => .done s
    | some edit => onSubmit U s id (EditFormView.formSubmitHandler edit.state)

/-- `#escKeyDown(evt)` of the presenter registered under `id`. -/
def escKeyDown (s : AppPresenter) (id : Option Nat) (key : String) : Outcome :=
  if key = "Escape" ∨ key = "Esc" then
    (reset s id).andThen (fun s1 =>
      match mapGet s1.tripEventPresenters id with
      | none => .done s1
      | some p =>
        let p' : TripEventPresenter := { p with escKeyDownBound := false }
        .done { s1 with tripEventPresenters := mapSet s1.tripEventPresenters id p' })
  else .done s

/-- `#toggleFavoriteState` of the presenter registered under `id`:
`this.#onUpdateTripEvent({...this.#tripEvent, isFavorite: !this.#tripEvent.isFavorite})`. -/
def toggleFavoriteState (U : Utils) (s : AppPresenter) (id : Option Nat) : Outcome :=
  match mapGet s.tripEventPresenters id with
  | none => .done s
  | some p =>
    match p.tripEvent with
    | none => .threw s
    | some tripEvent =>
      handleTripEventChange U s { tripEvent with isFavorite := !tripEvent.isFavorite }

/-- `#handlerClickCreateEventButton()`. Modelled from the spec:
`new AddTripEventPresenter(...).init()` (not in src) mounts a create form
"prepended to the list container". -/
def handlerClickCreateEventButton (U : Utils) (s : AppPresenter) : Outcome :=
  (setFilter U s .MAJOR .EVERYTHING).andThen (fun s1 =>
    (setSort U s1 .MINOR .DAY).andThen (fun s2 =>
      (resetAll s2).andThen (fun s3 =>
        .done { s3 with newEventButtonDisabled := true
                        addTripEventPresenter := some s3.nextView
                        listChildren := s3.nextView :: remove s3.nextView s3.listChildren
                        nextView := s3.nextView + 1 })))

/-- `#handlerCloseCreateTripEventForm()`. -/
def handlerCloseCreateTripEventForm (s : AppPresenter) : AppPresenter :=
  { s with newEventButtonDisabled := false, addTripEventPresenter := none }

/-- The number of editors the application presenter holds open: the registered
presenters with `#isOpenEdit`, plus the create presenter when there is one. -/
def openEditors (s : AppPresenter) : Nat :=
  (s.tripEventPresenters.filter (fun kp => kp.2.isOpenEdit)).length +
    (if s.addTripEventPresenter.isSome then 1 else 0)

end AppPresenter

/-! ## Predicates used in the statements -/

/-- A comparator orders the entities consistently: any two are comparable, and
the order is transitive. -/
def Consistent (compare : TripEvent → TripEvent → Int) : Prop :=
  (∀ a b, compare a b ≤ 0 ∨ compare b a ≤ 0) ∧
  (∀ a b c, compare a b ≤ 0 → compare b c ≤ 0 → compare a c ≤ 0)

/-- Between `s` and `s'` the map kept its keys, its presenter objects and their
open/closed states, the presenters under every id other than `id` are the same in
every field, and no presenter was constructed or destroyed. -/
def SiblingsUntouched (id : Option Nat) (s s' : AppPresenter) : Prop :=
  s'.tripEventPresenters.map Prod.fst = s.tripEventPresenters.map Prod.fst ∧
  s'.tripEventPresenters.map (fun kp => kp.2.pid) =
    s.tripEventPresenters.map (fun kp => kp.2.pid) ∧
  s'.tripEventPresenters.map (fun kp => kp.2.isOpenEdit) =
    s.tripEventPresenters.map (fun kp => kp.2.isOpenEdit) ∧
  s'.tripEventPresenters.filter (fun kp => decide (kp.1 ≠ id)) =
    s.tripEventPresenters.filter (fun kp => decide (kp.1 ≠ id)) ∧
  s'.nextPresenter = s.nextPresenter ∧
  s'.destroyed = s.destroyed

/-- The state after the INIT notifications carrying the class names `names`, in order. -/
def AppPresenter.receiveInits (U : Utils) (s : AppPresenter) (names : List String) :
    AppPresenter :=
  names.foldl (fun s n => (AppPresenter.handleModelEvent U s .INIT (.className n)).state) s

/-- The fields that neither a rendering of the list nor a method of an entity
presenter assigns. -/
def AppPresenter.modelFields (s : AppPresenter) :=
  (s.tripEventModel, s.filter, s.sort, s.addTripEventPresenter, s.newEventButtonDisabled,
    s.isLoading, s.isLoadingTripEvents, s.isLoadingDestinations, s.isLoadingOffers,
    s.requests, s.destroyed)

/-! ## Sequences of operations -/

/-- The events the presenters react to: the handlers of the entity presenter
registered under an id, the callbacks of the application presenter, and the
notifications of the models. -/
inductive Operation where
  | openEdit (id : Option Nat)
  | closeEdit (id : Option Nat)
  | submit (id : Option Nat)
  | reset (id : Option Nat)
  | escKeyDown (id : Option Nat) (key : String)
  | toggleFavorite (id : Option Nat)
  | handleOpenEditEvent
  | clickCreateEventButton
  | closeCreateTripEventForm
  | modelEvent (updateType : UpdateType) (data : Payload)
deriving DecidableEq, Repr

/-- The handler an operation runs. -/
def AppPresenter.perform (U : Utils) (s : AppPresenter) : Operation → Outcome
  | .openEdit id => AppPresenter.openEdit s id
  | .closeEdit id => AppPresenter.closeEdit s id
  | .submit id => AppPresenter.submit U s id
  | .reset id => AppPresenter.reset s id
  | .escKeyDown id key => AppPresenter.escKeyDown s id key
  | .toggleFavorite id => AppPresenter.toggleFavoriteState U s id
  | .handleOpenEditEvent => AppPresenter.handleOpenEditEvent s
  | .clickCreateEventButton => AppPresenter.handlerClickCreateEventButton U s
  | .closeCreateTripEventForm => .done (AppPresenter.handlerCloseCreateTripEventForm s)
  | .modelEvent updateType data => AppPresenter.handleModelEvent U s updateType data

/-- The state after the operations `ops`, one after the other; an operation that
throws leaves the state it had reached. -/
def AppPresenter.run (U : Utils) (s : AppPresenter) (ops : List Operation) : AppPresenter :=
  ops.foldl (fun s op => (AppPresenter.perform U s op).state) s

/-- The views a presenter holds. -/
def TripEventPresenter.views (p : TripEventPresenter) : List Nat :=
  p.tripEventComponent.toList ++ (p.editTripEventComponent.map (fun f => f.view)).toList

/-- The view a presenter shows: its form when `#isOpenEdit`, else its display view. -/
def TripEventPresenter.visible (p : TripEventPresenter) : Option Nat :=
  if p.isOpenEdit then p.editTripEventComponent.map (fun f => f.view) else p.tripEventComponent

/-- The views held by the presenters of a map. -/
def allViews (r : List (Option Nat × TripEventPresenter)) : List Nat :=
  r.flatMap (fun kp => kp.2.views)

/-- The number of presenters of a map with `#isOpenEdit`. -/
def openCount (r : List (Option Nat × TripEventPresenter)) : Nat :=
  (r.filter (fun kp => kp.2.isOpenEdit)).length

/-- The state is one the code builds: every registered presenter has been
initialised, its two views are distinct objects handed out by the counter and
shared with no other presenter, the view it shows is mounted, and the create
form is none of these views. -/
structure WellFormed (s : AppPresenter) : Prop where
  initialised : ∀ kp ∈ s.tripEventPresenters,
    kp.2.tripEvent.isSome = true ∧ kp.2.tripEventComponent.isSome = true ∧
      kp.2.editTripEventComponent.isSome = true
  allocated : ∀ v ∈ allViews s.tripEventPresenters, v < s.nextView
  distinct : (allViews s.tripEventPresenters).Nodup
  shown : ∀ kp ∈ s.tripEventPresenters, ∀ v, kp.2.visible = some v → v ∈ s.listChildren
  createForm : ∀ v, s.addTripEventPresenter = some v →
    v < s.nextView ∧ v ∉ allViews s.tripEventPresenters

/-- The view of a child of the container that is a placeholder. -/
def ContainerChild.placeholder : ContainerChild → Option Nat
  | .empty view => some view
  | .list => none

/-- The `EmptyTripEventsListView` placeholders mounted in the `.trip-events`
container, in document order. -/
def AppPresenter.placeholders (s : AppPresenter) : List Nat :=
  s.containerChildren.filterMap ContainerChild.placeholder

/-- The payloads of the INIT notifications among the operations, in order. -/
def initPayloads (ops : List Operation) : List Payload :=
  ops.filterMap (fun op =>
    match op with
    | .modelEvent .INIT data => some data
    | _ => none)

/-- The contract of the loading data source (spec §6): every INIT notification
carries the class name of one of the three models, and no model sends INIT twice. -/
def InitOnce (ops : List Operation) : Prop :=
  (initPayloads ops).Nodup ∧
  ∀ data ∈ initPayloads ops,
    data = Payload.className TripEventModel.name ∨ data = Payload.className OfferModel.name ∨
      data = Payload.className DestinationModel.name

/-- The loading is still going on after the INIT payloads `seen`: the combined
flag is set, no presenter has been constructed or registered, and the flag of
every model that has not sent INIT is set. -/
def StillLoading (s : AppPresenter) (seen : List Payload) : Prop :=
  s.isLoading = true ∧ s.tripEventPresenters = [] ∧ s.nextPresenter = 0 ∧
  (Payload.className TripEventModel.name ∉ seen → s.isLoadingTripEvents = true) ∧
  (Payload.className OfferModel.name ∉ seen → s.isLoadingOffers = true) ∧
  (Payload.className DestinationModel.name ∉ seen → s.isLoadingDestinations = true)

/-- The value the template of the form gives the destination input:
`tripEvent.destination ? eventDestination.name : ''`, where `eventDestination` is
`destinations.find((destination) => destination.id === tripEvent.destination)`.
`none` when the template throws because no destination has that id. -/
def EditFormView.destinationInputValue (destinations : List Destination) (state : FormState) :
    Option String :=
  match state.destination with
  | none => some ""
  | some id =>
    if id = 0 then some ""
    else (destinations.find? (fun destination => destination.id == id)).map (fun d => d.name)

/-! ## A concrete application, used to instantiate the theorems -/

namespace Example

/-- A filter that keeps everything and comparators on duration and price. -/
def utils : Utils :=
  { filterTripEvents := fun _ xs => xs
    sortByTime := fun a b => (a.dateTo - a.dateFrom) - (b.dateTo - b.dateFrom)
    sortByPrice := fun a b => (a.basePrice.getD 0 : Int) - (b.basePrice.getD 0 : Int) }

/-- The first entity of the spec's scenario. -/
def taxi : TripEvent :=
  { id := some 1, basePrice := some 20, dateFrom := 2, dateTo := 5, destination := some 7,
    isFavorite := false, offers := [4, 2], type := "taxi" }

/-- The second entity of the spec's scenario. -/
def bus : TripEvent :=
  { id := some 2, basePrice := some 5, dateFrom := 1, dateTo := 2, destination := some 7,
    isFavorite := false, offers := [], type := "bus" }

/-- The application once the three models have sent their INIT. -/
def loaded : AppPresenter :=
  AppPresenter.receiveInits utils (AppPresenter.initial [taxi, bus] .EVERYTHING .DAY)
    [TripEventModel.name, OfferModel.name, DestinationModel.name]

/-- The three models send INIT. -/
def load : List Operation :=
  [.modelEvent .INIT (.className TripEventModel.name),
   .modelEvent .INIT (.className OfferModel.name),
   .modelEvent .INIT (.className DestinationModel.name)]

/-- The three models send INIT, then the display view of the taxi is clicked. -/
def loadAndOpenTaxi : List Operation :=
  [.modelEvent .INIT (.className TripEventModel.name),
   .modelEvent .INIT (.className OfferModel.name),
   .modelEvent .INIT (.className DestinationModel.name),
   .openEdit (some 1)]

/-- The three models send INIT, then a MAJOR notification arrives. -/
def loadThenMajor : List Operation :=
  [.modelEvent .INIT (.className TripEventModel.name),
   .modelEvent .INIT (.className OfferModel.name),
   .modelEvent .INIT (.className DestinationModel.name),
   .modelEvent .MAJOR .other]

/-- The three models send INIT, then the create button is clicked. -/
def loadThenClickCreate : List Operation :=
  [.modelEvent .INIT (.className TripEventModel.name),
   .modelEvent .INIT (.className OfferModel.name),
   .modelEvent .INIT (.className DestinationModel.name),
   .clickCreateEventButton]

end Example

/-! # Theorems

## The edit form -/

/-! ### The `Set` model -/

theorem mem_foldl_setAdd (xs : List Nat) (acc : List Nat) (x : Nat) :
    x ∈ xs.foldl setAdd acc ↔ x ∈ acc ∨ x ∈ xs := by
  induction xs generalizing acc with
  | nil => simp
  | cons y ys ih =>
    simp only [List.foldl_cons, ih, List.mem_cons]
    unfold setAdd
    by_cases h : y ∈ acc
    · simp only [h, if_true]
      constructor
      · rintro (h1 | h1)
        · exact Or.inl h1
        · exact Or.inr (Or.inr h1)
      · rintro (h1 | h1 | h1)
        · exact Or.inl h1
        · exact Or.inl (h1 ▸ h)
        · exact Or.inr h1
    · simp only [h, if_false, List.mem_append, List.mem_singleton]
      tauto

theorem foldl_setAdd_of_nodup (xs : List Nat) (acc : List Nat) (h : (acc ++ xs).Nodup) :
    xs.foldl setAdd acc = acc ++ xs := by
  induction xs generalizing acc with
  | nil => simp
  | cons y ys ih =>
    have hy : y ∉ acc := by
      intro hmem
      rw [List.nodup_append] at h
      exact h.2.2 hmem (List.mem_cons_self _ _)
    have h2 : ((acc ++ [y]) ++ ys).Nodup := by simpa using h
    simp only [List.foldl_cons, setAdd, hy, if_false]
    rw [ih _ h2]
    simp

theorem mem_newSet (xs : List Nat) (x : Nat) : x ∈ newSet xs ↔ x ∈ xs := by
  simp [newSet, mem_foldl_setAdd]

theorem newSet_of_nodup (xs : List Nat) (h : xs.Nodup) : newSet xs = xs := by
  have := foldl_setAdd_of_nodup xs [] (by simpa using h)
  simpa [newSet] using this

theorem nodup_foldl_setAdd (xs : List Nat) (acc : List Nat) (h : acc.Nodup) :
    (xs.foldl setAdd acc).Nodup := by
  induction xs generalizing acc with
  | nil => simpa
  | cons y ys ih =>
    simp only [List.foldl_cons]
    apply ih
    unfold setAdd
    by_cases hy : y ∈ acc
    · simpa [hy] using h
    · simp only [hy, if_false]
      rw [List.nodup_append]
      refine ⟨h, List.nodup_singleton _, ?_⟩
      intro a ha hb
      simp at hb
      exact hy (hb ▸ ha)

open EditFormView

/-- C6. Round trip through the form state: every field other than `offers` comes
back unchanged, the offers that come back have the same members as the offers
that went in and hold none of them twice, and the whole entity comes back
unchanged when its offers hold no id twice. -/
theorem C6_parse_round_trip (e : TripEvent) :
    (parseStateToTripEvent (parseTripEventToState e)).id = e.id ∧
    (parseStateToTripEvent (parseTripEventToState e)).basePrice = e.basePrice ∧
    (parseStateToTripEvent (parseTripEventToState e)).dateFrom = e.dateFrom ∧
    (parseStateToTripEvent (parseTripEventToState e)).dateTo = e.dateTo ∧
    (parseStateToTripEvent (parseTripEventToState e)).destination = e.destination ∧
    (parseStateToTripEvent (parseTripEventToState e)).isFavorite = e.isFavorite ∧
    (parseStateToTripEvent (parseTripEventToState e)).type = e.type ∧
    (∀ x, x ∈ (parseStateToTripEvent (parseTripEventToState e)).offers ↔ x ∈ e.offers) ∧
    (parseStateToTripEvent (parseTripEventToState e)).offers.Nodup ∧
    (e.offers.Nodup → parseStateToTripEvent (parseTripEventToState e) = e) := by
  refine ⟨rfl, rfl, rfl, rfl, rfl, rfl, rfl, ?_, ?_, ?_⟩
  · intro x
    simp [parseStateToTripEvent, parseTripEventToState, arrayFrom, mem_newSet]
  · simp only [parseStateToTripEvent, parseTripEventToState, arrayFrom, newSet]
    exact nodup_foldl_setAdd _ _ List.nodup_nil
  · intro h
    cases e
    simp only [parseStateToTripEvent, parseTripEventToState, arrayFrom]
    simp only [TripEvent.mk.injEq, true_and, and_true]
    exact newSet_of_nodup _ h

/-- C6 at an entity with two distinct offers. -/
theorem C6_parse_round_trip_witness :
    parseStateToTripEvent (parseTripEventToState
      { id := some 1, basePrice := some 20, dateFrom := 2, dateTo := 5, destination := some 7,
        isFavorite := true, offers := [4, 2], type := "taxi" }) =
      { id := some 1, basePrice := some 20, dateFrom := 2, dateTo := 5, destination := some 7,
        isFavorite := true, offers := [4, 2], type := "taxi" } :=
  (C6_parse_round_trip _).2.2.2.2.2.2.2.2.2 (by decide)

/-- C7. Changing the event type sets the draft's type to the chosen one, empties
its offers whatever was selected, and leaves every other field as it was. -/
theorem C7_change_type (state : FormState) (t : String) :
    (onChangeTipEventTypeHandler state t).type = t ∧
    (onChangeTipEventTypeHandler state t).offers = [] ∧
    (∀ x, x ∉ (onChangeTipEventTypeHandler state t).offers) ∧
    (onChangeTipEventTypeHandler state t).id = state.id ∧
    (onChangeTipEventTypeHandler state t).basePrice = state.basePrice ∧
    (onChangeTipEventTypeHandler state t).dateFrom = state.dateFrom ∧
    (onChangeTipEventTypeHandler state t).dateTo = state.dateTo ∧
    (onChangeTipEventTypeHandler state t).destination = state.destination ∧
    (onChangeTipEventTypeHandler state t).isFavorite = state.isFavorite := by
  refine ⟨rfl, rfl, ?_, rfl, rfl, rfl, rfl, rfl, rfl⟩
  intro x hx
  simp [onChangeTipEventTypeHandler, newSet] at hx

theorem stripNonDigits_of_no_digit (value : String)
    (h : ∀ c ∈ value.data, c.isDigit = false) : stripNonDigits value = "" := by
  unfold stripNonDigits
  have : value.data.filter Char.isDigit = [] := by
    rw [List.filter_eq_nil_iff]
    intro c hc
    simp [h c hc]
  rw [this]

/-- C8, as stated, fails: a draft priced 20 and the text `abc`, which holds no
digit, leave the draft priced 0. -/
theorem C8_counterexample :
    (∀ c ∈ "abc".data, c.isDigit = false) ∧
    (onChangePrice
      { id := some 1, basePrice := some 20, dateFrom := 2, dateTo := 5, destination := some 7,
        isFavorite := false, offers := [], type := "taxi" } "abc").state.basePrice ≠ some 20 := by
  decide

/-- C8, amended. For a price text without any digit the handler empties the input
and sets the draft's price to 0, leaving every other field as it was; a submit
that follows hands over the price 0. -/
theorem C8_price_without_digits (state : FormState) (value : String)
    (h : ∀ c ∈ value.data, c.isDigit = false) :
    (onChangePrice state value).value = "" ∧
    (onChangePrice state value).state = { state with basePrice := some 0 } ∧
    (formSubmitHandler (onChangePrice state value).state).basePrice = some 0 := by
  have hs := stripNonDigits_of_no_digit value h
  refine ⟨?_, ?_, ?_⟩ <;>
    simp [onChangePrice, hs, formSubmitHandler, parseStateToTripEvent, Number]

/-- C8, amended, at the text `abc`. -/
theorem C8_price_without_digits_witness :
    (onChangePrice
      { id := some 1, basePrice := some 20, dateFrom := 2, dateTo := 5, destination := some 7,
        isFavorite := false, offers := [], type := "taxi" } "abc").state.basePrice = some 0 := by
  have h := (C8_price_without_digits
      { id := some 1, basePrice := some 20, dateFrom := 2, dateTo := 5, destination := some 7,
        isFavorite := false, offers := [], type := "taxi" } "abc" (by decide)).2.1
  rw [h]

theorem find?_name_eq_none (destinations : List Destination) (value : String)
    (h : ∀ d ∈ destinations, d.name ≠ value) :
    destinations.find? (fun destination => destination.name == value) = none := by
  rw [List.find?_eq_none]
  intro d hd
  simpa using h d hd

theorem find?_name_first (before after : List Destination) (d : Destination) (value : String)
    (hb : ∀ x ∈ before, x.name ≠ value) (hd : d.name = value) :
    (before ++ d :: after).find? (fun destination => destination.name == value) = some d := by
  induction before with
  | nil => simp [hd]
  | cons x xs ih =>
    have hx : x.name ≠ value := hb x (List.mem_cons_self _ _)
    simp only [List.cons_append, List.find?_cons]
    have : (x.name == value) = false := by simpa using hx
    rw [this]
    exact ih (fun y hy => hb y (List.mem_cons_of_mem _ hy))

/-- C9, as stated, fails: the form of a draft whose destination is Rome shows
`Rome` in the destination input; after the text `Paris`, which names no known
destination, the draft is unchanged but the input is empty, not back on `Rome`. -/
theorem C9_counterexample :
    destinationInputValue
      [{ id := 3, name := "Rome" }, { id := 5, name := "Oslo" }, { id := 8, name := "Oslo" }]
      { id := some 1, basePrice := some 20, dateFrom := 2, dateTo := 5, destination := some 3,
        isFavorite := false, offers := [4], type := "taxi" } = some "Rome" ∧
    (∀ d ∈ ([{ id := 3, name := "Rome" }, { id := 5, name := "Oslo" },
      { id := 8, name := "Oslo" }] : List Destination), d.name ≠ "Paris") ∧
    (onChangeDestinationHandler
      [{ id := 3, name := "Rome" }, { id := 5, name := "Oslo" }, { id := 8, name := "Oslo" }]
      { id := some 1, basePrice := some 20, dateFrom := 2, dateTo := 5, destination := some 3,
        isFavorite := false, offers := [4], type := "taxi" } "Paris").state.destination
      = some 3 ∧
    (onChangeDestinationHandler
      [{ id := 3, name := "Rome" }, { id := 5, name := "Oslo" }, { id := 8, name := "Oslo" }]
      { id := some 1, basePrice := some 20, dateFrom := 2, dateTo := 5, destination := some 3,
        isFavorite := false, offers := [4], type := "taxi" } "Paris").value = "" ∧
    (onChangeDestinationHandler
      [{ id := 3, name := "Rome" }, { id := 5, name := "Oslo" }, { id := 8, name := "Oslo" }]
      { id := some 1, basePrice := some 20, dateFrom := 2, dateTo := 5, destination := some 3,
        isFavorite := false, offers := [4], type := "taxi" } "Paris").value ≠ "Rome" := by
  decide

/-- C9, amended. Without a destination named exactly as the text, the draft is left
as it was and the input is emptied, whatever it showed; when the list reads `before ++ d :: after` with `d`
the first destination so named, the draft's destination becomes `d.id`, the text
stays in the input, and no other field changes. -/
theorem C9_change_destination (destinations : List Destination) (state : FormState)
    (value : String) :
    ((∀ d ∈ destinations, d.name ≠ value) →
      (onChangeDestinationHandler destinations state value).state = state ∧
      (onChangeDestinationHandler destinations state value).value = "") ∧
    (∀ before d after, destinations = before ++ d :: after →
      (∀ x ∈ before, x.name ≠ value) → d.name = value →
      (onChangeDestinationHandler destinations state value).state =
        { state with destination := some d.id } ∧
      (onChangeDestinationHandler destinations state value).value = value) := by
  constructor
  · intro h
    simp [onChangeDestinationHandler, find?_name_eq_none destinations value h]
  · intro before d after hsplit hb hd
    subst hsplit
    simp [onChangeDestinationHandler, find?_name_first before after d value hb hd]

/-- C9, amended, at a list of three destinations, two of them named `Oslo`. -/
theorem C9_change_destination_witness :
    (onChangeDestinationHandler
      [{ id := 3, name := "Rome" }, { id := 5, name := "Oslo" }, { id := 8, name := "Oslo" }]
      { id := some 1, basePrice := some 20, dateFrom := 2, dateTo := 5, destination := some 3,
        isFavorite := false, offers := [4], type := "taxi" } "Oslo").state.destination = some 5 ∧
    (onChangeDestinationHandler
      [{ id := 3, name := "Rome" }, { id := 5, name := "Oslo" }, { id := 8, name := "Oslo" }]
      { id := some 1, basePrice := some 20, dateFrom := 2, dateTo := 5, destination := some 3,
        isFavorite := false, offers := [4], type := "taxi" } "Paris").state.destination = some 3 := by
  have h := C9_change_destination
      [{ id := 3, name := "Rome" }, { id := 5, name := "Oslo" }, { id := 8, name := "Oslo" }]
      { id := some 1, basePrice := some 20, dateFrom := 2, dateTo := 5, destination := some 3,
        isFavorite := false, offers := [4], type := "taxi" }
  constructor
  · have h1 := (h "Oslo").2 [{ id := 3, name := "Rome" }] { id := 5, name := "Oslo" }
      [{ id := 8, name := "Oslo" }] rfl (by decide) rfl
    rw [h1.1]
  · have h2 := (h "Paris").1 (by decide)
    rw [h2.1]

/-! ## The derived list -/

theorem arraySort_perm (compare : TripEvent → TripEvent → Int) (xs : List TripEvent) :
    (arraySort compare xs).Perm xs :=
  List.perm_insertionSort _ xs

theorem arraySort_pair_sublist (compare : TripEvent → TripEvent → Int) (xs : List TripEvent)
    (a b : TripEvent) (hab : compare a b ≤ 0) (h : [a, b].Sublist xs) :
    [a, b].Sublist (arraySort compare xs) :=
  List.pair_sublist_insertionSort (r := fun a b => compare a b ≤ 0) hab h

theorem arraySort_sorted (compare : TripEvent → TripEvent → Int)
    (total : ∀ a b, compare a b ≤ 0 ∨ compare b a ≤ 0)
    (trans : ∀ a b c, compare a b ≤ 0 → compare b c ≤ 0 → compare a c ≤ 0)
    (xs : List TripEvent) :
    (arraySort compare xs).Pairwise (fun a b => compare a b ≤ 0) := by
  haveI : IsTotal TripEvent (fun a b => compare a b ≤ 0) := ⟨total⟩
  haveI : IsTrans TripEvent (fun a b => compare a b ≤ 0) := ⟨trans⟩
  exact List.sorted_insertionSort (fun a b => compare a b ≤ 0) xs

/-- C5. The derived list is the filtered collection itself under DAY and the
`Array.prototype.sort` of it by the TIME (PRICE) comparator under TIME (PRICE). It
is always a permutation of the filtered collection and depends on nothing but the
collection, the filter and the sort. The sorted list is a stable sort: two
entities that follow each other in the filtered collection and that the
comparator does not put the other way round keep their order, and with a
consistent comparator the result is ordered by it. -/
theorem C5_derived_list (U : Utils) (s : AppPresenter) :
    AppPresenter.tripEvents U { s with sort := .DAY } =
      U.filterTripEvents s.filter s.tripEventModel ∧
    AppPresenter.tripEvents U { s with sort := .TIME } =
      arraySort U.sortByTime (U.filterTripEvents s.filter s.tripEventModel) ∧
    AppPresenter.tripEvents U { s with sort := .PRICE } =
      arraySort U.sortByPrice (U.filterTripEvents s.filter s.tripEventModel) ∧
    (AppPresenter.tripEvents U s).Perm (U.filterTripEvents s.filter s.tripEventModel) ∧
    (∀ s' : AppPresenter, s'.tripEventModel = s.tripEventModel → s'.filter = s.filter →
      s'.sort = s.sort → AppPresenter.tripEvents U s' = AppPresenter.tripEvents U s) ∧
    (∀ compare xs a b, compare a b ≤ 0 → [a, b].Sublist xs →
      [a, b].Sublist (arraySort compare xs)) ∧
    (∀ compare xs, Consistent compare →
      (arraySort compare xs).Pairwise (fun a b => compare a b ≤ 0)) := by
  refine ⟨rfl, rfl, rfl, ?_, ?_, ?_, ?_⟩
  · unfold AppPresenter.tripEvents
    cases s.sort
    · exact List.Perm.refl _
    · exact arraySort_perm _ _
    · exact arraySort_perm _ _
  · intro s' h1 h2 h3
    simp only [AppPresenter.tripEvents, h1, h2, h3]
  · intro compare xs a b hab h
    exact arraySort_pair_sublist compare xs a b hab h
  · intro compare xs h
    exact arraySort_sorted compare h.1 h.2 xs

/-- C5 at the collection of the spec's scenario and a comparator on the start
date: the state-independence, stability and ordering parts, each with its
hypothesis discharged. -/
theorem C5_derived_list_witness :
    AppPresenter.tripEvents
        { filterTripEvents := fun _ xs => xs
          sortByTime := fun a b => a.dateFrom - b.dateFrom
          sortByPrice := fun a b => a.dateTo - b.dateTo }
        (AppPresenter.initial [] .EVERYTHING .TIME) = [] ∧
    [({ id := some 2, basePrice := some 5, dateFrom := 1, dateTo := 1, destination := none,
        isFavorite := false, offers := [], type := "bus" } : TripEvent),
     { id := some 1, basePrice := some 20, dateFrom := 2, dateTo := 2, destination := none,
       isFavorite := false, offers := [], type := "taxi" }].Sublist
      (arraySort (fun a b => a.dateFrom - b.dateFrom)
        [{ id := some 2, basePrice := some 5, dateFrom := 1, dateTo := 1, destination := none,
           isFavorite := false, offers := [], type := "bus" },
         { id := some 1, basePrice := some 20, dateFrom := 2, dateTo := 2, destination := none,
           isFavorite := false, offers := [], type := "taxi" }]) ∧
    (arraySort (fun a b => a.dateFrom - b.dateFrom)
        [{ id := some 1, basePrice := some 20, dateFrom := 2, dateTo := 2, destination := none,
           isFavorite := false, offers := [], type := "taxi" },
         { id := some 2, basePrice := some 5, dateFrom := 1, dateTo := 1, destination := none,
           isFavorite := false, offers := [], type := "bus" }]).Pairwise
      (fun a b => a.dateFrom - b.dateFrom ≤ 0) := by
  have h := C5_derived_list
    { filterTripEvents := fun _ xs => xs
      sortByTime := fun a b => a.dateFrom - b.dateFrom
      sortByPrice := fun a b => a.dateTo - b.dateTo }
    (AppPresenter.initial [] .EVERYTHING .TIME)
  refine ⟨?_, ?_, ?_⟩
  · exact (h.2.2.2.2.1 (AppPresenter.initial [] .EVERYTHING .TIME) rfl rfl rfl).trans (by decide)
  · exact h.2.2.2.2.2.1 (fun a b => a.dateFrom - b.dateFrom) _ _ _ (by decide)
      (List.Sublist.refl _)
  · exact h.2.2.2.2.2.2 (fun a b => a.dateFrom - b.dateFrom) _
      ⟨fun a b => by show a.dateFrom - b.dateFrom ≤ 0 ∨ b.dateFrom - a.dateFrom ≤ 0; omega,
        fun a b c hab hbc => by
          show a.dateFrom - c.dateFrom ≤ 0
          have h1 : a.dateFrom - b.dateFrom ≤ 0 := hab
          have h2 : b.dateFrom - c.dateFrom ≤ 0 := hbc
          omega⟩

/-! ## The map of presenters -/

theorem mapGet_mapSet_self {V : Type} (r : List (Option Nat × V)) (k : Option Nat) (v : V) :
    mapGet (mapSet r k v) k = some v := by
  induction r with
  | nil => simp [mapSet, mapGet]
  | cons kv rest ih =>
    obtain ⟨k', v'⟩ := kv
    by_cases h : k' = k
    · simp [mapSet, mapGet, h]
    · simp [mapSet, mapGet, h, ih]

theorem mapGet_mapSet_ne {V : Type} (r : List (Option Nat × V)) (k k' : Option Nat) (v : V)
    (h : k' ≠ k) : mapGet (mapSet r k v) k' = mapGet r k' := by
  induction r with
  | nil => simp [mapSet, mapGet, Ne.symm h]
  | cons kv rest ih =>
    obtain ⟨k'', v''⟩ := kv
    by_cases h1 : k'' = k
    · subst h1
      simp [mapSet, mapGet, Ne.symm h]
    · by_cases h2 : k'' = k'
      · subst h2
        simp [mapSet, mapGet, h]
      · simp [mapSet, mapGet, h1, h2, ih]

theorem map_fst_mapSet {V : Type} (r : List (Option Nat × V)) (k : Option Nat) (v p : V)
    (h : mapGet r k = some p) : (mapSet r k v).map Prod.fst = r.map Prod.fst := by
  induction r with
  | nil => simp [mapGet] at h
  | cons kv rest ih =>
    obtain ⟨k', v'⟩ := kv
    by_cases h1 : k' = k
    · simp [mapSet, h1]
    · simp only [mapGet, h1, if_false] at h
      simp [mapSet, h1, ih h]

theorem filter_ne_mapSet {V : Type} (r : List (Option Nat × V)) (k : Option Nat) (v p : V)
    (h : mapGet r k = some p) :
    (mapSet r k v).filter (fun kv => decide (kv.1 ≠ k)) = r.filter (fun kv => decide (kv.1 ≠ k)) := by
  induction r with
  | nil => simp [mapGet] at h
  | cons kv rest ih =>
    obtain ⟨k', v'⟩ := kv
    by_cases h1 : k' = k
    · simp [mapSet, h1, List.filter_cons]
    · simp only [mapGet, h1, if_false] at h
      have ih' := ih h
      simp only [mapSet, h1, if_false, List.filter_cons, ih']

theorem map_mapSet_of_eq {V W : Type} (f : V → W) (r : List (Option Nat × V)) (k : Option Nat)
    (v p : V) (h : mapGet r k = some p) (hf : f v = f p) :
    (mapSet r k v).map (fun kv => f kv.2) = r.map (fun kv => f kv.2) := by
  induction r with
  | nil => simp [mapGet] at h
  | cons kv rest ih =>
    obtain ⟨k', v'⟩ := kv
    by_cases h1 : k' = k
    · simp only [mapGet, h1, if_true, Option.some.injEq] at h
      simp [mapSet, h1, hf, h]
    · simp only [mapGet, h1, if_false] at h
      simp [mapSet, h1, ih h]

/-! ## `init` -/

theorem init_presenter (p : TripEventPresenter) (e : TripEvent) (ch : List Nat) (n : Nat) :
    (p.init e ch n).presenter =
      { p with tripEvent := some e
               tripEventComponent := some n
               editTripEventComponent :=
                 some { view := n + 1, state := EditFormView.parseTripEventToState e } } := by
  unfold TripEventPresenter.init
  cases h1 : p.tripEventComponent <;> cases h2 : p.editTripEventComponent <;> simp
  split <;> rfl

theorem mem_remove {v w : Nat} {ch : List Nat} : v ∈ remove w ch ↔ v ∈ ch ∧ v ≠ w := by
  simp [remove]

theorem mem_replace_of_mem {new old v : Nat} {ch ch' : List Nat}
    (h : replace new old ch = some ch') (hv : v ∈ ch) (h1 : v ≠ new) (h2 : v ≠ old) :
    v ∈ ch' := by
  unfold replace at h
  by_cases ho : old ∈ ch
  · by_cases hn : new = old
    · simp only [ho, hn, if_true, Option.some.injEq] at h
      exact h ▸ hv
    · simp only [ho, hn, if_true, if_false, Option.some.injEq] at h
      subst h
      rw [List.mem_map]
      exact ⟨v, mem_remove.2 ⟨hv, h1⟩, by simp [h2]⟩
  · simp [ho] at h

theorem init_children (p : TripEventPresenter) (e : TripEvent) (ch : List Nat) (n v : Nat)
    (hv : v ∈ ch) (h1 : v ≠ n) (h2 : v ≠ n + 1)
    (h3 : some v ≠ p.tripEventComponent)
    (h4 : some v ≠ p.editTripEventComponent.map (fun f => f.view)) :
    v ∈ (p.init e ch n).listChildren := by
  unfold TripEventPresenter.init
  cases hd : p.tripEventComponent with
  | none => simp [render, mem_remove, hv, h1]
  | some d =>
    cases he : p.editTripEventComponent with
    | none => simp [render, mem_remove, hv, h1]
    | some f =>
      have h3' : v ≠ d := by
        intro hc; apply h3; rw [hd, hc]
      have h4' : v ≠ f.view := by
        intro hc; apply h4; rw [he, hc]; rfl
      by_cases ho : p.isOpenEdit = true
      · dsimp only
        rw [if_pos ho]
        cases hr : replace (n + 1) f.view ch with
        | none => simpa using hv
        | some ch' =>
          simp only [mem_remove]
          exact ⟨⟨mem_replace_of_mem hr hv h2 h4', h3'⟩, h4'⟩
      · dsimp only
        rw [if_neg ho]
        cases hr : replace n d ch with
        | none => simpa using hv
        | some ch' =>
          simp only [mem_remove]
          exact ⟨⟨mem_replace_of_mem hr hv h1 h3', h3'⟩, h4'⟩

theorem SiblingsUntouched.refl (id : Option Nat) (s : AppPresenter) : SiblingsUntouched id s s :=
  ⟨rfl, rfl, rfl, rfl, rfl, rfl⟩

theorem SiblingsUntouched.trans {id : Option Nat} {s1 s2 s3 : AppPresenter}
    (h12 : SiblingsUntouched id s1 s2) (h23 : SiblingsUntouched id s2 s3) :
    SiblingsUntouched id s1 s3 := by
  obtain ⟨a1, a2, a3, a4, a5, a6⟩ := h12
  obtain ⟨b1, b2, b3, b4, b5, b6⟩ := h23
  exact ⟨b1.trans a1, b2.trans a2, b3.trans a3, b4.trans a4, b5.trans a5, b6.trans a6⟩

/-- What `initPresenter` leaves behind when the map holds a presenter under `id`. -/
theorem initPresenter_state (s : AppPresenter) (id : Option Nat) (e : TripEvent)
    (p : TripEventPresenter) (h : mapGet s.tripEventPresenters id = some p) :
    (AppPresenter.initPresenter s id e).state =
      { s with tripEventPresenters :=
                 mapSet s.tripEventPresenters id (p.init e s.listChildren s.nextView).presenter
               listChildren := (p.init e s.listChildren s.nextView).listChildren
               nextView := s.nextView + 2 } := by
  unfold AppPresenter.initPresenter
  simp only [h]
  split <;> rfl

theorem initPresenter_state_none (s : AppPresenter) (id : Option Nat) (e : TripEvent)
    (h : mapGet s.tripEventPresenters id = none) :
    (AppPresenter.initPresenter s id e).state = s := by
  unfold AppPresenter.initPresenter
  simp only [h]
  rfl

theorem initPresenter_siblings (s : AppPresenter) (id : Option Nat) (e : TripEvent) :
    SiblingsUntouched id s (AppPresenter.initPresenter s id e).state := by
  cases h : mapGet s.tripEventPresenters id with
  | none =>
    rw [initPresenter_state_none s id e h]
    exact SiblingsUntouched.refl _ _
  | some p =>
    rw [initPresenter_state s id e p h]
    refine ⟨?_, ?_, ?_, ?_, rfl, rfl⟩
    · exact map_fst_mapSet _ _ _ _ h
    · exact map_mapSet_of_eq (fun q => q.pid) _ _
        (p.init e s.listChildren s.nextView).presenter p h (by simp only [init_presenter])
    · exact map_mapSet_of_eq (fun q => q.isOpenEdit) _ _
        (p.init e s.listChildren s.nextView).presenter p h (by simp only [init_presenter])
    · exact filter_ne_mapSet _ _ _ _ h

/-- C2. A PATCH whose `data.id` is a key of the map re-initialises the presenter
stored under that id with `data` and touches no other: the keys, the presenter
objects and their open/closed states are the same, every presenter under another
id is the same in every field, no presenter is constructed or destroyed, and every
mounted view that is neither a view of the patched presenter nor one of the two
views just constructed is still mounted. -/
theorem C2_patch_frame (U : Utils) (s : AppPresenter) (data : TripEvent)
    (p : TripEventPresenter) (h : mapGet s.tripEventPresenters data.id = some p) :
    mapGet (AppPresenter.handleModelEvent U s .PATCH (.tripEvent data)).state.tripEventPresenters
        data.id = some (p.init data s.listChildren s.nextView).presenter ∧
    (p.init data s.listChildren s.nextView).presenter.tripEvent = some data ∧
    (p.init data s.listChildren s.nextView).presenter.isOpenEdit = p.isOpenEdit ∧
    (p.init data s.listChildren s.nextView).presenter.pid = p.pid ∧
    SiblingsUntouched data.id s (AppPresenter.handleModelEvent U s .PATCH (.tripEvent data)).state ∧
    (∀ k, k ≠ data.id →
      mapGet (AppPresenter.handleModelEvent U s .PATCH (.tripEvent data)).state.tripEventPresenters k
        = mapGet s.tripEventPresenters k) ∧
    (∀ v ∈ s.listChildren, v ≠ s.nextView → v ≠ s.nextView + 1 →
      some v ≠ p.tripEventComponent →
      some v ≠ p.editTripEventComponent.map (fun f => f.view) →
      v ∈ (AppPresenter.handleModelEvent U s .PATCH (.tripEvent data)).state.listChildren) := by
  have hs : (AppPresenter.handleModelEvent U s .PATCH (.tripEvent data)).state =
      (AppPresenter.initPresenter s data.id data).state := rfl
  rw [hs]
  refine ⟨?_, ?_, ?_, ?_, initPresenter_siblings s data.id data, ?_, ?_⟩
  · rw [initPresenter_state s data.id data p h]
    exact mapGet_mapSet_self _ _ _
  · rw [init_presenter]
  · rw [init_presenter]
  · rw [init_presenter]
  · intro k hk
    rw [initPresenter_state s data.id data p h]
    exact mapGet_mapSet_ne _ _ _ _ hk
  · intro v hv h1 h2 h3 h4
    rw [initPresenter_state s data.id data p h]
    exact init_children p data s.listChildren s.nextView v hv h1 h2 h3 h4

/-- C2 at the loaded example: a PATCH for the taxi leaves the presenter of the bus
as it was. -/
theorem C2_patch_frame_witness :
    mapGet (AppPresenter.handleModelEvent Example.utils Example.loaded .PATCH
      (.tripEvent { Example.taxi with isFavorite := true })).state.tripEventPresenters (some 2) =
    mapGet Example.loaded.tripEventPresenters (some 2) :=
  (C2_patch_frame Example.utils Example.loaded { Example.taxi with isFavorite := true } _
    rfl).2.2.2.2.2.1 (some 2) (by decide)

/-! ## The favorite toggle -/

theorem mapGet_map_congr {V W : Type} (f : V → W) (k : Option Nat) :
    ∀ (r r' : List (Option Nat × V)), r'.map Prod.fst = r.map Prod.fst →
      r'.map (fun kv => f kv.2) = r.map (fun kv => f kv.2) →
      (mapGet r' k).map f = (mapGet r k).map f
  | [], [], _, _ => rfl
  | [], _ :: _, h, _ => by simp at h
  | _ :: _, [], h, _ => by simp at h
  | (k1, v1) :: rest, (k2, v2) :: rest', h1, h2 => by
    simp only [List.map_cons, List.cons.injEq] at h1 h2
    obtain ⟨hk, h1⟩ := h1
    obtain ⟨hv, h2⟩ := h2
    have ih := mapGet_map_congr f k rest rest' h1 h2
    subst hk
    by_cases hkk : k2 = k
    · simp [mapGet, hkk, hv]
    · simp [mapGet, hkk, ih]

theorem initPresenter_fields (s : AppPresenter) (id : Option Nat) (e : TripEvent) :
    (AppPresenter.initPresenter s id e).state.requests = s.requests ∧
    (AppPresenter.initPresenter s id e).state.tripEventModel = s.tripEventModel ∧
    (AppPresenter.initPresenter s id e).state.addTripEventPresenter = s.addTripEventPresenter := by
  cases h : mapGet s.tripEventPresenters id with
  | none => rw [initPresenter_state_none s id e h]; exact ⟨rfl, rfl, rfl⟩
  | some p => rw [initPresenter_state s id e p h]; exact ⟨rfl, rfl, rfl⟩

theorem andThen_state_cases (o : Outcome) (f : AppPresenter → Outcome) :
    (o.andThen f).state = o.state ∨ (o.andThen f).state = (f o.state).state := by
  cases o with
  | done s => exact Or.inr rfl
  | threw s => exact Or.inl rfl

theorem handleTripEventChange_siblings (U : Utils) (s : AppPresenter) (u : TripEvent) :
    SiblingsUntouched u.id s (AppPresenter.handleTripEventChange U s u).state ∧
    (AppPresenter.handleTripEventChange U s u).state.requests =
      s.requests ++ [Request.updateTripEvent .PATCH u] ∧
    (AppPresenter.handleTripEventChange U s u).state.addTripEventPresenter =
      s.addTripEventPresenter := by
  unfold AppPresenter.handleTripEventChange
  have h1 : AppPresenter.updateTripEvent U s .PATCH u =
      AppPresenter.initPresenter
        { s with tripEventModel := s.tripEventModel.map (fun e => if e.id = u.id then u else e)
                 requests := s.requests ++ [Request.updateTripEvent .PATCH u] } u.id u := rfl
  rw [h1]
  generalize hs1 : ({ s with
      tripEventModel := s.tripEventModel.map (fun e => if e.id = u.id then u else e)
      requests := s.requests ++ [Request.updateTripEvent .PATCH u] } : AppPresenter) = s1
  have hb : SiblingsUntouched u.id s s1 := by
    subst hs1
    exact ⟨rfl, rfl, rfl, rfl, rfl, rfl⟩
  have hr : s1.requests = s.requests ++ [Request.updateTripEvent .PATCH u] := by
    subst hs1; rfl
  have ha : s1.addTripEventPresenter = s.addTripEventPresenter := by
    subst hs1; rfl
  have i1 := initPresenter_siblings s1 u.id u
  have f1 := initPresenter_fields s1 u.id u
  rcases andThen_state_cases (AppPresenter.initPresenter s1 u.id u)
      (fun s2 => AppPresenter.initPresenter s2 u.id u) with hc | hc
  · rw [hc]
    exact ⟨hb.trans i1, f1.1.trans hr, f1.2.2.trans ha⟩
  · rw [hc]
    have i2 := initPresenter_siblings (AppPresenter.initPresenter s1 u.id u).state u.id u
    have f2 := initPresenter_fields (AppPresenter.initPresenter s1 u.id u).state u.id u
    exact ⟨hb.trans (i1.trans i2), f2.1.trans (f1.1.trans hr), f2.2.2.trans (f1.2.2.trans ha)⟩

/-- C10. The favorite toggle of a presenter bound to `e` makes one request,
`updateTripEvent` at PATCH level, whose payload is `e` with `isFavorite` negated
and every other field as in `e`; afterwards every presenter, this one included,
is open or closed as before, the presenters under every id other than `e.id` are
the same in every field, and no presenter was constructed or destroyed. -/
theorem C10_toggle_favorite (U : Utils) (s : AppPresenter) (id : Option Nat)
    (p : TripEventPresenter) (e : TripEvent)
    (h : mapGet s.tripEventPresenters id = some p) (he : p.tripEvent = some e) :
    (AppPresenter.toggleFavoriteState U s id).state.requests =
      s.requests ++ [Request.updateTripEvent .PATCH
        { id := e.id, basePrice := e.basePrice, dateFrom := e.dateFrom, dateTo := e.dateTo,
          destination := e.destination, isFavorite := !e.isFavorite, offers := e.offers,
          type := e.type }] ∧
    SiblingsUntouched e.id s (AppPresenter.toggleFavoriteState U s id).state ∧
    (mapGet (AppPresenter.toggleFavoriteState U s id).state.tripEventPresenters id).map
      (fun q => q.isOpenEdit) = some p.isOpenEdit := by
  have hs : AppPresenter.toggleFavoriteState U s id =
      AppPresenter.handleTripEventChange U s { e with isFavorite := !e.isFavorite } := by
    unfold AppPresenter.toggleFavoriteState
    simp only [h, he]
  rw [hs]
  have hc := handleTripEventChange_siblings U s { e with isFavorite := !e.isFavorite }
  refine ⟨hc.2.1, hc.1, ?_⟩
  have hm := mapGet_map_congr (fun q : TripEventPresenter => q.isOpenEdit) id
    s.tripEventPresenters _ hc.1.1 hc.1.2.2.1
  rw [hm, h]
  rfl

/-- C10 at the loaded example: the toggle on the taxi requests one PATCH with
`isFavorite: true` and the presenter of the bus keeps its views. -/
theorem C10_toggle_favorite_witness :
    (AppPresenter.toggleFavoriteState Example.utils Example.loaded (some 1)).state.requests =
      [Request.updateTripEvent .PATCH
        { id := some 1, basePrice := some 20, dateFrom := 2, dateTo := 5, destination := some 7,
          isFavorite := true, offers := [4, 2], type := "taxi" }] :=
  (C10_toggle_favorite Example.utils Example.loaded (some 1) _ Example.taxi rfl rfl).1

open AppPresenter

/-! ## Rendering the list -/

theorem foldl_create_inv {α : Type} (f : AppPresenter → α)
    (hf : ∀ s e, f (createTripEventPresenter s e) = f s) (es : List TripEvent)
    (s : AppPresenter) : f (es.foldl createTripEventPresenter s) = f s := by
  induction es generalizing s with
  | nil => rfl
  | cons e es ih => rw [List.foldl_cons, ih, hf]

theorem renderTripEventsList_modelFields (U : Utils) (s : AppPresenter) :
    (renderTripEventsList U s).modelFields = s.modelFields := by
  unfold renderTripEventsList
  dsimp only
  split
  · rfl
  · split
    · rw [foldl_create_inv modelFields (fun _ _ => rfl)]
      rfl
    · rw [foldl_create_inv modelFields (fun _ _ => rfl)]
      rfl

theorem renderTripEventsList_loading (U : Utils) (s : AppPresenter) (h : s.isLoading = true) :
    (renderTripEventsList U s).tripEventPresenters = s.tripEventPresenters ∧
    (renderTripEventsList U s).nextPresenter = s.nextPresenter ∧
    (renderTripEventsList U s).listChildren = s.listChildren ∧
    (renderTripEventsList U s).nextView = s.nextView := by
  unfold renderTripEventsList
  dsimp only
  rw [if_pos h]
  exact ⟨rfl, rfl, rfl, rfl⟩

theorem modelFields_isLoading {s s' : AppPresenter} (h : s'.modelFields = s.modelFields) :
    s'.isLoading = s.isLoading ∧ s'.isLoadingTripEvents = s.isLoadingTripEvents ∧
    s'.isLoadingDestinations = s.isLoadingDestinations ∧
    s'.isLoadingOffers = s.isLoadingOffers := by
  simp only [modelFields, Prod.mk.injEq] at h
  exact ⟨h.2.2.2.2.2.1, h.2.2.2.2.2.2.1, h.2.2.2.2.2.2.2.1, h.2.2.2.2.2.2.2.2.1⟩

/-! ## The loading gate -/

theorem names_distinct :
    TripEventModel.name ≠ OfferModel.name ∧ TripEventModel.name ≠ DestinationModel.name ∧
    OfferModel.name ≠ DestinationModel.name := by decide

theorem updateLoadingStatus_flags (s : AppPresenter) (n : String) :
    (updateLoadingStatus s (.className n)).isLoadingTripEvents =
      (s.isLoadingTripEvents && decide (n ≠ TripEventModel.name)) ∧
    (updateLoadingStatus s (.className n)).isLoadingOffers =
      (s.isLoadingOffers && decide (n ≠ OfferModel.name)) ∧
    (updateLoadingStatus s (.className n)).isLoadingDestinations =
      (s.isLoadingDestinations && decide (n ≠ DestinationModel.name)) := by
  obtain ⟨d1, d2, d3⟩ := names_distinct
  unfold updateLoadingStatus
  by_cases h1 : n = TripEventModel.name
  · subst h1
    simp [d1, d2]
  · by_cases h2 : n = OfferModel.name
    · subst h2
      simp [h1, d3]
    · by_cases h3 : n = DestinationModel.name
      · subst h3
        simp [h1, h2]
      · simp [h1, h2, h3]

theorem handleModelEvent_init_state (U : Utils) (s : AppPresenter) (d : Payload) :
    (handleModelEvent U s .INIT d).state =
      renderTripEventsList U
        { updateLoadingStatus s d with
          isLoading := (updateLoadingStatus s d).isLoadingTripEvents ||
            (updateLoadingStatus s d).isLoadingDestinations ||
            (updateLoadingStatus s d).isLoadingOffers } := rfl

theorem init_step_flags (U : Utils) (s : AppPresenter) (n : String) :
    (handleModelEvent U s .INIT (.className n)).state.isLoadingTripEvents =
      (s.isLoadingTripEvents && decide (n ≠ TripEventModel.name)) ∧
    (handleModelEvent U s .INIT (.className n)).state.isLoadingOffers =
      (s.isLoadingOffers && decide (n ≠ OfferModel.name)) ∧
    (handleModelEvent U s .INIT (.className n)).state.isLoadingDestinations =
      (s.isLoadingDestinations && decide (n ≠ DestinationModel.name)) ∧
    (handleModelEvent U s .INIT (.className n)).state.isLoading =
      ((handleModelEvent U s .INIT (.className n)).state.isLoadingTripEvents ||
       (handleModelEvent U s .INIT (.className n)).state.isLoadingDestinations ||
       (handleModelEvent U s .INIT (.className n)).state.isLoadingOffers) := by
  rw [handleModelEvent_init_state]
  obtain ⟨f0, f1, f2, f3⟩ := modelFields_isLoading (renderTripEventsList_modelFields U
    { updateLoadingStatus s (.className n) with
      isLoading := (updateLoadingStatus s (.className n)).isLoadingTripEvents ||
        (updateLoadingStatus s (.className n)).isLoadingDestinations ||
        (updateLoadingStatus s (.className n)).isLoadingOffers })
  obtain ⟨u1, u2, u3⟩ := updateLoadingStatus_flags s n
  rw [f0, f1, f2, f3]
  exact ⟨u1, u2, u3, rfl⟩

theorem flag_step (f : Bool) (x n : String) (ns : List String) :
    (f && decide (n ≠ x) && decide (x ∉ ns)) = (f && decide (x ∉ n :: ns)) := by
  by_cases a : n = x
  · subst a
    simp
  · have a' : ¬ x = n := fun h => a h.symm
    by_cases b : x ∈ ns <;> simp [a, a', b]

theorem receiveInits_flags (U : Utils) (names : List String) (s : AppPresenter) :
    (receiveInits U s names).isLoadingTripEvents =
      (s.isLoadingTripEvents && decide (TripEventModel.name ∉ names)) ∧
    (receiveInits U s names).isLoadingOffers =
      (s.isLoadingOffers && decide (OfferModel.name ∉ names)) ∧
    (receiveInits U s names).isLoadingDestinations =
      (s.isLoadingDestinations && decide (DestinationModel.name ∉ names)) ∧
    ((s.isLoading = (s.isLoadingTripEvents || s.isLoadingDestinations || s.isLoadingOffers)) →
      (receiveInits U s names).isLoading =
        ((receiveInits U s names).isLoadingTripEvents ||
         (receiveInits U s names).isLoadingDestinations ||
         (receiveInits U s names).isLoadingOffers)) := by
  induction names generalizing s with
  | nil => simp [receiveInits]
  | cons n ns ih =>
    have hstep := init_step_flags U s n
    have hrec := ih (handleModelEvent U s .INIT (.className n)).state
    have hunf : receiveInits U s (n :: ns) =
        receiveInits U (handleModelEvent U s .INIT (.className n)).state ns := rfl
    rw [hunf]
    obtain ⟨r1, r2, r3, r4⟩ := hrec
    obtain ⟨s1, s2, s3, s4⟩ := hstep
    refine ⟨?_, ?_, ?_, fun _ => r4 s4⟩
    · rw [r1, s1]
      exact flag_step _ _ _ _
    · rw [r2, s2]
      exact flag_step _ _ _ _
    · rw [r3, s3]
      exact flag_step _ _ _ _

theorem updateLoadingStatus_rest (s : AppPresenter) (d : Payload) :
    (updateLoadingStatus s d).tripEventPresenters = s.tripEventPresenters ∧
    (updateLoadingStatus s d).nextPresenter = s.nextPresenter ∧
    (updateLoadingStatus s d).listChildren = s.listChildren ∧
    (updateLoadingStatus s d).nextView = s.nextView ∧
    (updateLoadingStatus s d).destroyed = s.destroyed := by
  unfold updateLoadingStatus
  cases d with
  | className n =>
    dsimp only
    split
    · exact ⟨rfl, rfl, rfl, rfl, rfl⟩
    · split
      · exact ⟨rfl, rfl, rfl, rfl, rfl⟩
      · split <;> exact ⟨rfl, rfl, rfl, rfl, rfl⟩
  | tripEvent e => exact ⟨rfl, rfl, rfl, rfl, rfl⟩
  | other => exact ⟨rfl, rfl, rfl, rfl, rfl⟩

theorem clearTripEventsList_modelFields (s : AppPresenter) :
    (clearTripEventsList s).isLoading = s.isLoading ∧
    (clearTripEventsList s).nextPresenter = s.nextPresenter ∧
    (clearTripEventsList s).nextView = s.nextView := ⟨rfl, rfl, rfl⟩

/-- While the loading flag is set after a notification, the notification has
constructed no presenter. -/
theorem no_presenter_while_loading (U : Utils) (s : AppPresenter) (ut : UpdateType)
    (d : Payload) (h : (handleModelEvent U s ut d).state.isLoading = true) :
    (handleModelEvent U s ut d).state.nextPresenter = s.nextPresenter := by
  cases ut with
  | PATCH =>
    cases d with
    | tripEvent e => exact (initPresenter_siblings s e.id e).2.2.2.2.1
    | className n => rfl
    | other => rfl
  | MINOR =>
    have hs : (handleModelEvent U s .MINOR d).state =
      renderTripEventsList U (clearTripEventsList s) := rfl
    rw [hs] at h ⊢
    have hl := (modelFields_isLoading (renderTripEventsList_modelFields U
      (clearTripEventsList s))).1
    rw [hl] at h
    exact (renderTripEventsList_loading U _ h).2.1
  | MAJOR =>
    have hs : (handleModelEvent U s .MAJOR d).state =
      renderTripEventsList U (clearTripEventsList s) := rfl
    rw [hs] at h ⊢
    have hl := (modelFields_isLoading (renderTripEventsList_modelFields U
      (clearTripEventsList s))).1
    rw [hl] at h
    exact (renderTripEventsList_loading U _ h).2.1
  | INIT =>
    rw [handleModelEvent_init_state] at h ⊢
    have hl := (modelFields_isLoading (renderTripEventsList_modelFields U
      { updateLoadingStatus s d with
        isLoading := (updateLoadingStatus s d).isLoadingTripEvents ||
          (updateLoadingStatus s d).isLoadingDestinations ||
          (updateLoadingStatus s d).isLoadingOffers })).1
    rw [hl] at h
    rw [(renderTripEventsList_loading U _ h).2.1]
    exact (updateLoadingStatus_rest s d).2.1

/-- The invariant of the loading phase: the combined flag is the disjunction of
the three flags, and while it is set the map is empty and no presenter has been
constructed since `n0`. -/
theorem receiveInits_loading (U : Utils) (names : List String) (s : AppPresenter) (n0 : Nat)
    (h1 : s.isLoading = (s.isLoadingTripEvents || s.isLoadingDestinations || s.isLoadingOffers))
    (h2 : s.isLoading = true → s.tripEventPresenters = [] ∧ s.nextPresenter = n0) :
    (receiveInits U s names).isLoading = true →
      (receiveInits U s names).tripEventPresenters = [] ∧
      (receiveInits U s names).nextPresenter = n0 := by
  induction names generalizing s with
  | nil => exact h2
  | cons n ns ih =>
    have hunf : receiveInits U s (n :: ns) =
        receiveInits U (handleModelEvent U s .INIT (.className n)).state ns := rfl
    rw [hunf]
    obtain ⟨s1, s2, s3, s4⟩ := init_step_flags U s n
    apply ih _ s4
    intro hl
    have hs : s.isLoading = true := by
      rw [s4, s1, s2, s3] at hl
      rw [h1]
      revert hl
      cases s.isLoadingTripEvents <;> cases s.isLoadingDestinations <;>
        cases s.isLoadingOffers <;> simp
    obtain ⟨e1, e2⟩ := h2 hs
    have hn := no_presenter_while_loading U s .INIT (.className n) hl
    refine ⟨?_, hn.trans e2⟩
    rw [handleModelEvent_init_state] at hl ⊢
    have hl' := (modelFields_isLoading (renderTripEventsList_modelFields U
      { updateLoadingStatus s (.className n) with
        isLoading := (updateLoadingStatus s (.className n)).isLoadingTripEvents ||
          (updateLoadingStatus s (.className n)).isLoadingDestinations ||
          (updateLoadingStatus s (.className n)).isLoadingOffers })).1
    rw [hl'] at hl
    rw [(renderTripEventsList_loading U _ hl).1]
    exact (updateLoadingStatus_rest s (.className n)).1.trans e1

/-- C4. From the initial state and after the INIT notifications `names`, the
combined loading flag is false exactly when each of the three model names occurs
in `names`; while it is true the map is empty and no presenter has been
constructed. An INIT clears the flag of the model it names and leaves the other
two as they were, and no notification of any type constructs a presenter when the
combined flag is true after it. -/
theorem C4_loading_gate (U : Utils) (tripEvents : List TripEvent) (filter : FilterType)
    (sort : SortType) (names : List String) :
    ((receiveInits U (initial tripEvents filter sort) names).isLoading = false ↔
      (TripEventModel.name ∈ names ∧ DestinationModel.name ∈ names ∧
        OfferModel.name ∈ names)) ∧
    ((receiveInits U (initial tripEvents filter sort) names).isLoading = true →
      (receiveInits U (initial tripEvents filter sort) names).tripEventPresenters = [] ∧
      (receiveInits U (initial tripEvents filter sort) names).nextPresenter = 0) ∧
    (∀ (s : AppPresenter) (n : String),
      (handleModelEvent U s .INIT (.className n)).state.isLoadingTripEvents =
        (s.isLoadingTripEvents && decide (n ≠ TripEventModel.name)) ∧
      (handleModelEvent U s .INIT (.className n)).state.isLoadingOffers =
        (s.isLoadingOffers && decide (n ≠ OfferModel.name)) ∧
      (handleModelEvent U s .INIT (.className n)).state.isLoadingDestinations =
        (s.isLoadingDestinations && decide (n ≠ DestinationModel.name))) ∧
    (∀ (s : AppPresenter) (ut : UpdateType) (d : Payload),
      (handleModelEvent U s ut d).state.isLoading = true →
      (handleModelEvent U s ut d).state.nextPresenter = s.nextPresenter) := by
  refine ⟨?_, ?_, ?_, ?_⟩
  · obtain ⟨r1, r2, r3, r4⟩ := receiveInits_flags U names (initial tripEvents filter sort)
    rw [r4 rfl, r1, r2, r3]
    simp [initial, and_assoc]
  · exact receiveInits_loading U names _ 0 rfl (fun _ => ⟨rfl, rfl⟩)
  · intro s n
    obtain ⟨s1, s2, s3, _⟩ := init_step_flags U s n
    exact ⟨s1, s2, s3⟩
  · exact no_presenter_while_loading U

/-- C4 at the example: after the INIT of two models the flag is still set and no
presenter exists; the INIT of the third completes the loading. -/
theorem C4_loading_gate_witness :
    ((receiveInits Example.utils (initial [Example.taxi, Example.bus] .EVERYTHING .DAY)
        [TripEventModel.name, OfferModel.name]).tripEventPresenters = [] ∧
      (receiveInits Example.utils (initial [Example.taxi, Example.bus] .EVERYTHING .DAY)
        [TripEventModel.name, OfferModel.name]).nextPresenter = 0) ∧
    (handleModelEvent Example.utils (initial [Example.taxi, Example.bus] .EVERYTHING .DAY)
      .INIT (.className OfferModel.name)).state.nextPresenter = 0 ∧
    Example.loaded.isLoading = false :=
  ⟨(C4_loading_gate Example.utils [Example.taxi, Example.bus] .EVERYTHING .DAY
      [TripEventModel.name, OfferModel.name]).2.1 (by decide),
   (C4_loading_gate Example.utils [Example.taxi, Example.bus] .EVERYTHING .DAY
      []).2.2.2 _ .INIT (.className OfferModel.name) (by decide),
   (C4_loading_gate Example.utils [Example.taxi, Example.bus] .EVERYTHING .DAY
      [TripEventModel.name, OfferModel.name, DestinationModel.name]).1.2 (by decide)⟩

/-! ## Clearing and rebuilding the list -/

/-- `v` is the display view or the edit form of presenter `p`. -/
theorem mem_removeComponent {v : Nat} {w : Option Nat} {ch : List Nat} :
    v ∈ removeComponent w ch ↔ v ∈ ch ∧ some v ≠ w := by
  cases w with
  | none => simp [removeComponent]
  | some w => simp [removeComponent, mem_remove]

theorem mem_destroy {v : Nat} {p : TripEventPresenter} {ch : List Nat} :
    v ∈ p.destroy ch ↔
      v ∈ ch ∧ some v ≠ p.tripEventComponent ∧
        some v ≠ p.editTripEventComponent.map (fun f => f.view) := by
  unfold TripEventPresenter.destroy
  rw [mem_removeComponent, mem_removeComponent]
  tauto

theorem mem_foldl_destroy (r : List (Option Nat × TripEventPresenter)) (ch : List Nat) (v : Nat) :
    v ∈ r.foldl (fun ch kp => kp.2.destroy ch) ch ↔
      v ∈ ch ∧ ∀ kp ∈ r, some v ≠ kp.2.tripEventComponent ∧
        some v ≠ kp.2.editTripEventComponent.map (fun f => f.view) := by
  induction r generalizing ch with
  | nil => simp
  | cons kp rest ih =>
    rw [List.foldl_cons, ih, mem_destroy]
    simp only [List.forall_mem_cons]
    tauto

theorem create_presenter (s : AppPresenter) (e : TripEvent) :
    createTripEventPresenter s e =
      { s with nextPresenter := s.nextPresenter + 1
               tripEventPresenters := mapSet s.tripEventPresenters e.id
                 { pid := s.nextPresenter
                   tripEvent := some e
                   tripEventComponent := some s.nextView
                   editTripEventComponent :=
                     some { view := s.nextView + 1, state := EditFormView.parseTripEventToState e }
                   isOpenEdit := false
                   escKeyDownBound := false }
               listChildren := render s.nextView s.listChildren
               nextView := s.nextView + 2 } := rfl

theorem mem_mapSet {V : Type} {r : List (Option Nat × V)} {k : Option Nat} {v : V}
    {kv : Option Nat × V} (h : kv ∈ mapSet r k v) : kv ∈ r ∨ kv = (k, v) := by
  induction r with
  | nil =>
    simp only [mapSet, List.mem_singleton] at h
    exact Or.inr h
  | cons x rest ih =>
    obtain ⟨k', v'⟩ := x
    by_cases hk : k' = k
    · simp only [mapSet, hk, if_true, List.mem_cons] at h
      rcases h with h | h
      · exact Or.inr h
      · exact Or.inl (List.mem_cons_of_mem _ h)
    · simp only [mapSet, hk, if_false, List.mem_cons] at h
      rcases h with h | h
      · exact Or.inl (h ▸ List.mem_cons_self _ _)
      · rcases ih h with h' | h'
        · exact Or.inl (List.mem_cons_of_mem _ h')
        · exact Or.inr h'

/-- What a run of the loop of `#renderTripEventsList` can have done: the counters
only grow, a mounted view was mounted before or is new, a view mounted before
that is older than the counter is still mounted, and a registered presenter was
registered before or is new. -/
theorem foldl_create_grows (es : List TripEvent) (s : AppPresenter) :
    s.nextView ≤ (es.foldl createTripEventPresenter s).nextView ∧
    s.nextPresenter ≤ (es.foldl createTripEventPresenter s).nextPresenter ∧
    (∀ v ∈ (es.foldl createTripEventPresenter s).listChildren,
      v ∈ s.listChildren ∨ s.nextView ≤ v) ∧
    (∀ v ∈ s.listChildren, v < s.nextView →
      v ∈ (es.foldl createTripEventPresenter s).listChildren) ∧
    (∀ kp ∈ (es.foldl createTripEventPresenter s).tripEventPresenters,
      kp ∈ s.tripEventPresenters ∨ s.nextPresenter ≤ kp.2.pid) := by
  induction es generalizing s with
  | nil =>
    exact ⟨le_refl _, le_refl _, fun v hv => Or.inl hv, fun v hv _ => hv,
      fun kp hkp => Or.inl hkp⟩
  | cons e es ih =>
    rw [List.foldl_cons]
    obtain ⟨i1, i2, i3, i4, i5⟩ := ih (createTripEventPresenter s e)
    rw [create_presenter] at i1 i2 i3 i4 i5 ⊢
    dsimp only at i1 i2 i3 i4 i5 ⊢
    refine ⟨by omega, by omega, ?_, ?_, ?_⟩
    · intro v hv
      rcases i3 v hv with h | h
      · simp only [render, List.mem_append, mem_remove, List.mem_singleton] at h
        rcases h with h | h
        · exact Or.inl h.1
        · exact Or.inr (by omega)
      · exact Or.inr (by omega)
    · intro v hv hlt
      apply i4 v _ (by omega)
      simp only [render, List.mem_append, mem_remove, List.mem_singleton]
      exact Or.inl ⟨hv, by omega⟩
    · intro kp hkp
      rcases i5 kp hkp with h | h
      · rcases mem_mapSet h with h' | h'
        · exact Or.inl h'
        · exact Or.inr (by rw [h'])
      · exact Or.inr (by omega)

/-- The shape of `#renderTripEventsList`: some turns of the loop, run from a
state that differs from `s` in the container, the sort bar and possibly one
placeholder view. -/
theorem renderTripEventsList_shape (U : Utils) (s : AppPresenter) :
    ∃ (s2 : AppPresenter) (es : List TripEvent),
      renderTripEventsList U s = es.foldl createTripEventPresenter s2 ∧
      s2.tripEventPresenters = s.tripEventPresenters ∧
      s2.listChildren = s.listChildren ∧
      s2.nextPresenter = s.nextPresenter ∧
      s2.addTripEventPresenter = s.addTripEventPresenter ∧
      s.nextView ≤ s2.nextView := by
  unfold renderTripEventsList
  dsimp only
  split
  · exact ⟨_, [], rfl, rfl, rfl, rfl, rfl, le_refl _⟩
  · split
    · exact ⟨_, _, rfl, rfl, rfl, rfl, rfl, le_refl _⟩
    · exact ⟨_, _, rfl, rfl, rfl, rfl, rfl, Nat.le_succ _⟩

theorem renderTripEventsList_grows (U : Utils) (s : AppPresenter) :
    s.nextView ≤ (renderTripEventsList U s).nextView ∧
    s.nextPresenter ≤ (renderTripEventsList U s).nextPresenter ∧
    (∀ v ∈ (renderTripEventsList U s).listChildren, v ∈ s.listChildren ∨ s.nextView ≤ v) ∧
    (∀ v ∈ s.listChildren, v < s.nextView → v ∈ (renderTripEventsList U s).listChildren) ∧
    (∀ kp ∈ (renderTripEventsList U s).tripEventPresenters,
      kp ∈ s.tripEventPresenters ∨ s.nextPresenter ≤ kp.2.pid) := by
  obtain ⟨s2, es, hr, h1, h2, h3, _, h5⟩ := renderTripEventsList_shape U s
  obtain ⟨i1, i2, i3, i4, i5⟩ := foldl_create_grows es s2
  rw [hr]
  rw [h1] at i5
  rw [h2] at i3 i4
  rw [h3] at i2 i5
  refine ⟨by omega, i2, ?_, ?_, i5⟩
  · intro v hv
    rcases i3 v hv with h | h
    · exact Or.inl h
    · exact Or.inr (by omega)
  · intro v hv hlt
    exact i4 v hv (by omega)

theorem modelFields_destroyed {s s' : AppPresenter} (h : s'.modelFields = s.modelFields) :
    s'.destroyed = s.destroyed ∧ s'.addTripEventPresenter = s.addTripEventPresenter ∧
    s'.requests = s.requests ∧ s'.tripEventModel = s.tripEventModel := by
  simp only [modelFields, Prod.mk.injEq] at h
  exact ⟨h.2.2.2.2.2.2.2.2.2.2, h.2.2.2.1, h.2.2.2.2.2.2.2.2.2.1, h.1⟩

/-- An INIT that arrives once the list is rendered, which the loading contract
excludes, clears nothing: in the loaded example the presenter registered under
id 1 shows the view 0; after one more INIT that view is still mounted and no
presenter has been destroyed. -/
theorem init_after_loading_keeps_views :
    (mapGet Example.loaded.tripEventPresenters (some 1)).map (fun p => p.tripEventComponent)
      = some (some 0) ∧
    0 ∈ (handleModelEvent Example.utils Example.loaded .INIT
      (.className OfferModel.name)).state.listChildren ∧
    (handleModelEvent Example.utils Example.loaded .INIT
      (.className OfferModel.name)).state.destroyed = [] := by
  decide

/-- A MINOR or MAJOR notification destroys every registered presenter and clears
the map, then renders: in the cleared state no view of a presenter registered
before is mounted, and after the rendering none of them is mounted either, every
one of them is in the record of destroyed presenters, and every registered
presenter is one constructed by this notification. An INIT notification destroys
nothing and unmounts nothing; the map it renders over is empty as long as the
loading has not completed. -/
theorem rebuild_spec (U : Utils) (s : AppPresenter) (ut : UpdateType) (d : Payload)
    (hut : ut = .MINOR ∨ ut = .MAJOR) :
    (handleModelEvent U s ut d).state = renderTripEventsList U (clearTripEventsList s) ∧
    (clearTripEventsList s).tripEventPresenters = [] ∧
    (∀ kp ∈ s.tripEventPresenters, ∀ v,
      (some v = kp.2.tripEventComponent ∨
        some v = kp.2.editTripEventComponent.map (fun f => f.view)) →
      v ∉ (clearTripEventsList s).listChildren) ∧
    (handleModelEvent U s ut d).state.destroyed =
      s.destroyed ++ s.tripEventPresenters.map (fun kp => kp.2.pid) ∧
    (∀ kp ∈ s.tripEventPresenters, ∀ v,
      (some v = kp.2.tripEventComponent ∨
        some v = kp.2.editTripEventComponent.map (fun f => f.view)) →
      v < s.nextView → v ∉ (handleModelEvent U s ut d).state.listChildren) ∧
    (∀ kp ∈ (handleModelEvent U s ut d).state.tripEventPresenters,
      s.nextPresenter ≤ kp.2.pid) ∧
    (handleModelEvent U s .INIT d).state.destroyed = s.destroyed ∧
    (∀ v ∈ s.listChildren, v < s.nextView →
      v ∈ (handleModelEvent U s .INIT d).state.listChildren) ∧
    (∀ tripEvents filter sort names,
      (receiveInits U (initial tripEvents filter sort) names).isLoading = true →
      (receiveInits U (initial tripEvents filter sort) names).tripEventPresenters = []) := by
  have hs : (handleModelEvent U s ut d).state =
      renderTripEventsList U (clearTripEventsList s) := by
    rcases hut with h | h <;> subst h <;> rfl
  have hclear : ∀ kp ∈ s.tripEventPresenters, ∀ v,
      (some v = kp.2.tripEventComponent ∨
        some v = kp.2.editTripEventComponent.map (fun f => f.view)) →
      v ∉ (clearTripEventsList s).listChildren := by
    intro kp hkp v hv hmem
    have := (mem_foldl_destroy s.tripEventPresenters s.listChildren v).1 hmem
    have h2 := this.2 kp hkp
    rcases hv with hv | hv
    · exact h2.1 hv
    · exact h2.2 hv
  obtain ⟨g1, g2, g3, g4, g5⟩ := renderTripEventsList_grows U (clearTripEventsList s)
  refine ⟨hs, rfl, hclear, ?_, ?_, ?_, ?_, ?_, ?_⟩
  · rw [hs, (modelFields_destroyed (renderTripEventsList_modelFields U _)).1]
    rfl
  · intro kp hkp v hv hlt hmem
    rw [hs] at hmem
    rcases g3 v hmem with h | h
    · exact hclear kp hkp v hv h
    · have : (clearTripEventsList s).nextView = s.nextView := rfl
      omega
  · intro kp hkp
    rw [hs] at hkp
    rcases g5 kp hkp with h | h
    · have : (clearTripEventsList s).tripEventPresenters = [] := rfl
      rw [this] at h
      simp at h
    · exact h
  · rw [handleModelEvent_init_state,
      (modelFields_destroyed (renderTripEventsList_modelFields U _)).1]
    exact (updateLoadingStatus_rest s d).2.2.2.2
  · intro v hv hlt
    rw [handleModelEvent_init_state]
    obtain ⟨_, _, _, k4, _⟩ := renderTripEventsList_grows U
      { updateLoadingStatus s d with
        isLoading := (updateLoadingStatus s d).isLoadingTripEvents ||
          (updateLoadingStatus s d).isLoadingDestinations ||
          (updateLoadingStatus s d).isLoadingOffers }
    apply k4 v
    · show v ∈ (updateLoadingStatus s d).listChildren
      rw [(updateLoadingStatus_rest s d).2.2.1]
      exact hv
    · show v < (updateLoadingStatus s d).nextView
      rw [(updateLoadingStatus_rest s d).2.2.2.1]
      exact hlt
  · intro tripEvents filter sort names hl
    exact (receiveInits_loading U names _ 0 rfl (fun _ => ⟨rfl, rfl⟩) hl).1

/-! ## Counting the open editors -/

theorem openEditors_eq (s : AppPresenter) :
    openEditors s = openCount s.tripEventPresenters +
      (if s.addTripEventPresenter.isSome then 1 else 0) := rfl

theorem openCount_cons (kp : Option Nat × TripEventPresenter)
    (r : List (Option Nat × TripEventPresenter)) :
    openCount (kp :: r) = (if kp.2.isOpenEdit then 1 else 0) + openCount r := by
  unfold openCount
  rw [List.filter_cons]
  split
  · simp; omega
  · simp

theorem openCount_mapSet_le (r : List (Option Nat × TripEventPresenter)) (k : Option Nat)
    (p' : TripEventPresenter)
    (h : p'.isOpenEdit = true → ∃ p, mapGet r k = some p ∧ p.isOpenEdit = true) :
    openCount (mapSet r k p') ≤ openCount r := by
  induction r with
  | nil =>
    have hp : p'.isOpenEdit = false := by
      cases hh : p'.isOpenEdit with
      | false => rfl
      | true =>
        obtain ⟨p, hp, _⟩ := h hh
        simp [mapGet] at hp
    simp [mapSet, openCount, hp]
  | cons x rest ih =>
    obtain ⟨k', v'⟩ := x
    by_cases hk : k' = k
    · simp only [mapSet, hk, if_true, openCount_cons]
      cases hh : p'.isOpenEdit with
      | false => simp
      | true =>
        obtain ⟨p, hp, hpo⟩ := h hh
        simp only [mapGet, hk, if_true, Option.some.injEq] at hp
        subst hp
        simp [hpo]
    · simp only [mapSet, hk, if_false, openCount_cons]
      have := ih (fun hh => by
        obtain ⟨p, hp, hpo⟩ := h hh
        simp only [mapGet, hk, if_false] at hp
        exact ⟨p, hp, hpo⟩)
      omega

theorem openCount_mapSet_le_one (r : List (Option Nat × TripEventPresenter)) (k : Option Nat)
    (p' : TripEventPresenter) (h : openCount r = 0) : openCount (mapSet r k p') ≤ 1 := by
  induction r with
  | nil =>
    simp only [mapSet, openCount_cons]
    split <;> simp [openCount]
  | cons x rest ih =>
    obtain ⟨k', v'⟩ := x
    rw [openCount_cons] at h
    dsimp only at h
    have hrest : openCount rest = 0 := by omega
    have hv : (if v'.isOpenEdit = true then 1 else 0) = 0 := by omega
    by_cases hk : k' = k
    · simp only [mapSet, hk, if_true, openCount_cons]
      split <;> omega
    · simp only [mapSet, hk, if_false, openCount_cons]
      have := ih hrest
      omega

theorem openCount_eq_of_map {r r' : List (Option Nat × TripEventPresenter)}
    (h : r'.map (fun kp => kp.2.isOpenEdit) = r.map (fun kp => kp.2.isOpenEdit)) :
    openCount r' = openCount r := by
  induction r generalizing r' with
  | nil =>
    simp only [List.map_nil, List.map_eq_nil_iff] at h
    rw [h]
  | cons x rest ih =>
    cases r' with
    | nil => simp at h
    | cons y rest' =>
      simp only [List.map_cons, List.cons.injEq] at h
      rw [openCount_cons, openCount_cons, ih h.2, h.1]

/-! ### The methods of one presenter -/

theorem closeEdit_isOpenEdit (p : TripEventPresenter) (ch : List Nat) :
    ((p.closeEdit ch).presenter.isOpenEdit = true → p.isOpenEdit = true) ∧
    ((p.closeEdit ch).threw = false → (p.closeEdit ch).presenter.isOpenEdit = false) := by
  unfold TripEventPresenter.closeEdit
  cases p.tripEventComponent with
  | none => simp
  | some d =>
    cases p.editTripEventComponent with
    | none => simp
    | some f =>
      dsimp only
      cases replace d f.view ch with
      | none => simp
      | some ch' => simp

theorem reset_isOpenEdit (p : TripEventPresenter) (ch : List Nat) :
    ((p.reset ch).presenter.isOpenEdit = true → p.isOpenEdit = true) ∧
    ((p.reset ch).threw = false → (p.reset ch).presenter.isOpenEdit = false) := by
  unfold TripEventPresenter.reset
  by_cases ho : p.isOpenEdit = true
  · rw [if_pos ho]
    cases p.editTripEventComponent with
    | none => simp [ho]
    | some f =>
      cases p.tripEvent with
      | none => simp [ho]
      | some t =>
        dsimp only
        exact ⟨fun _ => ho, (closeEdit_isOpenEdit _ ch).2⟩
  · rw [if_neg ho]
    simp at ho
    simp [ho]

theorem resetEach_openCount (r : List (Option Nat × TripEventPresenter)) (ch : List Nat) :
    openCount (resetEach r ch).1 ≤ openCount r ∧
    ((resetEach r ch).2.2 = false → openCount (resetEach r ch).1 = 0) := by
  induction r generalizing ch with
  | nil => simp [resetEach, openCount]
  | cons x rest ih =>
    obtain ⟨k, p⟩ := x
    obtain ⟨h1, h2⟩ := reset_isOpenEdit p ch
    unfold resetEach
    dsimp only
    by_cases ht : (p.reset ch).threw = true
    · rw [if_pos ht]
      dsimp only
      rw [openCount_cons, openCount_cons]
      refine ⟨?_, by simp⟩
      dsimp only
      cases hh : (p.reset ch).presenter.isOpenEdit with
      | false => simp
      | true => simp [h1 hh]
    · rw [if_neg ht]
      simp only [Bool.not_eq_true] at ht
      obtain ⟨i1, i2⟩ := ih (p.reset ch).listChildren
      dsimp only
      rw [openCount_cons, openCount_cons]
      dsimp only
      rw [h2 ht]
      constructor
      · simp only [Bool.false_eq_true, if_false]
        omega
      · intro hf
        simp only [Bool.false_eq_true, if_false]
        have := i2 hf
        omega

/-! ### The handlers -/

theorem store_openEditors (s : AppPresenter) (id : Option Nat) (p : TripEventPresenter)
    (r : PresenterResult) (h : mapGet s.tripEventPresenters id = some p)
    (hr : r.presenter.isOpenEdit = true → p.isOpenEdit = true) :
    openEditors (store s id r).state ≤ openEditors s := by
  have hc := openCount_mapSet_le s.tripEventPresenters id r.presenter
    (fun hh => ⟨p, h, hr hh⟩)
  unfold store
  dsimp only
  split <;> (simp only [Outcome.state, openEditors_eq]; omega)

theorem closeEdit_openEditors (s : AppPresenter) (id : Option Nat) :
    openEditors (AppPresenter.closeEdit s id).state ≤ openEditors s := by
  unfold AppPresenter.closeEdit
  cases h : mapGet s.tripEventPresenters id with
  | none => exact le_refl _
  | some p => exact store_openEditors s id p _ h (closeEdit_isOpenEdit p _).1

theorem reset_openEditors (s : AppPresenter) (id : Option Nat) :
    openEditors (AppPresenter.reset s id).state ≤ openEditors s := by
  unfold AppPresenter.reset
  cases h : mapGet s.tripEventPresenters id with
  | none => exact le_refl _
  | some p => exact store_openEditors s id p _ h (reset_isOpenEdit p _).1

theorem resetAll_openCount (s : AppPresenter) :
    openCount (resetAll s).state.tripEventPresenters ≤ openCount s.tripEventPresenters ∧
    (resetAll s).state.addTripEventPresenter = s.addTripEventPresenter ∧
    (∀ s', resetAll s = .done s' → openCount s'.tripEventPresenters = 0) := by
  obtain ⟨h1, h2⟩ := resetEach_openCount s.tripEventPresenters s.listChildren
  unfold resetAll
  dsimp only
  by_cases ht : (resetEach s.tripEventPresenters s.listChildren).2.2 = true
  · rw [if_pos ht]
    exact ⟨h1, rfl, fun s' hs => by cases hs⟩
  · rw [if_neg ht]
    simp only [Bool.not_eq_true] at ht
    refine ⟨h1, rfl, fun s' hs => ?_⟩
    cases hs
    exact h2 ht

theorem closeCreateForm_fields (s : AppPresenter) :
    (closeCreateForm s).tripEventPresenters = s.tripEventPresenters ∧
    (closeCreateForm s).addTripEventPresenter = none := by
  unfold closeCreateForm
  cases h : s.addTripEventPresenter with
  | none => exact ⟨rfl, h⟩
  | some v => exact ⟨rfl, rfl⟩

theorem handleOpenEditEvent_openCount (s : AppPresenter) :
    openCount (handleOpenEditEvent s).state.tripEventPresenters ≤
      openCount s.tripEventPresenters ∧
    (handleOpenEditEvent s).state.addTripEventPresenter = none ∧
    (∀ s', handleOpenEditEvent s = .done s' → openCount s'.tripEventPresenters = 0) := by
  obtain ⟨c1, c2⟩ := closeCreateForm_fields s
  obtain ⟨r1, r2, r3⟩ := resetAll_openCount (closeCreateForm s)
  unfold handleOpenEditEvent
  rw [c1] at r1
  rw [c2] at r2
  exact ⟨r1, r2, r3⟩

theorem openEditors_le_one_of (s : AppPresenter)
    (h1 : openCount s.tripEventPresenters ≤ 1) (h2 : s.addTripEventPresenter = none) :
    openEditors s ≤ 1 := by
  rw [openEditors_eq, h2]
  simpa using h1

theorem openEdit_openEditors (s : AppPresenter) (id : Option Nat) (h : openEditors s ≤ 1) :
    openEditors (AppPresenter.openEdit s id).state ≤ 1 := by
  unfold AppPresenter.openEdit
  cases hg : mapGet s.tripEventPresenters id with
  | none => exact h
  | some p0 =>
    dsimp only
    obtain ⟨e1, e2, e3⟩ := handleOpenEditEvent_openCount s
    have hle : openCount s.tripEventPresenters ≤ 1 := by
      rw [openEditors_eq] at h
      omega
    cases ho : handleOpenEditEvent s with
    | threw s1 =>
      rw [ho] at e1 e2
      exact openEditors_le_one_of _ (le_trans e1 hle) e2
    | done s1 =>
      rw [ho] at e1 e2
      simp only [Outcome.state] at e1 e2
      have hz := e3 s1 ho
      have hz1 : openCount s1.tripEventPresenters ≤ 1 := by omega
      simp only [Outcome.andThen]
      cases hg1 : mapGet s1.tripEventPresenters id with
      | none => exact openEditors_le_one_of s1 hz1 e2
      | some p =>
        dsimp only
        cases he : p.editTripEventComponent with
        | none => exact openEditors_le_one_of s1 hz1 e2
        | some f =>
          cases hd : p.tripEventComponent with
          | none => exact openEditors_le_one_of s1 hz1 e2
          | some d =>
            dsimp only
            cases hr : replace f.view d s1.listChildren with
            | none => exact openEditors_le_one_of s1 hz1 e2
            | some ch' =>
              exact openEditors_le_one_of _ (openCount_mapSet_le_one _ _ _ hz) e2

theorem initPresenter_openEditors (s : AppPresenter) (id : Option Nat) (e : TripEvent) :
    openEditors (initPresenter s id e).state = openEditors s := by
  have h1 := initPresenter_siblings s id e
  have h2 := initPresenter_fields s id e
  rw [openEditors_eq, openEditors_eq, openCount_eq_of_map h1.2.2.1, h2.2.2]

theorem handleTripEventChange_openEditors (U : Utils) (s : AppPresenter) (u : TripEvent) :
    openEditors (handleTripEventChange U s u).state = openEditors s := by
  have h := handleTripEventChange_siblings U s u
  rw [openEditors_eq, openEditors_eq, openCount_eq_of_map h.1.2.2.1, h.2.2]

theorem foldl_create_openCount (es : List TripEvent) (s : AppPresenter) :
    openCount (es.foldl createTripEventPresenter s).tripEventPresenters ≤
      openCount s.tripEventPresenters := by
  induction es generalizing s with
  | nil => exact le_refl _
  | cons e es ih =>
    rw [List.foldl_cons]
    refine le_trans (ih _) ?_
    rw [create_presenter]
    exact openCount_mapSet_le _ _ _ (fun hh => by simp at hh)

theorem renderTripEventsList_openEditors (U : Utils) (s : AppPresenter) :
    openCount (renderTripEventsList U s).tripEventPresenters ≤
      openCount s.tripEventPresenters ∧
    (renderTripEventsList U s).addTripEventPresenter = s.addTripEventPresenter := by
  obtain ⟨s2, es, hr, h1, _, _, h4, _⟩ := renderTripEventsList_shape U s
  refine ⟨?_, (modelFields_destroyed (renderTripEventsList_modelFields U s)).2.1⟩
  rw [hr, ← h1]
  exact foldl_create_openCount es s2

theorem handleModelEvent_openEditors (U : Utils) (s : AppPresenter) (ut : UpdateType)
    (d : Payload) :
    openEditors (handleModelEvent U s ut d).state ≤ openEditors s ∧
    ((ut = .MINOR ∨ ut = .MAJOR) →
      openCount (handleModelEvent U s ut d).state.tripEventPresenters = 0) ∧
    ((ut = .MINOR ∨ ut = .MAJOR) → ∃ s', handleModelEvent U s ut d = .done s') ∧
    ((ut = .MINOR ∨ ut = .MAJOR) →
      (handleModelEvent U s ut d).state.addTripEventPresenter = s.addTripEventPresenter) := by
  have hclear : ∀ s : AppPresenter,
      openCount (renderTripEventsList U (clearTripEventsList s)).tripEventPresenters = 0 ∧
      (renderTripEventsList U (clearTripEventsList s)).addTripEventPresenter =
        s.addTripEventPresenter := by
    intro s
    obtain ⟨r1, r2⟩ := renderTripEventsList_openEditors U (clearTripEventsList s)
    have : openCount (clearTripEventsList s).tripEventPresenters = 0 := rfl
    exact ⟨by omega, r2⟩
  cases ut with
  | PATCH =>
    refine ⟨?_, by simp, by simp, by simp⟩
    cases d with
    | tripEvent e => exact le_of_eq (initPresenter_openEditors s e.id e)
    | className n => exact le_refl _
    | other => exact le_refl _
  | MINOR =>
    obtain ⟨c1, c2⟩ := hclear s
    refine ⟨?_, fun _ => c1, fun _ => ⟨_, rfl⟩, fun _ => c2⟩
    show openEditors (renderTripEventsList U (clearTripEventsList s)) ≤ openEditors s
    rw [openEditors_eq, openEditors_eq, c1, c2]
    omega
  | MAJOR =>
    obtain ⟨c1, c2⟩ := hclear s
    refine ⟨?_, fun _ => c1, fun _ => ⟨_, rfl⟩, fun _ => c2⟩
    show openEditors (renderTripEventsList U (clearTripEventsList s)) ≤ openEditors s
    rw [openEditors_eq, openEditors_eq, c1, c2]
    omega
  | INIT =>
    refine ⟨?_, by simp, by simp, by simp⟩
    rw [handleModelEvent_init_state]
    obtain ⟨r1, r2⟩ := renderTripEventsList_openEditors U
      { updateLoadingStatus s d with
        isLoading := (updateLoadingStatus s d).isLoadingTripEvents ||
          (updateLoadingStatus s d).isLoadingDestinations ||
          (updateLoadingStatus s d).isLoadingOffers }
    have e1 : (updateLoadingStatus s d).tripEventPresenters = s.tripEventPresenters :=
      (updateLoadingStatus_rest s d).1
    have e2 : (updateLoadingStatus s d).addTripEventPresenter = s.addTripEventPresenter := by
      unfold updateLoadingStatus
      cases d with
      | className n =>
        dsimp only
        split
        · rfl
        · split
          · rfl
          · split <;> rfl
      | tripEvent e => rfl
      | other => rfl
    have hcreate := r2.trans e2
    have hcount := le_trans r1 (le_of_eq (congrArg openCount e1))
    rw [openEditors_eq, openEditors_eq, hcreate]
    omega

theorem handlerClickCreateEventButton_openEditors (U : Utils) (s : AppPresenter) :
    openEditors (handlerClickCreateEventButton U s).state ≤ 1 := by
  unfold handlerClickCreateEventButton
  obtain ⟨_, a2, a3, _⟩ := handleModelEvent_openEditors U
    { s with filter := .EVERYTHING
             requests := s.requests ++ [Request.setFilter .MAJOR .EVERYTHING] } .MAJOR .other
  obtain ⟨s1, hs1⟩ := a3 (Or.inr rfl)
  have hf : setFilter U s .MAJOR .EVERYTHING = .done s1 := hs1
  rw [hf]
  simp only [Outcome.andThen]
  obtain ⟨_, b2, b3, _⟩ := handleModelEvent_openEditors U
    { s1 with sort := .DAY
              requests := s1.requests ++ [Request.setSort .MINOR .DAY] } .MINOR .other
  obtain ⟨s2, hs2⟩ := b3 (Or.inl rfl)
  have hz2 := b2 (Or.inl rfl)
  have hso : setSort U s1 .MINOR .DAY = .done s2 := hs2
  rw [hs2] at hz2
  simp only [Outcome.state] at hz2
  rw [hso]
  simp only [Outcome.andThen]
  obtain ⟨r1, r2, r3⟩ := resetAll_openCount s2
  cases hr : resetAll s2 with
  | threw s3 =>
    rw [hr] at r1
    simp only [Outcome.state] at r1 ⊢
    rw [openEditors_eq]
    have : openCount s3.tripEventPresenters = 0 := by omega
    rw [this]
    split <;> omega
  | done s3 =>
    have hz3 := r3 s3 hr
    simp only [Outcome.state]
    rw [openEditors_eq]
    dsimp only
    rw [hz3]
    simp

theorem escKeyDown_openEditors (s : AppPresenter) (id : Option Nat) (key : String) :
    openEditors (AppPresenter.escKeyDown s id key).state ≤ openEditors s := by
  unfold AppPresenter.escKeyDown
  split
  · have hr := reset_openEditors s id
    cases h : AppPresenter.reset s id with
    | threw s1 =>
      rw [h] at hr
      exact hr
    | done s1 =>
      rw [h] at hr
      simp only [Outcome.state] at hr
      simp only [Outcome.andThen]
      cases hg : mapGet s1.tripEventPresenters id with
      | none => exact hr
      | some p =>
        refine le_trans ?_ hr
        simp only [Outcome.state, openEditors_eq]
        have := openCount_mapSet_le s1.tripEventPresenters id
          { p with escKeyDownBound := false } (fun hh => ⟨p, hg, hh⟩)
        omega
  · exact le_refl _

theorem onSubmit_openEditors (U : Utils) (s : AppPresenter) (id : Option Nat) (e : TripEvent) :
    openEditors (AppPresenter.onSubmit U s id e).state ≤ openEditors s := by
  unfold AppPresenter.onSubmit
  cases hg : mapGet s.tripEventPresenters id with
  | none => exact le_refl _
  | some p =>
    dsimp only
    have h1 := handleTripEventChange_openEditors U s e
    cases h : handleTripEventChange U s e with
    | threw s1 =>
      rw [h] at h1
      exact le_of_eq h1
    | done s1 =>
      rw [h] at h1
      simp only [Outcome.state] at h1
      simp only [Outcome.andThen]
      exact le_trans (closeEdit_openEditors s1 id) (le_of_eq h1)

theorem submit_openEditors (U : Utils) (s : AppPresenter) (id : Option Nat) :
    openEditors (AppPresenter.submit U s id).state ≤ openEditors s := by
  unfold AppPresenter.submit
  cases hg : mapGet s.tripEventPresenters id with
  | none => exact le_refl _
  | some p =>
    dsimp only
    cases p.editTripEventComponent with
    | none => exact le_refl _
    | some f => exact onSubmit_openEditors U s id _

theorem toggleFavoriteState_openEditors (U : Utils) (s : AppPresenter) (id : Option Nat) :
    openEditors (AppPresenter.toggleFavoriteState U s id).state = openEditors s := by
  unfold AppPresenter.toggleFavoriteState
  cases hg : mapGet s.tripEventPresenters id with
  | none => rfl
  | some p =>
    dsimp only
    cases p.tripEvent with
    | none => rfl
    | some t => exact handleTripEventChange_openEditors U s _

/-- No operation takes a state with at most one open editor to a state with two. -/
theorem perform_openEditors (U : Utils) (s : AppPresenter) (op : Operation)
    (h : openEditors s ≤ 1) : openEditors (perform U s op).state ≤ 1 := by
  cases op with
  | openEdit id => exact openEdit_openEditors s id h
  | closeEdit id => exact le_trans (closeEdit_openEditors s id) h
  | submit id => exact le_trans (submit_openEditors U s id) h
  | reset id => exact le_trans (reset_openEditors s id) h
  | escKeyDown id key => exact le_trans (escKeyDown_openEditors s id key) h
  | toggleFavorite id => exact le_trans (le_of_eq (toggleFavoriteState_openEditors U s id)) h
  | handleOpenEditEvent =>
    obtain ⟨e1, e2, _⟩ := handleOpenEditEvent_openCount s
    refine openEditors_le_one_of _ (le_trans e1 ?_) e2
    rw [openEditors_eq] at h
    omega
  | clickCreateEventButton => exact handlerClickCreateEventButton_openEditors U s
  | closeCreateTripEventForm =>
    show openEditors (handlerCloseCreateTripEventForm s) ≤ 1
    refine openEditors_le_one_of _ ?_ rfl
    show openCount s.tripEventPresenters ≤ 1
    rw [openEditors_eq] at h
    omega
  | modelEvent ut d => exact le_trans (handleModelEvent_openEditors U s ut d).1 h

theorem run_openEditors (U : Utils) (ops : List Operation) (s : AppPresenter)
    (h : openEditors s ≤ 1) : openEditors (run U s ops) ≤ 1 := by
  induction ops generalizing s with
  | nil => exact h
  | cons op ops ih => exact ih _ (perform_openEditors U s op h)

/-! ## Well-formed states -/

theorem allViews_cons (kp : Option Nat × TripEventPresenter)
    (r : List (Option Nat × TripEventPresenter)) :
    allViews (kp :: r) = kp.2.views ++ allViews r := by
  simp [allViews]

theorem mem_allViews {r : List (Option Nat × TripEventPresenter)} {v : Nat} :
    v ∈ allViews r ↔ ∃ kp ∈ r, v ∈ kp.2.views := by
  simp [allViews, List.mem_flatMap]

theorem mapGet_mem {V : Type} {r : List (Option Nat × V)} {k : Option Nat} {p : V}
    (h : mapGet r k = some p) : (k, p) ∈ r := by
  induction r with
  | nil => simp [mapGet] at h
  | cons x rest ih =>
    obtain ⟨k', v'⟩ := x
    by_cases hk : k' = k
    · simp only [mapGet, hk, if_true, Option.some.injEq] at h
      subst hk; subst h
      exact List.mem_cons_self _ _
    · simp only [mapGet, hk, if_false] at h
      exact List.mem_cons_of_mem _ (ih h)

theorem mapSet_self {V : Type} {r : List (Option Nat × V)} {k : Option Nat} {p : V}
    (h : mapGet r k = some p) : mapSet r k p = r := by
  induction r with
  | nil => simp [mapGet] at h
  | cons x rest ih =>
    obtain ⟨k', v'⟩ := x
    by_cases hk : k' = k
    · simp only [mapGet, hk, if_true, Option.some.injEq] at h
      subst hk; subst h
      simp [mapSet]
    · simp only [mapGet, hk, if_false] at h
      simp [mapSet, hk, ih h]

theorem mapGet_isSome_of_keys {V W : Type} {r : List (Option Nat × V)}
    {r' : List (Option Nat × W)} (h : r'.map Prod.fst = r.map Prod.fst) (k : Option Nat) :
    (mapGet r' k).isSome = (mapGet r k).isSome := by
  induction r generalizing r' with
  | nil =>
    simp only [List.map_nil, List.map_eq_nil_iff] at h
    subst h
    rfl
  | cons x rest ih =>
    cases r' with
    | nil => simp at h
    | cons y rest' =>
      obtain ⟨k1, v1⟩ := x
      obtain ⟨k2, v2⟩ := y
      simp only [List.map_cons, List.cons.injEq] at h
      obtain ⟨hk, ht⟩ := h
      subst hk
      by_cases hkk : k2 = k
      · simp [mapGet, hkk]
      · simp [mapGet, hkk, ih ht]

theorem mem_allViews_mapSet {r : List (Option Nat × TripEventPresenter)} {k : Option Nat}
    {p' : TripEventPresenter} {v : Nat} (h : v ∈ allViews (mapSet r k p')) :
    v ∈ allViews r ∨ v ∈ p'.views := by
  rw [mem_allViews] at h
  obtain ⟨kp, hkp, hv⟩ := h
  rcases mem_mapSet hkp with h1 | h1
  · exact Or.inl (mem_allViews.2 ⟨kp, h1, hv⟩)
  · subst h1
    exact Or.inr hv

/-- An entry of the map after `set` is the entry just written, or an entry that
was there before and shares no view with the presenter that was replaced. -/
theorem mem_mapSet_of_nodup {r : List (Option Nat × TripEventPresenter)} {k : Option Nat}
    {p' : TripEventPresenter} {kp : Option Nat × TripEventPresenter}
    (hn : (allViews r).Nodup) (h : kp ∈ mapSet r k p') :
    kp = (k, p') ∨
      (kp ∈ r ∧ ∀ p, mapGet r k = some p → ∀ v ∈ kp.2.views, v ∉ p.views) := by
  induction r with
  | nil =>
    simp only [mapSet, List.mem_singleton] at h
    exact Or.inl h
  | cons x rest ih =>
    obtain ⟨k', q⟩ := x
    rw [allViews_cons, List.nodup_append] at hn
    obtain ⟨hq, hrest, hdisj⟩ := hn
    by_cases hk : k' = k
    · simp only [mapSet, hk, if_true, List.mem_cons] at h
      rcases h with h | h
      · exact Or.inl h
      · refine Or.inr ⟨List.mem_cons_of_mem _ h, ?_⟩
        intro p hp v hv hvp
        simp only [mapGet, hk, if_true, Option.some.injEq] at hp
        subst hp
        exact hdisj hvp (mem_allViews.2 ⟨kp, h, hv⟩)
    · simp only [mapSet, hk, if_false, List.mem_cons] at h
      rcases h with h | h
      · subst h
        refine Or.inr ⟨List.mem_cons_self _ _, ?_⟩
        intro p hp v hv hvp
        simp only [mapGet, hk, if_false] at hp
        exact hdisj hv (mem_allViews.2 ⟨(k, p), mapGet_mem hp, hvp⟩)
      · rcases ih hrest h with h1 | ⟨h1, h2⟩
        · exact Or.inl h1
        · refine Or.inr ⟨List.mem_cons_of_mem _ h1, ?_⟩
          intro p hp
          simp only [mapGet, hk, if_false] at hp
          exact h2 p hp

theorem nodup_allViews_mapSet {r : List (Option Nat × TripEventPresenter)} {k : Option Nat}
    {p' : TripEventPresenter} (hn : (allViews r).Nodup) (hp' : p'.views.Nodup)
    (hv : ∀ v ∈ p'.views, v ∈ allViews r → ∃ p, mapGet r k = some p ∧ v ∈ p.views) :
    (allViews (mapSet r k p')).Nodup := by
  induction r with
  | nil =>
    simp only [mapSet, allViews_cons]
    simpa [allViews] using hp'
  | cons x rest ih =>
    obtain ⟨k', q⟩ := x
    have hn' := hn
    rw [allViews_cons, List.nodup_append] at hn'
    obtain ⟨hq, hrest, hdisj⟩ := hn'
    by_cases hk : k' = k
    · simp only [mapSet, hk, if_true, allViews_cons]
      rw [List.nodup_append]
      refine ⟨hp', hrest, ?_⟩
      intro v hv1 hv2
      obtain ⟨p, hp, hvp⟩ := hv v hv1 (by
        rw [allViews_cons]; exact List.mem_append_right _ hv2)
      simp only [mapGet, hk, if_true, Option.some.injEq] at hp
      subst hp
      exact hdisj hvp hv2
    · simp only [mapSet, hk, if_false, allViews_cons]
      rw [List.nodup_append]
      have hrec : ∀ v ∈ p'.views, v ∈ allViews rest →
          ∃ p, mapGet rest k = some p ∧ v ∈ p.views := by
        intro v hv1 hv2
        obtain ⟨p, hp, hvp⟩ := hv v hv1 (by
          rw [allViews_cons]; exact List.mem_append_right _ hv2)
        simp only [mapGet, hk, if_false] at hp
        exact ⟨p, hp, hvp⟩
      refine ⟨hq, ih hrest hrec, ?_⟩
      intro v hv1 hv2
      rcases mem_allViews_mapSet hv2 with h | h
      · exact hdisj hv1 h
      · obtain ⟨p, hp, hvp⟩ := hv v h (by
          rw [allViews_cons]; exact List.mem_append_left _ hv1)
        simp only [mapGet, hk, if_false] at hp
        exact hdisj hv1 (mem_allViews.2 ⟨(k, p), mapGet_mem hp, hvp⟩)

theorem visible_mem_views {p : TripEventPresenter} {v : Nat} (h : p.visible = some v) :
    v ∈ p.views := by
  unfold TripEventPresenter.visible at h
  unfold TripEventPresenter.views
  split at h
  · cases hf : p.editTripEventComponent with
    | none => simp [hf] at h
    | some f =>
      simp only [hf, Option.map_some', Option.some.injEq] at h
      simp [h]
  · simp [h]

/-- Writing `p'` under `id` and replacing the children by `ch'` keeps the state
well formed when `p'` is initialised, its views are distinct and are views of the
presenter it replaces or newer than the counter, the view it shows is in `ch'`,
and `ch'` keeps every older mounted view that is not a view of the presenter
replaced. -/
theorem WellFormed.set {s : AppPresenter} (hw : WellFormed s) (id : Option Nat)
    (p' : TripEventPresenter) (ch' : List Nat) (n' : Nat) (hn : s.nextView ≤ n')
    (hi : p'.tripEvent.isSome = true ∧ p'.tripEventComponent.isSome = true ∧
      p'.editTripEventComponent.isSome = true)
    (hnd : p'.views.Nodup)
    (hlt : ∀ v ∈ p'.views, v < n')
    (hown : ∀ v ∈ p'.views, (∃ p, mapGet s.tripEventPresenters id = some p ∧ v ∈ p.views) ∨
      s.nextView ≤ v)
    (hvis : ∀ v, p'.visible = some v → v ∈ ch')
    (hkeep : ∀ v ∈ s.listChildren, v < s.nextView →
      (∀ p, mapGet s.tripEventPresenters id = some p → v ∉ p.views) → v ∈ ch') :
    WellFormed { s with tripEventPresenters := mapSet s.tripEventPresenters id p'
                        listChildren := ch'
                        nextView := n' } := by
  constructor
  · intro kp hkp
    rcases mem_mapSet hkp with h | h
    · exact hw.initialised kp h
    · subst h; exact hi
  · intro v hv
    rcases mem_allViews_mapSet hv with h | h
    · exact lt_of_lt_of_le (hw.allocated v h) hn
    · exact hlt v h
  · apply nodup_allViews_mapSet hw.distinct hnd
    intro v hv1 hv2
    rcases hown v hv1 with h | h
    · exact h
    · exact absurd (hw.allocated v hv2) (by omega)
  · intro kp hkp v hv
    rcases mem_mapSet_of_nodup hw.distinct hkp with h | ⟨h1, h2⟩
    · subst h; exact hvis v hv
    · have hvv := visible_mem_views hv
      apply hkeep v (hw.shown kp h1 v hv) (hw.allocated v (mem_allViews.2 ⟨kp, h1, hvv⟩))
      intro p hp
      exact h2 p hp v hvv
  · intro v hv
    obtain ⟨c1, c2⟩ := hw.createForm v hv
    refine ⟨lt_of_lt_of_le c1 hn, ?_⟩
    intro hmem
    rcases mem_allViews_mapSet hmem with h | h
    · exact c2 h
    · rcases hown v h with ⟨p, hp, hvp⟩ | h'
      · exact c2 (mem_allViews.2 ⟨(id, p), mapGet_mem hp, hvp⟩)
      · omega

/-- Well-formedness reads the map, the mounted views, the counter and the create
form only, and survives a growth of the counter. -/
theorem WellFormed.mono {s s' : AppPresenter} (hw : WellFormed s)
    (h1 : s'.tripEventPresenters = s.tripEventPresenters)
    (h2 : s'.listChildren = s.listChildren)
    (h3 : s'.addTripEventPresenter = s.addTripEventPresenter)
    (h4 : s.nextView ≤ s'.nextView) : WellFormed s' := by
  constructor
  · rw [h1]; exact hw.initialised
  · rw [h1]; intro v hv; exact lt_of_lt_of_le (hw.allocated v hv) h4
  · rw [h1]; exact hw.distinct
  · rw [h1, h2]; exact hw.shown
  · rw [h1, h3]; intro v hv
    exact ⟨lt_of_lt_of_le (hw.createForm v hv).1 h4, (hw.createForm v hv).2⟩

theorem wellFormed_initial (tripEvents : List TripEvent) (filter : FilterType)
    (sort : SortType) : WellFormed (initial tripEvents filter sort) := by
  constructor <;> simp [initial, allViews]

/-! ### The methods of one presenter on a well-formed state -/

theorem mem_replace_new {new old : Nat} {ch ch' : List Nat}
    (h : replace new old ch = some ch') : new ∈ ch' := by
  unfold replace at h
  by_cases ho : old ∈ ch
  · by_cases hn : new = old
    · simp only [ho, hn, if_true, Option.some.injEq] at h
      subst h; subst hn
      exact ho
    · simp only [ho, hn, if_true, if_false, Option.some.injEq] at h
      subst h
      rw [List.mem_map]
      exact ⟨old, mem_remove.2 ⟨ho, fun hc => hn hc.symm⟩, by simp⟩
  · simp [ho] at h

theorem replace_of_mem (new old : Nat) (ch : List Nat) (h : old ∈ ch) :
    ∃ ch', replace new old ch = some ch' := by
  unfold replace
  rw [if_pos h]
  split <;> exact ⟨_, rfl⟩

/-- The fields of a registered presenter of a well-formed state. -/
theorem WellFormed.entry {s : AppPresenter} (hw : WellFormed s)
    {kp : Option Nat × TripEventPresenter} (h : kp ∈ s.tripEventPresenters) :
    ∃ d f t, kp.2.tripEventComponent = some d ∧ kp.2.editTripEventComponent = some f ∧
      kp.2.tripEvent = some t ∧ kp.2.views = [d, f.view] ∧ d ≠ f.view ∧
      d < s.nextView ∧ f.view < s.nextView ∧
      (kp.2.isOpenEdit = true → f.view ∈ s.listChildren) ∧
      (kp.2.isOpenEdit = false → d ∈ s.listChildren) := by
  obtain ⟨i1, i2, i3⟩ := hw.initialised kp h
  obtain ⟨k, p⟩ := kp
  cases hd : p.tripEventComponent with
  | none => simp [hd] at i2
  | some d =>
    cases hf : p.editTripEventComponent with
    | none => simp [hf] at i3
    | some f =>
      cases ht : p.tripEvent with
      | none => simp [ht] at i1
      | some t =>
        have hviews : p.views = [d, f.view] := by
          simp [TripEventPresenter.views, hd, hf]
        have hsub : ∀ v ∈ p.views, v ∈ allViews s.tripEventPresenters :=
          fun v hv => mem_allViews.2 ⟨(k, p), h, hv⟩
        have hnd : p.views.Nodup := by
          have := hw.distinct
          have hsl : List.Sublist p.views (allViews s.tripEventPresenters) := by
            clear hsub
            revert h
            generalize s.tripEventPresenters = r
            intro h
            induction r with
            | nil => simp at h
            | cons x rest ih =>
              rw [allViews_cons]
              rcases List.mem_cons.1 h with h1 | h1
              · rw [← h1]
                exact List.sublist_append_left _ _
              · exact (ih h1).trans (List.sublist_append_right _ _)
          exact this.sublist hsl
        rw [hviews] at hnd hsub
        refine ⟨d, f, t, rfl, rfl, rfl, hviews, ?_, ?_, ?_, ?_, ?_⟩
        · simpa using hnd
        · exact hw.allocated d (hsub d (by simp))
        · exact hw.allocated f.view (hsub f.view (by simp))
        · intro ho
          have ho' : p.isOpenEdit = true := ho
          apply hw.shown (k, p) h
          simp [TripEventPresenter.visible, ho', hf]
        · intro ho
          have ho' : p.isOpenEdit = false := ho
          apply hw.shown (k, p) h
          simp [TripEventPresenter.visible, ho', hd]

/-- `closeEdit` on a presenter holding the views `d` and `f`: it throws and
changes nothing, or it succeeds, the presenter is closed and `d` is mounted; in
both cases every mounted view other than `d` and `f` stays mounted. -/
theorem closeEdit_spec (p : TripEventPresenter) (ch : List Nat) (d : Nat) (f : EditForm)
    (hd : p.tripEventComponent = some d) (hf : p.editTripEventComponent = some f) :
    ((p.closeEdit ch) = { presenter := p, listChildren := ch, threw := true } ∧
      f.view ∉ ch) ∨
    ((p.closeEdit ch).presenter = { p with isOpenEdit := false, escKeyDownBound := false } ∧
      (p.closeEdit ch).threw = false ∧ d ∈ (p.closeEdit ch).listChildren ∧
      f.view ∈ ch ∧
      ∀ v ∈ ch, v ≠ d → v ≠ f.view → v ∈ (p.closeEdit ch).listChildren) := by
  unfold TripEventPresenter.closeEdit
  rw [hd, hf]
  dsimp only
  cases hr : replace d f.view ch with
  | none =>
    left
    refine ⟨rfl, ?_⟩
    intro hmem
    obtain ⟨ch', hch'⟩ := replace_of_mem d f.view ch hmem
    rw [hr] at hch'
    cases hch'
  | some ch' =>
    right
    refine ⟨rfl, rfl, mem_replace_new hr, ?_, fun v hv h1 h2 => mem_replace_of_mem hr hv h1 h2⟩
    by_contra hmem
    unfold replace at hr
    simp [hmem] at hr

theorem views_of_components {p : TripEventPresenter} {d : Nat} {f : EditForm}
    (hd : p.tripEventComponent = some d) (hf : p.editTripEventComponent = some f) :
    p.views = [d, f.view] := by
  simp [TripEventPresenter.views, hd, hf]

/-- `reset` on an initialised presenter that shows a mounted view: it does not
throw, the presenter is closed afterwards with the same views, its display view
is mounted, and every mounted view that is not one of its views stays mounted. -/
theorem reset_spec (p : TripEventPresenter) (ch : List Nat) (d : Nat) (f : EditForm)
    (t : TripEvent)
    (hd : p.tripEventComponent = some d) (hf : p.editTripEventComponent = some f)
    (ht : p.tripEvent = some t)
    (ho : p.isOpenEdit = true → f.view ∈ ch) (hc : p.isOpenEdit = false → d ∈ ch) :
    (p.reset ch).threw = false ∧
    (p.reset ch).presenter.isOpenEdit = false ∧
    (p.reset ch).presenter.views = [d, f.view] ∧
    (p.reset ch).presenter.tripEventComponent = some d ∧
    (p.reset ch).presenter.tripEvent = some t ∧
    (p.reset ch).presenter.editTripEventComponent.isSome = true ∧
    (p.reset ch).presenter.pid = p.pid ∧
    d ∈ (p.reset ch).listChildren ∧
    (∀ v ∈ ch, v ≠ d → v ≠ f.view → v ∈ (p.reset ch).listChildren) := by
  unfold TripEventPresenter.reset
  by_cases hop : p.isOpenEdit = true
  · rw [if_pos hop, hf, ht]
    dsimp only
    rcases closeEdit_spec
        ⟨p.pid, some t, p.tripEventComponent,
          some ⟨f.view, EditFormView.parseTripEventToState t⟩, p.isOpenEdit, p.escKeyDownBound⟩
        ch d ⟨f.view, EditFormView.parseTripEventToState t⟩ hd rfl with ⟨_, h2⟩ | h
    · exact absurd (ho hop) h2
    · obtain ⟨h1, h2, h3, _, h5⟩ := h
      refine ⟨h2, ?_, ?_, ?_, ?_, ?_, ?_, h3, h5⟩
      · rw [h1]
      · rw [h1]; simp [TripEventPresenter.views, hd]
      · rw [h1]; exact hd
      · rw [h1]
      · rw [h1]; rfl
      · rw [h1]
  · rw [if_neg hop]
    simp only [Bool.not_eq_true] at hop
    refine ⟨rfl, hop, views_of_components hd hf, hd, ht, by simp [hf], rfl, hc hop,
      fun v hv _ _ => hv⟩

/-! ### Well-formedness is kept by the handlers -/

/-- Writing back the result of a presenter method that kept the views of the
presenter, shows a mounted view, and kept every other mounted view. -/
theorem store_wellFormed {s : AppPresenter} (hw : WellFormed s) (id : Option Nat)
    (p : TripEventPresenter) (r : PresenterResult)
    (hg : mapGet s.tripEventPresenters id = some p)
    (hi : r.presenter.tripEvent.isSome = true ∧ r.presenter.tripEventComponent.isSome = true ∧
      r.presenter.editTripEventComponent.isSome = true)
    (hviews : r.presenter.views = p.views)
    (hvis : ∀ v, r.presenter.visible = some v → v ∈ r.listChildren)
    (hkeep : ∀ v ∈ s.listChildren, v ∉ p.views → v ∈ r.listChildren) :
    WellFormed (store s id r).state := by
  have hmem := mapGet_mem hg
  obtain ⟨d, f, t, _, _, _, e4, e5, e6, e7, _, _⟩ := hw.entry hmem
  have hst : (store s id r).state =
      { s with tripEventPresenters := mapSet s.tripEventPresenters id r.presenter
               listChildren := r.listChildren
               nextView := s.nextView } := by
    unfold store
    dsimp only
    split <;> rfl
  rw [hst]
  apply WellFormed.set hw id r.presenter r.listChildren s.nextView (le_refl _) hi
  · rw [hviews, e4]
    simpa using e5
  · intro v hv
    rw [hviews, e4] at hv
    simp only [List.mem_cons, List.mem_singleton, List.not_mem_nil, or_false] at hv
    rcases hv with h | h <;> omega
  · intro v hv
    rw [hviews] at hv
    exact Or.inl ⟨p, hg, hv⟩
  · exact hvis
  · intro v hv _ hnot
    exact hkeep v hv (hnot p hg)

theorem closeEdit_wellFormed {s : AppPresenter} (hw : WellFormed s) (id : Option Nat) :
    WellFormed (AppPresenter.closeEdit s id).state := by
  unfold AppPresenter.closeEdit
  cases hg : mapGet s.tripEventPresenters id with
  | none => exact hw
  | some p =>
    have hmem := mapGet_mem hg
    obtain ⟨d, f, t, e1, e2, e3, e4, e5, e6, e7, e8, e9⟩ := hw.entry hmem
    dsimp only at e1 e2 e3 e4 e8 e9 ⊢
    rcases closeEdit_spec p s.listChildren d f e1 e2 with ⟨h1, _⟩ | ⟨h1, h2, h3, h4, h5⟩
    · rw [h1]
      refine store_wellFormed hw id p _ hg ?_ rfl ?_ (fun v hv _ => hv)
      · simp [e1, e2, e3]
      · intro v hv
        exact hw.shown _ hmem v hv
    · refine store_wellFormed hw id p _ hg ?_ ?_ ?_ ?_
      · rw [h1]; simp [e1, e2, e3]
      · rw [h1]; rfl
      · rw [h1]
        intro v hv
        simp only [TripEventPresenter.visible, Bool.false_eq_true, if_false, e1,
          Option.some.injEq] at hv
        exact hv ▸ h3
      · intro v hv hnot
        rw [e4] at hnot
        simp only [List.mem_cons, List.mem_singleton, List.not_mem_nil, or_false,
          not_or] at hnot
        exact h5 v hv hnot.1 hnot.2

theorem reset_wellFormed {s : AppPresenter} (hw : WellFormed s) (id : Option Nat) :
    WellFormed (AppPresenter.reset s id).state ∧
    ∃ s', AppPresenter.reset s id = .done s' := by
  unfold AppPresenter.reset
  cases hg : mapGet s.tripEventPresenters id with
  | none => exact ⟨hw, _, rfl⟩
  | some p =>
    have hmem := mapGet_mem hg
    obtain ⟨d, f, t, e1, e2, e3, e4, e5, e6, e7, e8, e9⟩ := hw.entry hmem
    dsimp only at e1 e2 e3 e4 e8 e9 ⊢
    obtain ⟨r1, r2, r3, r4, r5, r6, r7, r8, r9⟩ :=
      reset_spec p s.listChildren d f t e1 e2 e3 e8 e9
    constructor
    · refine store_wellFormed hw id p _ hg ?_ (r3.trans e4.symm) ?_ ?_
      · simp [r4, r5, r6]
      · intro v hv
        simp only [TripEventPresenter.visible, r2, Bool.false_eq_true, if_false, r4,
          Option.some.injEq] at hv
        exact hv ▸ r8
      · intro v hv hnot
        rw [e4] at hnot
        simp only [List.mem_cons, List.mem_singleton, List.not_mem_nil, or_false,
          not_or] at hnot
        exact r9 v hv hnot.1 hnot.2
    · unfold store
      dsimp only
      rw [r1]
      exact ⟨_, rfl⟩

/-- `init` on a presenter that holds the views `d` and `f`, older than the
counter, and shows a mounted one: it does not throw and the new view it shows is
mounted. -/
theorem init_spec (p : TripEventPresenter) (e : TripEvent) (ch : List Nat) (n d : Nat)
    (f : EditForm)
    (hd : p.tripEventComponent = some d) (hf : p.editTripEventComponent = some f)
    (ho : p.isOpenEdit = true → f.view ∈ ch) (hc : p.isOpenEdit = false → d ∈ ch)
    (hdn : d < n) (hfn : f.view < n) :
    (p.init e ch n).threw = false ∧
    (∀ v, (p.init e ch n).presenter.visible = some v → v ∈ (p.init e ch n).listChildren) := by
  have hp := init_presenter p e ch n
  constructor
  · unfold TripEventPresenter.init
    rw [hd, hf]
    dsimp only
    by_cases hop : p.isOpenEdit = true
    · rw [if_pos hop]
      obtain ⟨ch', hch'⟩ := replace_of_mem (n + 1) f.view ch (ho hop)
      rw [hch']
    · rw [if_neg hop]
      simp only [Bool.not_eq_true] at hop
      obtain ⟨ch', hch'⟩ := replace_of_mem n d ch (hc hop)
      rw [hch']
  · intro v hv
    rw [hp] at hv
    unfold TripEventPresenter.init
    rw [hd, hf]
    dsimp only
    by_cases hop : p.isOpenEdit = true
    · rw [if_pos hop]
      obtain ⟨ch', hch'⟩ := replace_of_mem (n + 1) f.view ch (ho hop)
      rw [hch']
      simp only [TripEventPresenter.visible, hop, if_true, Option.map_some',
        Option.some.injEq] at hv
      subst hv
      dsimp only
      rw [mem_remove, mem_remove]
      exact ⟨⟨mem_replace_new hch', by omega⟩, by omega⟩
    · rw [if_neg hop]
      have hop' : p.isOpenEdit = false := by simpa using hop
      obtain ⟨ch', hch'⟩ := replace_of_mem n d ch (hc hop')
      rw [hch']
      simp only [TripEventPresenter.visible, hop', Bool.false_eq_true, if_false,
        Option.some.injEq] at hv
      subst hv
      dsimp only
      rw [mem_remove, mem_remove]
      exact ⟨⟨mem_replace_new hch', by omega⟩, by omega⟩

theorem initPresenter_wellFormed {s : AppPresenter} (hw : WellFormed s) (id : Option Nat)
    (e : TripEvent) :
    WellFormed (initPresenter s id e).state ∧
    ((mapGet s.tripEventPresenters id).isSome = true → ∃ s', initPresenter s id e = .done s') := by
  cases hg : mapGet s.tripEventPresenters id with
  | none =>
    rw [initPresenter_state_none s id e hg]
    exact ⟨hw, by simp⟩
  | some p =>
    have hmem := mapGet_mem hg
    obtain ⟨d, f, t, e1, e2, e3, e4, e5, e6, e7, e8, e9⟩ := hw.entry hmem
    dsimp only at e1 e2 e3 e4 e8 e9
    obtain ⟨i1, i2⟩ := init_spec p e s.listChildren s.nextView d f e1 e2 e8 e9 e6 e7
    have hp := init_presenter p e s.listChildren s.nextView
    constructor
    · rw [initPresenter_state s id e p hg]
      apply WellFormed.set hw id _ _ (s.nextView + 2) (by omega)
      · rw [hp]; simp
      · rw [hp]; simp [TripEventPresenter.views]
      · rw [hp]
        intro v hv
        simp only [TripEventPresenter.views, Option.toList_some, Option.map_some',
          List.singleton_append, List.mem_cons, List.mem_singleton, List.not_mem_nil,
          or_false] at hv
        rcases hv with h | h <;> omega
      · rw [hp]
        intro v hv
        simp only [TripEventPresenter.views, Option.toList_some, Option.map_some',
          List.singleton_append, List.mem_cons, List.mem_singleton, List.not_mem_nil,
          or_false] at hv
        right
        rcases hv with h | h <;> omega
      · exact i2
      · intro v hv hlt hnot
        have hn := hnot p hg
        rw [e4] at hn
        simp only [List.mem_cons, List.mem_singleton, List.not_mem_nil, or_false,
          not_or] at hn
        apply init_children p e s.listChildren s.nextView v hv (by omega) (by omega)
        · rw [e1]; intro hc; exact hn.1 (Option.some.inj hc)
        · rw [e2]; intro hc; exact hn.2 (Option.some.inj hc)
    · intro _
      unfold initPresenter
      rw [hg]
      dsimp only
      rw [i1]
      exact ⟨_, rfl⟩

/-- `forEach(reset)` over entries that are initialised, hold pairwise distinct
views and show mounted ones: no call throws, the keys, the views and the
identities are kept, every presenter is closed and shows its mounted display
view, and every mounted view that belongs to none of them stays mounted. -/
theorem resetEach_spec (r : List (Option Nat × TripEventPresenter)) (ch : List Nat)
    (hi : ∀ kp ∈ r, kp.2.tripEvent.isSome = true ∧ kp.2.tripEventComponent.isSome = true ∧
      kp.2.editTripEventComponent.isSome = true)
    (hn : (allViews r).Nodup)
    (hs : ∀ kp ∈ r, ∀ v, kp.2.visible = some v → v ∈ ch) :
    (resetEach r ch).2.2 = false ∧
    (resetEach r ch).1.map Prod.fst = r.map Prod.fst ∧
    allViews (resetEach r ch).1 = allViews r ∧
    (∀ kp ∈ (resetEach r ch).1, kp.2.isOpenEdit = false ∧
      kp.2.tripEvent.isSome = true ∧ kp.2.tripEventComponent.isSome = true ∧
      kp.2.editTripEventComponent.isSome = true ∧
      ∀ v, kp.2.visible = some v → v ∈ (resetEach r ch).2.1) ∧
    (∀ v ∈ ch, v ∉ allViews r → v ∈ (resetEach r ch).2.1) := by
  induction r generalizing ch with
  | nil =>
    refine ⟨rfl, rfl, rfl, ?_, fun v hv _ => hv⟩
    intro kp hkp
    simp [resetEach] at hkp
  | cons x rest ih =>
    obtain ⟨k, p⟩ := x
    obtain ⟨i1, i2, i3⟩ := hi (k, p) (List.mem_cons_self _ _)
    dsimp only at i1 i2 i3
    cases hd : p.tripEventComponent with
    | none => simp [hd] at i2
    | some d =>
    cases hf : p.editTripEventComponent with
    | none => simp [hf] at i3
    | some f =>
    cases ht : p.tripEvent with
    | none => simp [ht] at i1
    | some t =>
    have hviews : p.views = [d, f.view] := views_of_components hd hf
    rw [allViews_cons, List.nodup_append] at hn
    obtain ⟨hpn, hrn, hdisj⟩ := hn
    dsimp only at hpn hdisj
    rw [hviews] at hpn hdisj
    have ho : p.isOpenEdit = true → f.view ∈ ch := by
      intro hop
      apply hs (k, p) (List.mem_cons_self _ _)
      simp [TripEventPresenter.visible, hop, hf]
    have hc : p.isOpenEdit = false → d ∈ ch := by
      intro hop
      apply hs (k, p) (List.mem_cons_self _ _)
      simp [TripEventPresenter.visible, hop, hd]
    obtain ⟨r1, r2, r3, r4, r5, r6, r7, r8, r9⟩ := reset_spec p ch d f t hd hf ht ho hc
    have hrest : ∀ kp ∈ rest, ∀ v, kp.2.visible = some v → v ∈ (p.reset ch).listChildren := by
      intro kp hkp v hv
      have hvv : v ∈ allViews rest := mem_allViews.2 ⟨kp, hkp, visible_mem_views hv⟩
      apply r9 v (hs kp (List.mem_cons_of_mem _ hkp) v hv)
      · intro hc'
        exact hdisj (by simp [hc']) hvv
      · intro hc'
        exact hdisj (by simp [hc']) hvv
    obtain ⟨j1, j2, j3, j4, j5⟩ := ih (p.reset ch).listChildren
      (fun kp hkp => hi kp (List.mem_cons_of_mem _ hkp)) hrn hrest
    have hunf : resetEach ((k, p) :: rest) ch =
        ((k, (p.reset ch).presenter) :: (resetEach rest (p.reset ch).listChildren).1,
          (resetEach rest (p.reset ch).listChildren).2.1,
          (resetEach rest (p.reset ch).listChildren).2.2) := by
      rw [resetEach]
      dsimp only
      rw [r1]
      simp
    rw [hunf]
    dsimp only
    refine ⟨j1, ?_, ?_, ?_, ?_⟩
    · simp [j2]
    · rw [allViews_cons, allViews_cons, j3]
      dsimp only
      rw [r3, hviews]
    · intro kp hkp
      rcases List.mem_cons.1 hkp with h | h
      · subst h
        dsimp only
        refine ⟨r2, by simp [r5], by simp [r4], r6, ?_⟩
        intro v hv
        simp only [TripEventPresenter.visible, r2, Bool.false_eq_true, if_false, r4,
          Option.some.injEq] at hv
        subst hv
        apply j5 _ r8
        intro hmem
        exact hdisj (by simp) hmem
      · exact j4 kp h
    · intro v hv hnot
      rw [allViews_cons, List.mem_append, not_or] at hnot
      dsimp only at hnot
      rw [hviews] at hnot
      simp only [List.mem_cons, List.mem_singleton, List.not_mem_nil, or_false,
        not_or] at hnot
      exact j5 v (r9 v hv hnot.1.1 hnot.1.2) hnot.2

theorem resetAll_wellFormed {s : AppPresenter} (hw : WellFormed s) :
    ∃ s', resetAll s = .done s' ∧ WellFormed s' ∧
      s'.tripEventPresenters.map Prod.fst = s.tripEventPresenters.map Prod.fst ∧
      (∀ kp ∈ s'.tripEventPresenters, kp.2.isOpenEdit = false) ∧
      s'.addTripEventPresenter = s.addTripEventPresenter ∧
      s'.nextView = s.nextView := by
  obtain ⟨h1, h2, h3, h4, h5⟩ := resetEach_spec s.tripEventPresenters s.listChildren
    hw.initialised hw.distinct hw.shown
  unfold resetAll
  dsimp only
  rw [h1]
  refine ⟨_, rfl, ?_, h2, fun kp hkp => (h4 kp hkp).1, rfl, rfl⟩
  constructor
  · intro kp hkp
    exact ⟨(h4 kp hkp).2.1, (h4 kp hkp).2.2.1, (h4 kp hkp).2.2.2.1⟩
  · intro v hv
    dsimp only at hv ⊢
    rw [h3] at hv
    exact hw.allocated v hv
  · dsimp only
    rw [h3]
    exact hw.distinct
  · intro kp hkp v hv
    exact (h4 kp hkp).2.2.2.2 v hv
  · intro v hv
    dsimp only at hv ⊢
    rw [h3]
    exact hw.createForm v hv

theorem closeCreateForm_wellFormed {s : AppPresenter} (hw : WellFormed s) :
    WellFormed (closeCreateForm s) ∧ (closeCreateForm s).nextView = s.nextView := by
  unfold closeCreateForm
  cases hc : s.addTripEventPresenter with
  | none => exact ⟨hw, rfl⟩
  | some c =>
    dsimp only
    refine ⟨?_, rfl⟩
    obtain ⟨c1, c2⟩ := hw.createForm c hc
    constructor
    · exact hw.initialised
    · exact hw.allocated
    · exact hw.distinct
    · intro kp hkp v hv
      dsimp only
      rw [mem_remove]
      refine ⟨hw.shown kp hkp v hv, ?_⟩
      intro hvc
      subst hvc
      exact c2 (mem_allViews.2 ⟨kp, hkp, visible_mem_views hv⟩)
    · intro v hv
      simp at hv

theorem handleOpenEditEvent_wellFormed {s : AppPresenter} (hw : WellFormed s) :
    ∃ s', handleOpenEditEvent s = .done s' ∧ WellFormed s' ∧
      s'.tripEventPresenters.map Prod.fst = s.tripEventPresenters.map Prod.fst ∧
      (∀ kp ∈ s'.tripEventPresenters, kp.2.isOpenEdit = false) ∧
      s'.addTripEventPresenter = none ∧
      s'.nextView = s.nextView := by
  obtain ⟨c1, c2⟩ := closeCreateForm_wellFormed hw
  obtain ⟨s', h1, h2, h3, h4, h5, h6⟩ := resetAll_wellFormed c1
  obtain ⟨f1, f2⟩ := closeCreateForm_fields s
  refine ⟨s', h1, h2, ?_, h4, h5.trans f2, h6.trans c2⟩
  rw [h3, f1]

theorem createTripEventPresenter_wellFormed {s : AppPresenter} (hw : WellFormed s)
    (e : TripEvent) : WellFormed (createTripEventPresenter s e) := by
  rw [create_presenter]
  refine WellFormed.mono (s := { s with
      tripEventPresenters := mapSet s.tripEventPresenters e.id
        { pid := s.nextPresenter
          tripEvent := some e
          tripEventComponent := some s.nextView
          editTripEventComponent :=
            some { view := s.nextView + 1, state := EditFormView.parseTripEventToState e }
          isOpenEdit := false
          escKeyDownBound := false }
      listChildren := render s.nextView s.listChildren
      nextView := s.nextView + 2 }) ?_ rfl rfl rfl (le_refl _)
  apply WellFormed.set hw e.id _ _ (s.nextView + 2) (by omega)
  · simp
  · simp [TripEventPresenter.views]
  · intro v hv
    simp only [TripEventPresenter.views, Option.toList_some, Option.map_some',
      List.singleton_append, List.mem_cons, List.mem_singleton, List.not_mem_nil,
      or_false] at hv
    rcases hv with h | h <;> omega
  · intro v hv
    simp only [TripEventPresenter.views, Option.toList_some, Option.map_some',
      List.singleton_append, List.mem_cons, List.mem_singleton, List.not_mem_nil,
      or_false] at hv
    right
    rcases hv with h | h <;> omega
  · intro v hv
    simp only [TripEventPresenter.visible, Bool.false_eq_true, if_false,
      Option.some.injEq] at hv
    subst hv
    simp [render]
  · intro v hv hlt _
    simp only [render, List.mem_append, mem_remove, List.mem_singleton]
    exact Or.inl ⟨hv, by omega⟩

theorem foldl_create_wellFormed (es : List TripEvent) {s : AppPresenter}
    (hw : WellFormed s) : WellFormed (es.foldl createTripEventPresenter s) := by
  induction es generalizing s with
  | nil => exact hw
  | cons e es ih => exact ih (createTripEventPresenter_wellFormed hw e)

theorem renderTripEventsList_wellFormed (U : Utils) {s : AppPresenter} (hw : WellFormed s) :
    WellFormed (renderTripEventsList U s) := by
  obtain ⟨s2, es, hr, h1, h2, _, h4, h5⟩ := renderTripEventsList_shape U s
  rw [hr]
  exact foldl_create_wellFormed es (hw.mono h1 h2 h4 h5)

theorem clearTripEventsList_wellFormed {s : AppPresenter} (hw : WellFormed s) :
    WellFormed (clearTripEventsList s) := by
  constructor
  · intro kp hkp
    simp [clearTripEventsList] at hkp
  · intro v hv
    simp [clearTripEventsList, allViews] at hv
  · simp [clearTripEventsList, allViews]
  · intro kp hkp
    simp [clearTripEventsList] at hkp
  · intro v hv
    exact ⟨(hw.createForm v hv).1, by simp [clearTripEventsList, allViews]⟩

theorem updateLoadingStatus_create (s : AppPresenter) (d : Payload) :
    (updateLoadingStatus s d).addTripEventPresenter = s.addTripEventPresenter := by
  unfold updateLoadingStatus
  cases d with
  | className n =>
    dsimp only
    split
    · rfl
    · split
      · rfl
      · split <;> rfl
  | tripEvent e => rfl
  | other => rfl

theorem handleModelEvent_wellFormed (U : Utils) {s : AppPresenter} (hw : WellFormed s)
    (ut : UpdateType) (d : Payload) : WellFormed (handleModelEvent U s ut d).state := by
  cases ut with
  | PATCH =>
    cases d with
    | tripEvent e => exact (initPresenter_wellFormed hw e.id e).1
    | className n => exact hw
    | other => exact hw
  | MINOR => exact renderTripEventsList_wellFormed U (clearTripEventsList_wellFormed hw)
  | MAJOR => exact renderTripEventsList_wellFormed U (clearTripEventsList_wellFormed hw)
  | INIT =>
    rw [handleModelEvent_init_state]
    apply renderTripEventsList_wellFormed U
    obtain ⟨u1, _, u3, u4, _⟩ := updateLoadingStatus_rest s d
    exact hw.mono u1 u3 (updateLoadingStatus_create s d) (le_of_eq u4.symm)

theorem handleTripEventChange_wellFormed (U : Utils) {s : AppPresenter} (hw : WellFormed s)
    (u : TripEvent) : WellFormed (handleTripEventChange U s u).state := by
  unfold handleTripEventChange
  have h1 : WellFormed (updateTripEvent U s .PATCH u).state := by
    unfold updateTripEvent
    dsimp only
    apply handleModelEvent_wellFormed U
    exact hw.mono rfl rfl rfl (le_refl _)
  cases h : updateTripEvent U s .PATCH u with
  | threw s1 =>
    rw [h] at h1
    exact h1
  | done s1 =>
    rw [h] at h1
    exact (initPresenter_wellFormed h1 u.id u).1

theorem openEdit_wellFormed {s : AppPresenter} (hw : WellFormed s) (id : Option Nat) :
    WellFormed (AppPresenter.openEdit s id).state := by
  unfold AppPresenter.openEdit
  cases hg : mapGet s.tripEventPresenters id with
  | none => exact hw
  | some p0 =>
    dsimp only
    obtain ⟨s1, h1, h2, h3, h4, h5, h6⟩ := handleOpenEditEvent_wellFormed hw
    rw [h1]
    simp only [Outcome.andThen]
    cases hg1 : mapGet s1.tripEventPresenters id with
    | none => exact h2
    | some p =>
      have hmem := mapGet_mem hg1
      obtain ⟨d, f, t, e1, e2, e3, e4, e5, e6, e7, e8, e9⟩ := h2.entry hmem
      dsimp only at e1 e2 e3 e4 e8 e9 ⊢
      rw [e1, e2]
      dsimp only
      cases hr : replace f.view d s1.listChildren with
      | none => exact h2
      | some ch' =>
        apply WellFormed.set h2 id _ ch' s1.nextView (le_refl _)
        · simp [e1, e2, e3]
        · simpa [TripEventPresenter.views] using e5
        · intro v hv
          simp only [TripEventPresenter.views, Option.toList_some, Option.map_some',
            List.singleton_append, List.mem_cons, List.mem_singleton, List.not_mem_nil,
            or_false] at hv
          rcases hv with h | h <;> omega
        · intro v hv
          refine Or.inl ⟨p, hg1, ?_⟩
          rw [e4]
          simpa [TripEventPresenter.views] using hv
        · intro v hv
          simp only [TripEventPresenter.visible, if_true, e2, Option.map_some',
            Option.some.injEq] at hv
          exact hv ▸ mem_replace_new hr
        · intro v hv _ hnot
          have hn := hnot p hg1
          rw [e4] at hn
          simp only [List.mem_cons, List.mem_singleton, List.not_mem_nil, or_false,
            not_or] at hn
          exact mem_replace_of_mem hr hv hn.2 hn.1

theorem onSubmit_wellFormed (U : Utils) {s : AppPresenter} (hw : WellFormed s)
    (id : Option Nat) (e : TripEvent) : WellFormed (AppPresenter.onSubmit U s id e).state := by
  unfold AppPresenter.onSubmit
  cases hg : mapGet s.tripEventPresenters id with
  | none => exact hw
  | some p =>
    dsimp only
    have h1 := handleTripEventChange_wellFormed U hw e
    cases h : handleTripEventChange U s e with
    | threw s1 =>
      rw [h] at h1
      exact h1
    | done s1 =>
      rw [h] at h1
      exact closeEdit_wellFormed h1 id

theorem submit_wellFormed (U : Utils) {s : AppPresenter} (hw : WellFormed s)
    (id : Option Nat) : WellFormed (AppPresenter.submit U s id).state := by
  unfold AppPresenter.submit
  cases hg : mapGet s.tripEventPresenters id with
  | none => exact hw
  | some p =>
    dsimp only
    cases p.editTripEventComponent with
    | none => exact hw
    | some f => exact onSubmit_wellFormed U hw id _

theorem toggleFavoriteState_wellFormed (U : Utils) {s : AppPresenter} (hw : WellFormed s)
    (id : Option Nat) : WellFormed (AppPresenter.toggleFavoriteState U s id).state := by
  unfold AppPresenter.toggleFavoriteState
  cases hg : mapGet s.tripEventPresenters id with
  | none => exact hw
  | some p =>
    dsimp only
    cases p.tripEvent with
    | none => exact hw
    | some t => exact handleTripEventChange_wellFormed U hw _

theorem escKeyDown_wellFormed {s : AppPresenter} (hw : WellFormed s) (id : Option Nat)
    (key : String) : WellFormed (AppPresenter.escKeyDown s id key).state := by
  unfold AppPresenter.escKeyDown
  split
  · obtain ⟨h1, s1, h2⟩ := reset_wellFormed hw id
    rw [h2] at h1 ⊢
    simp only [Outcome.andThen]
    cases hg : mapGet s1.tripEventPresenters id with
    | none => exact h1
    | some p =>
      have hmem := mapGet_mem hg
      obtain ⟨d, f, t, e1, e2, e3, _⟩ := h1.entry hmem
      dsimp only at e1 e2 e3
      exact store_wellFormed h1 id p
        { presenter := { p with escKeyDownBound := false }
          listChildren := s1.listChildren
          threw := false } hg (by simp [e1, e2, e3]) rfl
        (fun v hv => h1.shown _ hmem v hv) (fun v hv _ => hv)
  · exact hw

theorem handlerClickCreateEventButton_wellFormed (U : Utils) {s : AppPresenter}
    (hw : WellFormed s) : WellFormed (handlerClickCreateEventButton U s).state := by
  unfold handlerClickCreateEventButton
  have h1 : WellFormed (setFilter U s .MAJOR .EVERYTHING).state := by
    unfold setFilter
    dsimp only
    apply handleModelEvent_wellFormed U
    exact hw.mono rfl rfl rfl (le_refl _)
  have d1 : ∃ s1, setFilter U s .MAJOR .EVERYTHING = .done s1 := ⟨_, rfl⟩
  obtain ⟨s1, hs1⟩ := d1
  rw [hs1] at h1 ⊢
  simp only [Outcome.andThen]
  have h2 : WellFormed (setSort U s1 .MINOR .DAY).state := by
    unfold setSort
    dsimp only
    apply handleModelEvent_wellFormed U
    exact h1.mono rfl rfl rfl (le_refl _)
  have d2 : ∃ s2, setSort U s1 .MINOR .DAY = .done s2 := ⟨_, rfl⟩
  obtain ⟨s2, hs2⟩ := d2
  rw [hs2] at h2 ⊢
  simp only [Outcome.andThen]
  have h2' : WellFormed s2 := h2
  obtain ⟨s3, hs3, h3, _, _, _, _⟩ := resetAll_wellFormed h2'
  rw [hs3]
  simp only [Outcome.state]
  constructor
  · exact h3.initialised
  · intro v hv
    exact Nat.lt_succ_of_lt (h3.allocated v hv)
  · exact h3.distinct
  · intro kp hkp v hv
    dsimp only
    have hlt := h3.allocated v (mem_allViews.2 ⟨kp, hkp, visible_mem_views hv⟩)
    have hm := h3.shown kp hkp v hv
    exact List.mem_cons_of_mem _ (mem_remove.2 ⟨hm, by omega⟩)
  · intro v hv
    dsimp only at hv ⊢
    simp only [Option.some.injEq] at hv
    subst hv
    refine ⟨Nat.lt_succ_self _, ?_⟩
    intro hmem
    exact absurd (h3.allocated _ hmem) (lt_irrefl _)

theorem handlerCloseCreateTripEventForm_wellFormed {s : AppPresenter} (hw : WellFormed s) :
    WellFormed (handlerCloseCreateTripEventForm s) := by
  constructor
  · exact hw.initialised
  · exact hw.allocated
  · exact hw.distinct
  · exact hw.shown
  · intro v hv
    simp [handlerCloseCreateTripEventForm] at hv

/-- Every operation keeps the state well formed. -/
theorem perform_wellFormed (U : Utils) {s : AppPresenter} (hw : WellFormed s)
    (op : Operation) : WellFormed (perform U s op).state := by
  cases op with
  | openEdit id => exact openEdit_wellFormed hw id
  | closeEdit id => exact closeEdit_wellFormed hw id
  | submit id => exact submit_wellFormed U hw id
  | reset id => exact (reset_wellFormed hw id).1
  | escKeyDown id key => exact escKeyDown_wellFormed hw id key
  | toggleFavorite id => exact toggleFavoriteState_wellFormed U hw id
  | handleOpenEditEvent =>
    obtain ⟨s', h1, h2, _⟩ := handleOpenEditEvent_wellFormed hw
    show WellFormed (handleOpenEditEvent s).state
    rw [h1]
    exact h2
  | clickCreateEventButton => exact handlerClickCreateEventButton_wellFormed U hw
  | closeCreateTripEventForm => exact handlerCloseCreateTripEventForm_wellFormed hw
  | modelEvent ut d => exact handleModelEvent_wellFormed U hw ut d

theorem run_wellFormed (U : Utils) (ops : List Operation) {s : AppPresenter}
    (hw : WellFormed s) : WellFormed (run U s ops) := by
  induction ops generalizing s with
  | nil => exact hw
  | cons op ops ih => exact ih (perform_wellFormed U hw op)

theorem openCount_eq_zero_of_closed {r : List (Option Nat × TripEventPresenter)}
    (h : ∀ kp ∈ r, kp.2.isOpenEdit = false) : openCount r = 0 := by
  induction r with
  | nil => rfl
  | cons x rest ih =>
    rw [openCount_cons, ih (fun kp hkp => h kp (List.mem_cons_of_mem _ hkp)),
      h x (List.mem_cons_self _ _)]
    simp

theorem openCount_mapSet_eq_one {r : List (Option Nat × TripEventPresenter)} {k : Option Nat}
    {p p' : TripEventPresenter} (h : ∀ kp ∈ r, kp.2.isOpenEdit = false)
    (hg : mapGet r k = some p) (hp' : p'.isOpenEdit = true) :
    openCount (mapSet r k p') = 1 := by
  induction r with
  | nil => simp [mapGet] at hg
  | cons x rest ih =>
    obtain ⟨k', q⟩ := x
    have hrest : ∀ kp ∈ rest, kp.2.isOpenEdit = false :=
      fun kp hkp => h kp (List.mem_cons_of_mem _ hkp)
    by_cases hk : k' = k
    · simp only [mapSet, hk, if_true, openCount_cons, hp']
      rw [openCount_eq_zero_of_closed hrest]
    · simp only [mapGet, hk, if_false] at hg
      simp only [mapSet, hk, if_false, openCount_cons]
      rw [ih hrest hg, h (k', q) (List.mem_cons_self _ _)]
      simp

/-- Opening the editor of the presenter under `b` in a well-formed state where
the presenter under `a` is open: the handler does not throw, afterwards the
presenter under `a` is closed, the one under `b` is open, and one editor is open. -/
theorem openEdit_other {s : AppPresenter} (hw : WellFormed s) (a b : Option Nat)
    (pa pb : TripEventPresenter)
    (ha : mapGet s.tripEventPresenters a = some pa) (hao : pa.isOpenEdit = true)
    (hb : mapGet s.tripEventPresenters b = some pb) (hbo : pb.isOpenEdit = false) :
    (AppPresenter.openEdit s b).isDone = true ∧
    (mapGet (AppPresenter.openEdit s b).state.tripEventPresenters a).map
      (fun p => p.isOpenEdit) = some false ∧
    (mapGet (AppPresenter.openEdit s b).state.tripEventPresenters b).map
      (fun p => p.isOpenEdit) = some true ∧
    openEditors (AppPresenter.openEdit s b).state = 1 := by
  have hab : a ≠ b := by
    intro h
    subst h
    rw [ha] at hb
    cases hb
    rw [hao] at hbo
    cases hbo
  obtain ⟨s1, h1, h2, h3, h4, h5, h6⟩ := handleOpenEditEvent_wellFormed hw
  have hsa : (mapGet s1.tripEventPresenters a).isSome = true := by
    rw [mapGet_isSome_of_keys h3, ha]; rfl
  have hsb : (mapGet s1.tripEventPresenters b).isSome = true := by
    rw [mapGet_isSome_of_keys h3, hb]; rfl
  cases hga : mapGet s1.tripEventPresenters a with
  | none => simp [hga] at hsa
  | some qa =>
  cases hgb : mapGet s1.tripEventPresenters b with
  | none => simp [hgb] at hsb
  | some qb =>
    have hqa : qa.isOpenEdit = false := h4 _ (mapGet_mem hga)
    have hqb : qb.isOpenEdit = false := h4 _ (mapGet_mem hgb)
    obtain ⟨d, f, t, e1, e2, e3, e4, e5, e6, e7, e8, e9⟩ := h2.entry (mapGet_mem hgb)
    dsimp only at e1 e2 e3 e4 e8 e9
    obtain ⟨ch', hch'⟩ := replace_of_mem f.view d s1.listChildren (e9 hqb)
    have hopen : AppPresenter.openEdit s b = .done
        { s1 with listChildren := ch'
                  tripEventPresenters := mapSet s1.tripEventPresenters b
                    { qb with isOpenEdit := true, escKeyDownBound := true } } := by
      unfold AppPresenter.openEdit
      rw [hb]
      dsimp only
      rw [h1]
      simp only [Outcome.andThen]
      rw [hgb]
      dsimp only
      rw [e1, e2]
      dsimp only
      rw [hch']
    rw [hopen]
    simp only [Outcome.state, Outcome.isDone]
    refine ⟨trivial, ?_, ?_, ?_⟩
    · rw [mapGet_mapSet_ne _ _ _ _ hab, hga]
      simp [hqa]
    · rw [mapGet_mapSet_self]
      rfl
    · rw [openEditors_eq]
      dsimp only
      rw [h5, openCount_mapSet_eq_one h4 hgb rfl]
      rfl

/-! ## The single open editor -/

/-- C1. From a state with no editor open (every registered presenter in Display,
no create form) and after any sequence of operations, at most one of the
registered presenters and the create presenter is open. When the starting state
is well formed, opening the editor of the presenter under `b` while the presenter
under `a` is open does not throw and leaves `a` closed, `b` open and one editor
open. -/
theorem C1_single_open_editor (U : Utils) (s0 : AppPresenter) (h0 : openEditors s0 = 0)
    (ops : List Operation) :
    openEditors (run U s0 ops) ≤ 1 ∧
    (WellFormed s0 → ∀ (a b : Option Nat) (pa pb : TripEventPresenter),
      mapGet (run U s0 ops).tripEventPresenters a = some pa → pa.isOpenEdit = true →
      mapGet (run U s0 ops).tripEventPresenters b = some pb → pb.isOpenEdit = false →
      (AppPresenter.openEdit (run U s0 ops) b).isDone = true ∧
      (mapGet (AppPresenter.openEdit (run U s0 ops) b).state.tripEventPresenters a).map
        (fun p => p.isOpenEdit) = some false ∧
      (mapGet (AppPresenter.openEdit (run U s0 ops) b).state.tripEventPresenters b).map
        (fun p => p.isOpenEdit) = some true ∧
      openEditors (AppPresenter.openEdit (run U s0 ops) b).state = 1) := by
  constructor
  · exact run_openEditors U ops s0 (by omega)
  · intro hw a b pa pb ha hao hb hbo
    exact openEdit_other (run_wellFormed U ops hw) a b pa pb ha hao hb hbo

/-- C1 at the example: the three models send INIT, the editor of the taxi is
opened, then the editor of the bus: the taxi is closed and the bus is open. -/
theorem C1_single_open_editor_witness :
    openEditors (run Example.utils (initial [Example.taxi, Example.bus] .EVERYTHING .DAY)
      Example.loadAndOpenTaxi) ≤ 1 ∧
    (mapGet (AppPresenter.openEdit
      (run Example.utils (initial [Example.taxi, Example.bus] .EVERYTHING .DAY)
        Example.loadAndOpenTaxi) (some 2)).state.tripEventPresenters (some 1)).map
      (fun p => p.isOpenEdit) = some false ∧
    (mapGet (AppPresenter.openEdit
      (run Example.utils (initial [Example.taxi, Example.bus] .EVERYTHING .DAY)
        Example.loadAndOpenTaxi) (some 2)).state.tripEventPresenters (some 2)).map
      (fun p => p.isOpenEdit) = some true :=
  ⟨(C1_single_open_editor Example.utils (initial [Example.taxi, Example.bus] .EVERYTHING .DAY)
      (by decide) Example.loadAndOpenTaxi).1,
   ((C1_single_open_editor Example.utils (initial [Example.taxi, Example.bus] .EVERYTHING .DAY)
      (by decide) Example.loadAndOpenTaxi).2 (wellFormed_initial _ _ _) (some 1) (some 2) _ _
      rfl rfl rfl rfl).2.1,
   ((C1_single_open_editor Example.utils (initial [Example.taxi, Example.bus] .EVERYTHING .DAY)
      (by decide) Example.loadAndOpenTaxi).2 (wellFormed_initial _ _ _) (some 1) (some 2) _ _
      rfl rfl rfl rfl).2.2.1⟩

/-! ## The loading contract -/

/-- While the loading goes on, a MINOR or MAJOR notification renders nothing. -/
theorem rebuild_while_loading (U : Utils) (s : AppPresenter) (hl : s.isLoading = true) :
    (renderTripEventsList U (clearTripEventsList s)).isLoading = true ∧
    (renderTripEventsList U (clearTripEventsList s)).tripEventPresenters = [] ∧
    (renderTripEventsList U (clearTripEventsList s)).nextPresenter = s.nextPresenter ∧
    (renderTripEventsList U (clearTripEventsList s)).isLoadingTripEvents =
      s.isLoadingTripEvents ∧
    (renderTripEventsList U (clearTripEventsList s)).isLoadingOffers = s.isLoadingOffers ∧
    (renderTripEventsList U (clearTripEventsList s)).isLoadingDestinations =
      s.isLoadingDestinations := by
  have hc : (clearTripEventsList s).isLoading = true := hl
  obtain ⟨l1, l2, _, _⟩ := renderTripEventsList_loading U _ hc
  obtain ⟨m1, m2, m3, m4⟩ :=
    modelFields_isLoading (renderTripEventsList_modelFields U (clearTripEventsList s))
  exact ⟨m1.trans hl, l1, l2, m2, m4, m3⟩

/-- An operation other than INIT, run while the loading goes on, leaves the
loading flags as they are and constructs and registers no presenter. -/
theorem perform_while_loading (U : Utils) (s : AppPresenter) (op : Operation)
    (seen : List Payload) (h : StillLoading s seen)
    (hop : ∀ d, op ≠ .modelEvent .INIT d) :
    StillLoading (perform U s op).state seen := by
  obtain ⟨hl, hr, hn, f1, f2, f3⟩ := h
  have hget : ∀ id, mapGet s.tripEventPresenters id = none := by
    intro id; rw [hr]; rfl
  have hsame : ∀ s' : AppPresenter, s' = s → StillLoading s' seen := by
    intro s' hs; subst hs; exact ⟨hl, hr, hn, f1, f2, f3⟩
  have hrebuild : ∀ x : AppPresenter, x.isLoading = true → x.tripEventPresenters = [] →
      x.nextPresenter = 0 → x.isLoadingTripEvents = s.isLoadingTripEvents →
      x.isLoadingOffers = s.isLoadingOffers →
      x.isLoadingDestinations = s.isLoadingDestinations →
      StillLoading (renderTripEventsList U (clearTripEventsList x)) seen := by
    intro x x1 _ x3 x4 x5 x6
    obtain ⟨r1, r2, r3, r4, r5, r6⟩ := rebuild_while_loading U x x1
    exact ⟨r1, r2, r3.trans x3, fun hh => (r4.trans x4).trans (f1 hh),
      fun hh => (r5.trans x5).trans (f2 hh), fun hh => (r6.trans x6).trans (f3 hh)⟩
  have hresetAll : ∀ x : AppPresenter, x.tripEventPresenters = [] →
      resetAll x = .done { x with tripEventPresenters := [], listChildren := x.listChildren } := by
    intro x hx
    unfold resetAll
    rw [hx]
    rfl
  cases op with
  | openEdit id =>
    apply hsame
    show (AppPresenter.openEdit s id).state = s
    unfold AppPresenter.openEdit
    rw [hget]
    rfl
  | closeEdit id =>
    apply hsame
    show (AppPresenter.closeEdit s id).state = s
    unfold AppPresenter.closeEdit
    rw [hget]
    rfl
  | submit id =>
    apply hsame
    show (AppPresenter.submit U s id).state = s
    unfold AppPresenter.submit
    rw [hget]
    rfl
  | reset id =>
    apply hsame
    show (AppPresenter.reset s id).state = s
    unfold AppPresenter.reset
    rw [hget]
    rfl
  | escKeyDown id key =>
    apply hsame
    show (AppPresenter.escKeyDown s id key).state = s
    have hres : AppPresenter.reset s id = .done s := by
      unfold AppPresenter.reset
      rw [hget]
    unfold AppPresenter.escKeyDown
    split
    · rw [hres]
      simp only [Outcome.andThen]
      rw [hget]
      rfl
    · rfl
  | toggleFavorite id =>
    apply hsame
    show (AppPresenter.toggleFavoriteState U s id).state = s
    unfold AppPresenter.toggleFavoriteState
    rw [hget]
    rfl
  | handleOpenEditEvent =>
    show StillLoading (handleOpenEditEvent s).state seen
    unfold handleOpenEditEvent
    have hc : (closeCreateForm s).tripEventPresenters = [] :=
      (closeCreateForm_fields s).1.trans hr
    rw [hresetAll _ hc]
    have hflags : (closeCreateForm s).isLoading = s.isLoading ∧
        (closeCreateForm s).nextPresenter = s.nextPresenter ∧
        (closeCreateForm s).isLoadingTripEvents = s.isLoadingTripEvents ∧
        (closeCreateForm s).isLoadingOffers = s.isLoadingOffers ∧
        (closeCreateForm s).isLoadingDestinations = s.isLoadingDestinations := by
      unfold closeCreateForm
      split <;> exact ⟨rfl, rfl, rfl, rfl, rfl⟩
    obtain ⟨c1, c2, c3, c4, c5⟩ := hflags
    exact ⟨c1.trans hl, rfl, c2.trans hn, fun hh => c3.trans (f1 hh),
      fun hh => c4.trans (f2 hh), fun hh => c5.trans (f3 hh)⟩
  | clickCreateEventButton =>
    show StillLoading (handlerClickCreateEventButton U s).state seen
    have hf : setFilter U s .MAJOR .EVERYTHING = .done
        (renderTripEventsList U (clearTripEventsList
          { s with filter := .EVERYTHING
                   requests := s.requests ++ [Request.setFilter .MAJOR .EVERYTHING] })) := rfl
    have k1 := hrebuild
      { s with filter := .EVERYTHING
               requests := s.requests ++ [Request.setFilter .MAJOR .EVERYTHING] }
      hl hr hn rfl rfl rfl
    generalize renderTripEventsList U (clearTripEventsList
      { s with filter := .EVERYTHING
               requests := s.requests ++ [Request.setFilter .MAJOR .EVERYTHING] }) = s1
      at hf k1
    obtain ⟨a1, a2, a3, a4, a5, a6⟩ := k1
    have hso : setSort U s1 .MINOR .DAY = .done
        (renderTripEventsList U (clearTripEventsList
          { s1 with sort := .DAY
                    requests := s1.requests ++ [Request.setSort .MINOR .DAY] })) := rfl
    obtain ⟨b1, b2, b3, b4, b5, b6⟩ := rebuild_while_loading U
      { s1 with sort := .DAY
                requests := s1.requests ++ [Request.setSort .MINOR .DAY] } a1
    generalize renderTripEventsList U (clearTripEventsList
      { s1 with sort := .DAY
                requests := s1.requests ++ [Request.setSort .MINOR .DAY] }) = s2
      at hso b1 b2 b3 b4 b5 b6
    unfold handlerClickCreateEventButton
    rw [hf]
    simp only [Outcome.andThen]
    rw [hso]
    simp only [Outcome.andThen]
    rw [hresetAll s2 b2]
    simp only [Outcome.state]
    exact ⟨b1, rfl, b3.trans a3, fun hh => b4.trans (a4 hh), fun hh => b5.trans (a5 hh),
      fun hh => b6.trans (a6 hh)⟩
  | closeCreateTripEventForm => exact ⟨hl, hr, hn, f1, f2, f3⟩
  | modelEvent ut d =>
    cases ut with
    | PATCH =>
      apply hsame
      cases d with
      | tripEvent e =>
        show (initPresenter s e.id e).state = s
        exact initPresenter_state_none s e.id e (hget e.id)
      | className n => rfl
      | other => rfl
    | MINOR => exact hrebuild s hl hr hn rfl rfl rfl
    | MAJOR => exact hrebuild s hl hr hn rfl rfl rfl
    | INIT => exact absurd rfl (hop d)

theorem updateLoadingStatus_keeps (s : AppPresenter) (d : Payload) :
    (s.isLoadingTripEvents = true → d ≠ .className TripEventModel.name →
      (updateLoadingStatus s d).isLoadingTripEvents = true) ∧
    (s.isLoadingOffers = true → d ≠ .className OfferModel.name →
      (updateLoadingStatus s d).isLoadingOffers = true) ∧
    (s.isLoadingDestinations = true → d ≠ .className DestinationModel.name →
      (updateLoadingStatus s d).isLoadingDestinations = true) := by
  cases d with
  | className n =>
    obtain ⟨u1, u2, u3⟩ := updateLoadingStatus_flags s n
    refine ⟨fun h hd => ?_, fun h hd => ?_, fun h hd => ?_⟩
    · rw [u1, h]
      have : n ≠ TripEventModel.name := fun hc => hd (by rw [hc])
      simp [this]
    · rw [u2, h]
      have : n ≠ OfferModel.name := fun hc => hd (by rw [hc])
      simp [this]
    · rw [u3, h]
      have : n ≠ DestinationModel.name := fun hc => hd (by rw [hc])
      simp [this]
  | tripEvent e => exact ⟨fun h _ => h, fun h _ => h, fun h _ => h⟩
  | other => exact ⟨fun h _ => h, fun h _ => h, fun h _ => h⟩

/-- An INIT received while the loading goes on: either the loading still goes on,
or the flag of every model is cleared. -/
theorem init_while_loading (U : Utils) (s : AppPresenter) (d : Payload) (seen : List Payload)
    (h : StillLoading s seen) :
    StillLoading (handleModelEvent U s .INIT d).state (seen ++ [d]) ∨
    (Payload.className TripEventModel.name ∈ seen ++ [d] ∧
      Payload.className OfferModel.name ∈ seen ++ [d] ∧
      Payload.className DestinationModel.name ∈ seen ++ [d]) := by
  obtain ⟨hl, hr, hn, f1, f2, f3⟩ := h
  obtain ⟨k1, k2, k3⟩ := updateLoadingStatus_keeps s d
  obtain ⟨u1, u2, _, _, _⟩ := updateLoadingStatus_rest s d
  have hm := renderTripEventsList_modelFields U
    { updateLoadingStatus s d with
      isLoading := (updateLoadingStatus s d).isLoadingTripEvents ||
        (updateLoadingStatus s d).isLoadingDestinations ||
        (updateLoadingStatus s d).isLoadingOffers }
  obtain ⟨m0, m1, m2, m3⟩ := modelFields_isLoading hm
  dsimp only at m0 m1 m2 m3
  by_cases hpost : (handleModelEvent U s .INIT d).state.isLoading = true
  · left
    have hn' := no_presenter_while_loading U s .INIT d hpost
    rw [handleModelEvent_init_state] at hpost hn' ⊢
    have hpost' := hpost
    rw [m0] at hpost'
    obtain ⟨l1, _, _, _⟩ := renderTripEventsList_loading U
      { updateLoadingStatus s d with
        isLoading := (updateLoadingStatus s d).isLoadingTripEvents ||
          (updateLoadingStatus s d).isLoadingDestinations ||
          (updateLoadingStatus s d).isLoadingOffers } hpost'
    refine ⟨hpost, ?_, hn'.trans hn, ?_, ?_, ?_⟩
    · rw [l1]
      exact u1.trans hr
    · intro hh
      rw [List.mem_append, not_or, List.mem_singleton] at hh
      rw [m1]
      exact k1 (f1 hh.1) (fun hc => hh.2 hc.symm)
    · intro hh
      rw [List.mem_append, not_or, List.mem_singleton] at hh
      rw [m3]
      exact k2 (f2 hh.1) (fun hc => hh.2 hc.symm)
    · intro hh
      rw [List.mem_append, not_or, List.mem_singleton] at hh
      rw [m2]
      exact k3 (f3 hh.1) (fun hc => hh.2 hc.symm)
  · right
    rw [handleModelEvent_init_state, m0] at hpost
    have hall : (updateLoadingStatus s d).isLoadingTripEvents = false ∧
        (updateLoadingStatus s d).isLoadingDestinations = false ∧
        (updateLoadingStatus s d).isLoadingOffers = false := by
      revert hpost
      cases (updateLoadingStatus s d).isLoadingTripEvents <;>
        cases (updateLoadingStatus s d).isLoadingDestinations <;>
        cases (updateLoadingStatus s d).isLoadingOffers <;> simp
    obtain ⟨a1, a2, a3⟩ := hall
    refine ⟨?_, ?_, ?_⟩
    · by_contra hh
      rw [List.mem_append, not_or, List.mem_singleton] at hh
      rw [k1 (f1 hh.1) (fun hc => hh.2 hc.symm)] at a1
      cases a1
    · by_contra hh
      rw [List.mem_append, not_or, List.mem_singleton] at hh
      rw [k2 (f2 hh.1) (fun hc => hh.2 hc.symm)] at a3
      cases a3
    · by_contra hh
      rw [List.mem_append, not_or, List.mem_singleton] at hh
      rw [k3 (f3 hh.1) (fun hc => hh.2 hc.symm)] at a2
      cases a2

theorem initPayloads_cons (op : Operation) (ops : List Operation) :
    initPayloads (op :: ops) =
      (match op with
        | .modelEvent .INIT d => [d]
        | _ => []) ++ initPayloads ops := by
  unfold initPayloads
  rw [List.filterMap_cons]
  split <;> rename_i h
  · split <;> simp_all
  · split <;> simp_all

/-- After any operations, the loading still goes on or every model has sent INIT. -/
theorem run_loading (U : Utils) (ops : List Operation) (s : AppPresenter)
    (seen : List Payload)
    (h : StillLoading s seen ∨
      (Payload.className TripEventModel.name ∈ seen ∧
        Payload.className OfferModel.name ∈ seen ∧
        Payload.className DestinationModel.name ∈ seen)) :
    StillLoading (run U s ops) (seen ++ initPayloads ops) ∨
      (Payload.className TripEventModel.name ∈ seen ++ initPayloads ops ∧
        Payload.className OfferModel.name ∈ seen ++ initPayloads ops ∧
        Payload.className DestinationModel.name ∈ seen ++ initPayloads ops) := by
  induction ops generalizing s seen with
  | nil => simpa [initPayloads, run] using h
  | cons op ops ih =>
    have hrun : run U s (op :: ops) = run U (perform U s op).state ops := rfl
    rw [hrun]
    rcases h with h | h
    · by_cases hop : ∃ d, op = .modelEvent .INIT d
      · obtain ⟨d, hd⟩ := hop
        subst hd
        have hp : initPayloads (.modelEvent .INIT d :: ops) = [d] ++ initPayloads ops :=
          initPayloads_cons _ _
        rw [hp, ← List.append_assoc]
        exact ih _ _ (init_while_loading U s d seen h)
      · have hop' : ∀ d, op ≠ .modelEvent .INIT d := fun d hd => hop ⟨d, hd⟩
        have hp : initPayloads (op :: ops) = initPayloads ops := by
          rw [initPayloads_cons]
          split
          · rename_i d
            exact absurd rfl (hop' d)
          · rfl
        rw [hp]
        exact ih _ _ (Or.inl (perform_while_loading U s op seen h hop'))
    · have hmono : ∀ x, x ∈ seen → x ∈ seen ++ initPayloads (op :: ops) :=
        fun x hx => List.mem_append_left _ hx
      right
      exact ⟨hmono _ h.1, hmono _ h.2.1, hmono _ h.2.2⟩

theorem mem_views {p : TripEventPresenter} {v : Nat} :
    v ∈ p.views ↔ (some v = p.tripEventComponent ∨
      some v = p.editTripEventComponent.map (fun f => f.view)) := by
  unfold TripEventPresenter.views
  cases hd : p.tripEventComponent <;> cases hf : p.editTripEventComponent <;>
    simp [eq_comm]

theorem initPayloads_append (ops : List Operation) (ut : UpdateType) (d : Payload) :
    initPayloads (ops ++ [.modelEvent ut d]) =
      initPayloads ops ++ (match ut with
        | .INIT => [d]
        | _ => []) := by
  unfold initPayloads
  rw [List.filterMap_append]
  cases ut <;> rfl

/-- Under the loading contract an INIT finds no presenter: none is registered and
none has been constructed. -/
theorem init_finds_no_presenter (U : Utils) (tripEvents : List TripEvent)
    (filter : FilterType) (sort : SortType) (ops : List Operation) (d : Payload)
    (hadm : InitOnce (ops ++ [.modelEvent .INIT d])) :
    (run U (initial tripEvents filter sort) ops).tripEventPresenters = [] ∧
    (run U (initial tripEvents filter sort) ops).nextPresenter = 0 := by
  obtain ⟨hnd, hin⟩ := hadm
  rw [initPayloads_append] at hnd hin
  dsimp only at hnd hin
  have hd3 := hin d (by simp)
  have hnot : d ∉ initPayloads ops := by
    intro hmem
    rw [List.nodup_append] at hnd
    exact hnd.2.2 hmem (List.mem_singleton_self d)
  have h0 : StillLoading (initial tripEvents filter sort) [] :=
    ⟨rfl, rfl, rfl, fun _ => rfl, fun _ => rfl, fun _ => rfl⟩
  rcases run_loading U ops (initial tripEvents filter sort) [] (Or.inl h0) with h | h
  · exact ⟨h.2.1, h.2.2.1⟩
  · simp only [List.nil_append] at h
    rcases hd3 with hd | hd | hd
    · exact absurd (hd ▸ h.1) hnot
    · exact absurd (hd ▸ h.2.1) hnot
    · exact absurd (hd ▸ h.2.2) hnot

/-- C3. In a state reached from the initial one by any operations, with the
loading contract kept (each model sends INIT once), a MINOR, MAJOR or INIT
notification first brings the application to a state with an empty map in which
every presenter registered before is in the record of destroyed presenters and
has none of its views mounted, and renders from that state. Afterwards every
presenter registered before is destroyed, none of its views is mounted, and every
registered presenter is one constructed by this notification. -/
theorem C3_rebuild (U : Utils) (tripEvents : List TripEvent) (filter : FilterType)
    (sort : SortType) (ops : List Operation) (ut : UpdateType) (d : Payload)
    (hut : ut = .MINOR ∨ ut = .MAJOR ∨ ut = .INIT)
    (hadm : InitOnce (ops ++ [.modelEvent ut d])) :
    (∃ cleared : AppPresenter,
      (handleModelEvent U (run U (initial tripEvents filter sort) ops) ut d).state =
        renderTripEventsList U cleared ∧
      cleared.tripEventPresenters = [] ∧
      ∀ kp ∈ (run U (initial tripEvents filter sort) ops).tripEventPresenters,
        kp.2.pid ∈ cleared.destroyed ∧ ∀ v ∈ kp.2.views, v ∉ cleared.listChildren) ∧
    (∀ kp ∈ (run U (initial tripEvents filter sort) ops).tripEventPresenters,
      kp.2.pid ∈
        (handleModelEvent U (run U (initial tripEvents filter sort) ops) ut d).state.destroyed ∧
      ∀ v ∈ kp.2.views, v ∉
        (handleModelEvent U (run U (initial tripEvents filter sort) ops) ut d).state.listChildren) ∧
    (∀ kp ∈
      (handleModelEvent U (run U (initial tripEvents filter sort) ops) ut d).state.tripEventPresenters,
      (run U (initial tripEvents filter sort) ops).nextPresenter ≤ kp.2.pid) := by
  have hw : WellFormed (run U (initial tripEvents filter sort) ops) :=
    run_wellFormed U ops (wellFormed_initial tripEvents filter sort)
  generalize hs : run U (initial tripEvents filter sort) ops = s at hw
  have hrebuild : ut = .MINOR ∨ ut = .MAJOR → _ := fun h => rebuild_spec U s ut d h
  rcases hut with h | h | h
  · obtain ⟨r1, r2, r3, r4, r5, r6, _⟩ := hrebuild (Or.inl h)
    refine ⟨⟨clearTripEventsList s, r1, r2, ?_⟩, ?_, r6⟩
    · intro kp hkp
      refine ⟨?_, fun v hv => r3 kp hkp v (mem_views.1 hv)⟩
      show kp.2.pid ∈ s.destroyed ++ s.tripEventPresenters.map (fun kp => kp.2.pid)
      exact List.mem_append_right _ (List.mem_map.2 ⟨kp, hkp, rfl⟩)
    · intro kp hkp
      refine ⟨?_, fun v hv => r5 kp hkp v (mem_views.1 hv)
        (hw.allocated v (mem_allViews.2 ⟨kp, hkp, hv⟩))⟩
      rw [r4]
      exact List.mem_append_right _ (List.mem_map.2 ⟨kp, hkp, rfl⟩)
  · obtain ⟨r1, r2, r3, r4, r5, r6, _⟩ := hrebuild (Or.inr h)
    refine ⟨⟨clearTripEventsList s, r1, r2, ?_⟩, ?_, r6⟩
    · intro kp hkp
      refine ⟨?_, fun v hv => r3 kp hkp v (mem_views.1 hv)⟩
      show kp.2.pid ∈ s.destroyed ++ s.tripEventPresenters.map (fun kp => kp.2.pid)
      exact List.mem_append_right _ (List.mem_map.2 ⟨kp, hkp, rfl⟩)
    · intro kp hkp
      refine ⟨?_, fun v hv => r5 kp hkp v (mem_views.1 hv)
        (hw.allocated v (mem_allViews.2 ⟨kp, hkp, hv⟩))⟩
      rw [r4]
      exact List.mem_append_right _ (List.mem_map.2 ⟨kp, hkp, rfl⟩)
  · subst h
    obtain ⟨e1, e2⟩ := init_finds_no_presenter U tripEvents filter sort ops d hadm
    rw [hs] at e1 e2
    have hempty : ∀ kp, kp ∈ s.tripEventPresenters → False := by
      intro kp hkp
      rw [e1] at hkp
      simp at hkp
    have hreg : (updateLoadingStatus s d).tripEventPresenters = [] :=
      (updateLoadingStatus_rest s d).1.trans e1
    refine ⟨⟨_, handleModelEvent_init_state U s d, hreg, fun kp hkp => (hempty kp hkp).elim⟩,
      fun kp hkp => (hempty kp hkp).elim, ?_⟩
    intro kp hkp
    rw [e2]
    exact Nat.zero_le _

/-- C3 at the example. The three models send INIT, then a MAJOR notification
arrives: the view 0 of the presenter registered under id 1 is no longer mounted.
Two models have sent INIT and the third one does: the presenter then registered
under id 1 is the first one ever constructed. -/
theorem C3_rebuild_witness :
    0 ∉ (handleModelEvent Example.utils
      (run Example.utils (initial [Example.taxi, Example.bus] .EVERYTHING .DAY) Example.load)
      .MAJOR .other).state.listChildren ∧
    (run Example.utils (initial [Example.taxi, Example.bus] .EVERYTHING .DAY)
      [.modelEvent .INIT (.className TripEventModel.name),
       .modelEvent .INIT (.className OfferModel.name)]).nextPresenter ≤ 0 :=
  ⟨((C3_rebuild Example.utils [Example.taxi, Example.bus] .EVERYTHING .DAY Example.load
      .MAJOR .other (Or.inr (Or.inl rfl)) ⟨by decide, by decide⟩).2.1
      (some 1,
        { pid := 0
          tripEvent := some Example.taxi
          tripEventComponent := some 0
          editTripEventComponent :=
            some { view := 1, state := EditFormView.parseTripEventToState Example.taxi }
          isOpenEdit := false
          escKeyDownBound := false })
      (by decide)).2 0 (by decide),
   (C3_rebuild Example.utils [Example.taxi, Example.bus] .EVERYTHING .DAY
      [.modelEvent .INIT (.className TripEventModel.name),
       .modelEvent .INIT (.className OfferModel.name)]
      .INIT (.className DestinationModel.name) (Or.inr (Or.inr rfl))
      ⟨by decide, by decide⟩).2.2
      (some 1,
        { pid := 0
          tripEvent := some Example.taxi
          tripEventComponent := some 0
          editTripEventComponent :=
            some { view := 1, state := EditFormView.parseTripEventToState Example.taxi }
          isOpenEdit := false
          escKeyDownBound := false })
      (by decide)⟩

/-! ## The create flow -/

theorem modelFields_filter {s s' : AppPresenter} (h : s'.modelFields = s.modelFields) :
    s'.filter = s.filter ∧ s'.sort = s.sort ∧
    s'.newEventButtonDisabled = s.newEventButtonDisabled := by
  simp only [modelFields, Prod.mk.injEq] at h
  exact ⟨h.2.1, h.2.2.1, h.2.2.2.2.1⟩

theorem closed_of_openCount_eq_zero {r : List (Option Nat × TripEventPresenter)}
    (h : openCount r = 0) : ∀ kp ∈ r, kp.2.isOpenEdit = false := by
  induction r with
  | nil => intro kp hkp; simp at hkp
  | cons x rest ih =>
    rw [openCount_cons] at h
    intro kp hkp
    rcases List.mem_cons.1 hkp with h1 | h1
    · subst h1
      cases hx : kp.2.isOpenEdit with
      | false => rfl
      | true => simp [hx] at h
    · exact ih (by omega) kp h1

theorem reset_of_closed (p : TripEventPresenter) (ch : List Nat) (h : p.isOpenEdit = false) :
    p.reset ch = { presenter := p, listChildren := ch, threw := false } := by
  unfold TripEventPresenter.reset
  simp [h]

theorem resetEach_of_closed (r : List (Option Nat × TripEventPresenter)) (ch : List Nat)
    (h : ∀ kp ∈ r, kp.2.isOpenEdit = false) : resetEach r ch = (r, ch, false) := by
  induction r with
  | nil => rfl
  | cons x rest ih =>
    obtain ⟨k, p⟩ := x
    have hp : p.isOpenEdit = false := h (k, p) (List.mem_cons_self _ _)
    rw [resetEach, reset_of_closed p ch hp]
    simp [ih (fun kp hkp => h kp (List.mem_cons_of_mem _ hkp))]

theorem resetAll_of_closed (s : AppPresenter)
    (h : ∀ kp ∈ s.tripEventPresenters, kp.2.isOpenEdit = false) : resetAll s = .done s := by
  unfold resetAll
  rw [resetEach_of_closed _ _ h]
  rfl

/-- A MINOR or MAJOR notification writes none of the model values, and leaves
every registered presenter closed. -/
theorem rebuild_fields (U : Utils) (s : AppPresenter) :
    (renderTripEventsList U (clearTripEventsList s)).filter = s.filter ∧
    (renderTripEventsList U (clearTripEventsList s)).sort = s.sort ∧
    (renderTripEventsList U (clearTripEventsList s)).tripEventModel = s.tripEventModel ∧
    (renderTripEventsList U (clearTripEventsList s)).requests = s.requests ∧
    (renderTripEventsList U (clearTripEventsList s)).addTripEventPresenter =
      s.addTripEventPresenter ∧
    (∀ kp ∈ (renderTripEventsList U (clearTripEventsList s)).tripEventPresenters,
      kp.2.isOpenEdit = false) := by
  have hm := renderTripEventsList_modelFields U (clearTripEventsList s)
  obtain ⟨f1, f2, _⟩ := modelFields_filter hm
  obtain ⟨_, d2, d3, d4⟩ := modelFields_destroyed hm
  refine ⟨f1, f2, d4, d3, d2, closed_of_openCount_eq_zero ?_⟩
  have := (renderTripEventsList_openEditors U (clearTripEventsList s)).1
  have hz : openCount (clearTripEventsList s).tripEventPresenters = 0 := rfl
  omega

/-- C11. In every state the create-button click handler runs to its end, and
then the filter is EVERYTHING, the sort is DAY, the create button is disabled, a
create presenter exists, every registered presenter is closed, and the canonical
collection is the one before the click; the two requests it made are `setFilter`
at MAJOR and `setSort` at MINOR. After the close callback of the create form the
button is enabled, the create presenter is gone and the collection is still the
same. -/
theorem C11_create_flow (U : Utils) (s : AppPresenter) :
    ∃ s', handlerClickCreateEventButton U s = .done s' ∧
      s'.filter = .EVERYTHING ∧ s'.sort = .DAY ∧
      s'.newEventButtonDisabled = true ∧
      s'.addTripEventPresenter.isSome = true ∧
      (∀ kp ∈ s'.tripEventPresenters, kp.2.isOpenEdit = false) ∧
      s'.tripEventModel = s.tripEventModel ∧
      s'.requests = s.requests ++
        [Request.setFilter .MAJOR .EVERYTHING, Request.setSort .MINOR .DAY] ∧
      (handlerCloseCreateTripEventForm s').newEventButtonDisabled = false ∧
      (handlerCloseCreateTripEventForm s').addTripEventPresenter = none ∧
      (handlerCloseCreateTripEventForm s').tripEventModel = s.tripEventModel ∧
      (∀ kp ∈ (handlerCloseCreateTripEventForm s').tripEventPresenters,
        kp.2.isOpenEdit = false) := by
  have hf : setFilter U s .MAJOR .EVERYTHING = .done
      (renderTripEventsList U (clearTripEventsList
        { s with filter := .EVERYTHING
                 requests := s.requests ++ [Request.setFilter .MAJOR .EVERYTHING] })) := rfl
  obtain ⟨a1, a2, a3, a4, _, _⟩ := rebuild_fields U
    { s with filter := .EVERYTHING
             requests := s.requests ++ [Request.setFilter .MAJOR .EVERYTHING] }
  generalize hs1 : renderTripEventsList U (clearTripEventsList
    { s with filter := .EVERYTHING
             requests := s.requests ++ [Request.setFilter .MAJOR .EVERYTHING] }) = s1
    at hf a1 a2 a3 a4
  have hso : setSort U s1 .MINOR .DAY = .done
      (renderTripEventsList U (clearTripEventsList
        { s1 with sort := .DAY
                  requests := s1.requests ++ [Request.setSort .MINOR .DAY] })) := rfl
  obtain ⟨b1, b2, b3, b4, _, b6⟩ := rebuild_fields U
    { s1 with sort := .DAY
              requests := s1.requests ++ [Request.setSort .MINOR .DAY] }
  generalize hs2 : renderTripEventsList U (clearTripEventsList
    { s1 with sort := .DAY
              requests := s1.requests ++ [Request.setSort .MINOR .DAY] }) = s2
    at hso b1 b2 b3 b4 b6
  have hr := resetAll_of_closed s2 b6
  have hrun : handlerClickCreateEventButton U s = .done
      { s2 with newEventButtonDisabled := true
                addTripEventPresenter := some s2.nextView
                listChildren := s2.nextView :: remove s2.nextView s2.listChildren
                nextView := s2.nextView + 1 } := by
    unfold handlerClickCreateEventButton
    rw [hf]
    simp only [Outcome.andThen]
    rw [hso]
    simp only [Outcome.andThen]
    rw [hr]
  refine ⟨_, hrun, ?_, ?_, rfl, rfl, b6, ?_, ?_, rfl, rfl, ?_, b6⟩
  · exact b1.trans a1
  · exact b2
  · exact b3.trans a3
  · show s2.requests = _
    rw [b4]
    show s1.requests ++ _ = _
    rw [a4]
    simp
  · exact b3.trans a3

/-! ## The empty-state placeholder -/

theorem placeholders_append_list (cs : List ContainerChild) :
    (cs.filter (fun c => c != ContainerChild.list) ++ [ContainerChild.list]).filterMap
      ContainerChild.placeholder = cs.filterMap ContainerChild.placeholder := by
  induction cs with
  | nil => rfl
  | cons c cs ih =>
    cases c with
    | list =>
      simp only [List.filter_cons, bne_self_eq_false, Bool.false_eq_true, if_false,
        List.filterMap_cons, ContainerChild.placeholder]
      exact ih
    | empty v =>
      have hne : (ContainerChild.empty v != ContainerChild.list) = true := by simp
      simp only [List.filter_cons, hne, if_true, List.cons_append, List.filterMap_cons,
        ContainerChild.placeholder]
      rw [ih]

/-- What one rendering does to the placeholders and the sort bar once the loading
is over: with an empty derived list one new placeholder is appended to those
already mounted and the sort bar is not initialised; with a non-empty one the
sort bar is initialised and the mounted placeholders stay as they are. -/
theorem renderTripEventsList_placeholders (U : Utils) (s : AppPresenter)
    (h : s.isLoading = false) :
    (tripEvents U s = [] →
      (renderTripEventsList U s).placeholders = s.placeholders ++ [s.nextView] ∧
      (renderTripEventsList U s).sortsPresenterInits = s.sortsPresenterInits) ∧
    (tripEvents U s ≠ [] →
      (renderTripEventsList U s).placeholders = s.placeholders ∧
      (renderTripEventsList U s).sortsPresenterInits = s.sortsPresenterInits + 1) := by
  unfold renderTripEventsList
  dsimp only
  split
  · rename_i hl
    rw [h] at hl
    cases hl
  · split
    · rename_i _ hlen
      have hne : tripEvents U s ≠ [] := List.length_pos.1 hlen
      refine ⟨fun he => absurd he hne, fun _ => ⟨?_, ?_⟩⟩
      · unfold placeholders
        rw [foldl_create_inv (fun x => x.containerChildren) (fun _ _ => rfl)]
        exact placeholders_append_list _
      · rw [foldl_create_inv (fun x => x.sortsPresenterInits) (fun _ _ => rfl)]
    · rename_i _ hlen
      refine ⟨fun _ => ⟨?_, ?_⟩, fun he => absurd (List.length_pos.2 he) hlen⟩
      · unfold placeholders
        rw [foldl_create_inv (fun x => x.containerChildren) (fun _ _ => rfl)]
        dsimp only
        rw [List.filterMap_append, placeholders_append_list]
        rfl
      · rw [foldl_create_inv (fun x => x.sortsPresenterInits) (fun _ _ => rfl)]

/-- Clearing the list removes no placeholder. -/
theorem clearTripEventsList_placeholders (s : AppPresenter) :
    (clearTripEventsList s).placeholders = s.placeholders ∧
    (clearTripEventsList s).nextView = s.nextView ∧
    (clearTripEventsList s).isLoading = s.isLoading ∧
    (clearTripEventsList s).sortsPresenterInits = s.sortsPresenterInits := ⟨rfl, rfl, rfl, rfl⟩

/-- C12. The code at the failing input: an empty collection, the INIT of the
three models, then one MAJOR notification. The loading is over and the derived
list is empty, yet two placeholders are mounted (the views 0 and 1); with a click
on the create button in place of the MAJOR notification there are three. The sort
bar is initialised by none of these renderings. -/
theorem C12_placeholders_accumulate :
    (run Example.utils (initial [] .EVERYTHING .DAY) Example.loadThenMajor).isLoading = false ∧
    tripEvents Example.utils
      (run Example.utils (initial [] .EVERYTHING .DAY) Example.loadThenMajor) = [] ∧
    (run Example.utils (initial [] .EVERYTHING .DAY) Example.loadThenMajor).placeholders
      = [0, 1] ∧
    (run Example.utils (initial [] .EVERYTHING .DAY) Example.loadThenMajor).sortsPresenterInits
      = 0 ∧
    (run Example.utils (initial [] .EVERYTHING .DAY) Example.loadThenClickCreate).placeholders
      = [0, 1, 2] := by
  decide

end BigTrip
